import Mathlib

/-!
# stellar-core: catch-up range planning, the catch-up pipeline and the Herder

A shallow embedding of `src/catchup/CatchupWork.cpp` and `src/herder/HerderImpl.cpp`.
Unsigned machine integers are natural numbers reduced modulo their width at every
arithmetic operation; code that can throw returns `Except Failure _`.
-/

namespace stellar

/-! ## Failures -/

/-- The three `std::invalid_argument` messages of `computeCatchupledgers`. -/
inductive InvalidArgument where
  | lastClosedLedgerIsZero
  | toLedgerNotAfterLastClosedLedger
  | toLedgerIsCurrent
  deriving DecidableEq, Repr

/-- Exceptions and fatal exits of the embedded code. -/
inductive Failure where
  | invalid_argument (what : InvalidArgument)
  | logic_error
  | runtime_error
  | xdr_error
  | abort
  | assertion
  | null_dereference
  deriving DecidableEq, Repr

/-! ## 32-bit and 64-bit unsigned arithmetic -/

/-- Reduction to `uint32_t`. -/
def u32 (n : Nat) : Nat := n % 4294967296

/-- Addition in `uint32_t`. -/
def u32add (a b : Nat) : Nat := (a + b) % 4294967296

/-- Subtraction in `uint32_t` (operands already reduced). -/
def u32sub (a b : Nat) : Nat := (a + 4294967296 - b) % 4294967296

/-- Reduction to `uint64_t`. -/
def u64 (n : Nat) : Nat := n % 18446744073709551616

/-- Conversion of a signed value to `uint64_t`: reduction modulo `2 ^ 64`. -/
def u64OfInt (n : Int) : Nat := (n % 18446744073709551616).toNat

/-- Reduction to `int64_t`, in two's complement. -/
def i64 (n : Int) : Int :=
  (n + 9223372036854775808) % 18446744073709551616 - 9223372036854775808

/-! ## Catch-up range planner (`CatchupWork.cpp`, lines 342-441) -/

/-- Modelled from the spec: `LedgerManager::GENESIS_LEDGER_SEQ` is declared in
`ledger/LedgerManager.h`, which is not among the sources; genesis is ledger 1. -/
def GENESIS_LEDGER_SEQ : Nat := 1

/-- The fields of `CatchupConfiguration` read by the planner: `toLedger()` and `count()`. -/
structure CatchupConfiguration where
  toLedger : Nat
  count : Nat
  deriving DecidableEq, Repr

/-- The value of `CatchupConfiguration::CURRENT`: `doWork` prints a target of `0` as CURRENT. -/
def CatchupConfiguration.CURRENT : Nat := 0

/-- Modelled from the spec: `CatchupConfiguration::resolve` is defined in
`catchup/CatchupConfiguration.cpp`, which is not among the sources; a target of CURRENT is
resolved to the ledger of the remote archive state, a concrete target is kept. -/
def CatchupConfiguration.resolve (c : CatchupConfiguration) (remoteCheckpoint : Nat) :
    CatchupConfiguration :=
  if c.toLedger = CatchupConfiguration.CURRENT then { c with toLedger := remoteCheckpoint } else c

/-- Modelled from the spec: `HistoryManager` is implemented in `history/HistoryManagerImpl.cpp`,
which is not among the sources; the planner only uses its checkpoint frequency and
`checkpointContainingLedger`. -/
structure HistoryManager where
  mCheckpointFrequency : Nat
  deriving DecidableEq, Repr

/-- Modelled from the spec: the accessor `HistoryManager::getCheckpointFrequency`. -/
def HistoryManager.getCheckpointFrequency (hm : HistoryManager) : Nat :=
  hm.mCheckpointFrequency

/-- Modelled from the spec: `HistoryManager::checkpointContainingLedger`; checkpoint boundaries
are the ledgers `k * freq - 1` (63, 127, ... for a frequency of 64) and the checkpoint containing
a ledger is the smallest boundary not below it. -/
def HistoryManager.checkpointContainingLedger (hm : HistoryManager) (ledger : Nat) : Nat :=
  (ledger + hm.mCheckpointFrequency) / hm.mCheckpointFrequency * hm.mCheckpointFrequency - 1

/-- Modelled from the spec: `HistoryManager::nextCheckpointLedger`, the first multiple of the
checkpoint frequency not below `ledger` (so that `nextCheckpointLedger (l + 1) - 1` is the
checkpoint containing `l`). -/
def HistoryManager.nextCheckpointLedger (hm : HistoryManager) (ledger : Nat) : Nat :=
  if ledger = 0 then hm.mCheckpointFrequency
  else (ledger + hm.mCheckpointFrequency - 1) / hm.mCheckpointFrequency * hm.mCheckpointFrequency

/-- A ledger is a checkpoint boundary when it is `k * freq - 1` for some `k >= 1`. -/
def HistoryManager.isCheckpointBoundary (hm : HistoryManager) (ledger : Nat) : Bool :=
  (ledger + 1) % hm.mCheckpointFrequency == 0

/-- `CatchupRange::Ledgers`. -/
structure Ledgers where
  mFirst : Nat
  mCount : Nat
  deriving DecidableEq, Repr

/-- `computeCatchupledgers` (anonymous namespace of `CatchupWork.cpp`). Every value is a
`uint32_t`; the checkpoint returned by the history manager is stored in one. -/
def computeCatchupledgers (lastClosedLedger : Nat) (configuration : CatchupConfiguration)
    (historyManager : HistoryManager) : Except Failure Ledgers :=
  if lastClosedLedger = 0 then
    .error (.invalid_argument .lastClosedLedgerIsZero)
  else if configuration.toLedger ≤ lastClosedLedger then
    .error (.invalid_argument .toLedgerNotAfterLastClosedLedger)
  else if configuration.toLedger = CatchupConfiguration.CURRENT then
    .error (.invalid_argument .toLedgerIsCurrent)
  -- do a complete catchup if not starting from new-db
  else if lastClosedLedger > GENESIS_LEDGER_SEQ then
    .ok ⟨u32add lastClosedLedger 1, u32sub configuration.toLedger lastClosedLedger⟩
  -- do a complete catchup if count is big enough
  else if configuration.count ≥ u32sub configuration.toLedger GENESIS_LEDGER_SEQ then
    .ok ⟨u32add GENESIS_LEDGER_SEQ 1, u32sub configuration.toLedger GENESIS_LEDGER_SEQ⟩
  else
    let smallestLedgerToApply :=
      u32add (u32sub configuration.toLedger (max 1 configuration.count)) 1
    let firstCheckpoint := u32 (historyManager.checkpointContainingLedger 1)
    let smallestCheckpointToApply :=
      u32 (historyManager.checkpointContainingLedger smallestLedgerToApply)
    -- first ledger to apply is on a checkpoint boundary: bucket-apply there
    if smallestCheckpointToApply = smallestLedgerToApply then
      .ok ⟨u32add smallestLedgerToApply 1, u32sub configuration.toLedger smallestLedgerToApply⟩
    -- we are before the first checkpoint: full catchup is required
    else if smallestCheckpointToApply = firstCheckpoint then
      .ok ⟨u32add GENESIS_LEDGER_SEQ 1, u32sub configuration.toLedger GENESIS_LEDGER_SEQ⟩
    -- need one more checkpoint
    else
      .ok ⟨u32add (u32sub smallestCheckpointToApply historyManager.getCheckpointFrequency) 1,
           u32add (u32sub configuration.toLedger smallestCheckpointToApply)
             historyManager.getCheckpointFrequency⟩

/-- `CatchupRange`: the ledgers to replay and whether buckets are applied first. -/
structure CatchupRange where
  mLedgers : Ledgers
  mApplyBuckets : Bool
  deriving DecidableEq, Repr

/-- The constructor `CatchupRange::CatchupRange(lastClosedLedger, configuration, historyManager)`. -/
def CatchupRange.ctor (lastClosedLedger : Nat) (configuration : CatchupConfiguration)
    (historyManager : HistoryManager) : Except Failure CatchupRange :=
  match computeCatchupledgers lastClosedLedger configuration historyManager with
  | .error e => .error e
  | .ok mLedgers => .ok ⟨mLedgers, decide (mLedgers.mFirst > u32add lastClosedLedger 1)⟩

/-- `CatchupRange::getLast`. -/
def CatchupRange.getLast (r : CatchupRange) : Nat :=
  u32sub (u32add r.mLedgers.mFirst r.mLedgers.mCount) 1

/-- `CatchupRange::getBucketApplyLedger`. -/
def CatchupRange.getBucketApplyLedger (r : CatchupRange) : Except Failure Nat :=
  if !r.mApplyBuckets then .error .logic_error
  else .ok (u32sub r.mLedgers.mFirst 1)

/-- Modelled from the spec: `CatchupRange::applyLedgers` is defined in `catchup/CatchupWork.h`,
which is not among the sources; transactions are applied only if the range includes ledgers to
replay. -/
def CatchupRange.applyLedgers (r : CatchupRange) : Bool :=
  decide (r.mLedgers.mCount > 0)

/-! ## The catch-up pipeline (`CatchupWork.cpp`, lines 70-340) -/

/-- Modelled from the spec: `BasicWork::State` is declared in `work/BasicWork.h`, which is not
among the sources; `doWork` names the running, success and failure states, and a work may also
be waiting. -/
inductive State where
  | WORK_RUNNING
  | WORK_WAITING
  | WORK_SUCCESS
  | WORK_FAILURE
  deriving DecidableEq, Repr

/-- The fields of `HistoryArchiveState` read by the pipeline. -/
structure HistoryArchiveState where
  currentLedger : Nat
  bucketListHash : Nat
  deriving DecidableEq, Repr

/-- The fields of `LedgerHeaderHistoryEntry` read by the pipeline. -/
structure LedgerHeaderHistoryEntry where
  ledgerSeq : Nat
  bucketListHash : Nat
  deriving DecidableEq, Repr

/-- The progress states passed to the progress handler. -/
inductive ProgressState where
  | APPLIED_BUCKETS
  | APPLIED_TRANSACTIONS
  | FINISHED
  | FAILED
  deriving DecidableEq, Repr

/-- What the pipeline tells its collaborators, in order. -/
inductive CatchupEvent where
  | progress (s : ProgressState) (ledgerSeq : Nat)
  | historyCaughtup
  deriving DecidableEq, Repr

/-- The works that `doWork` pushes into the vector `seq` from which the catch-up sequence is
built. -/
inductive CatchupSeqMember where
  | bucketVerifyApplySeq
  | transactionsVerifyApplySeq
  deriving DecidableEq, Repr

/-- The child works that `doWork` creates, with the arguments they are created with; the
catch-up sequence is created with the vector `seq`, in the order of its `push_back` calls. -/
inductive ChildWork where
  | getHistoryArchiveState (toCheckpoint : Nat)
  | getBucketState (applyBucketsAt : Nat)
  | downloadVerifyLedgers (first last : Nat)
  | downloadApplyBuckets
  | downloadApplyTransactions (first last : Nat)
  | catchupSeq (seq : List CatchupSeqMember)
  deriving DecidableEq, Repr

/-- The collaborators `doWork` reads: the history manager, the ledger manager's last closed
ledger header and the range start reported by the ledger-chain verification work. -/
structure CatchupEnv where
  historyManager : HistoryManager
  lastClosedLedgerHeader : LedgerHeaderHistoryEntry
  verifiedLedgerRangeStart : LedgerHeaderHistoryEntry
  deriving DecidableEq, Repr

/-- The members of `CatchupWork` used by `doWork`. A child work pointer is `none` while unset
and otherwise holds the state the child reports (`getState()`); `mChildren` lists the works
created so far and `mEvents` the notifications issued so far. -/
structure CatchupWork where
  mCatchupConfiguration : CatchupConfiguration
  mLastClosedLedgerHashPair : Nat
  mRemoteState : HistoryArchiveState
  mApplyBucketsRemoteState : HistoryArchiveState
  mGetHistoryArchiveStateWork : Option State
  mGetBucketStateWork : Option State
  mDownloadVerifyLedgersSeq : Option State
  mBucketVerifyApplySeq : Option State
  mTransactionsVerifyApplySeq : Option State
  mCatchupSeq : Option State
  mBucketsAppliedEmitted : Bool
  mVerifiedLedgerRangeStart : LedgerHeaderHistoryEntry
  mLastApplied : LedgerHeaderHistoryEntry
  mChildren : List ChildWork
  mEvents : List CatchupEvent
  deriving DecidableEq, Repr

/-- `CatchupWork::hasAnyLedgersToCatchupTo`; the first assertion is that the archive-state work
exists, the second that it has succeeded. -/
def CatchupWork.hasAnyLedgersToCatchupTo (w : CatchupWork) : Except Failure Bool :=
  match w.mGetHistoryArchiveStateWork with
  | none => .error .assertion
  | some st =>
    if st ≠ State.WORK_SUCCESS then .error .assertion
    else .ok (decide (w.mLastClosedLedgerHashPair ≤ w.mRemoteState.currentLedger))

/-- `CatchupWork::alreadyHaveBucketsHistoryArchiveState`. -/
def CatchupWork.alreadyHaveBucketsHistoryArchiveState (w : CatchupWork) (atCheckpoint : Nat) :
    Bool :=
  decide (atCheckpoint = w.mRemoteState.currentLedger)

/-- `CatchupWork::assertBucketState`. -/
def CatchupWork.assertBucketState (env : CatchupEnv) (w : CatchupWork) : Except Failure Unit :=
  if w.mApplyBucketsRemoteState.currentLedger ≠ w.mVerifiedLedgerRangeStart.ledgerSeq then
    .error .assertion
  else if w.mApplyBucketsRemoteState.bucketListHash ≠ w.mVerifiedLedgerRangeStart.bucketListHash
  then
    .error .assertion
  else if w.mVerifiedLedgerRangeStart.ledgerSeq < env.lastClosedLedgerHeader.ledgerSeq then
    .error .runtime_error
  else .ok ()

/-- `CatchupWork::downloadVerifyLedgerChain`: the verified range starts at the bucket-apply
ledger when buckets are applied and at the first replayed ledger otherwise. -/
def CatchupWork.downloadVerifyLedgerChain (w : CatchupWork) (catchupRange : CatchupRange) :
    Except Failure CatchupWork :=
  let first : Except Failure Nat :=
    if catchupRange.mApplyBuckets then catchupRange.getBucketApplyLedger
    else .ok catchupRange.mLedgers.mFirst
  match first with
  | .error e => .error e
  | .ok f =>
    .ok { w with
      mDownloadVerifyLedgersSeq := some State.WORK_RUNNING
      mChildren := w.mChildren ++ [.downloadVerifyLedgers f catchupRange.getLast] }

/-- Step 4 of `CatchupWork::doWork`: download, verify and apply ledgers, buckets and
transactions, once the catch-up range is known. -/
def CatchupWork.doWorkApply (env : CatchupEnv) (w : CatchupWork) (catchupRange : CatchupRange) :
    Except Failure (CatchupWork × State) :=
  match w.mCatchupSeq with
  | some cs =>
    -- bucket and transaction processing has started
    if w.mDownloadVerifyLedgersSeq.isNone then .error .assertion
    else if !(w.mTransactionsVerifyApplySeq.isSome || !catchupRange.applyLedgers) then
      .error .assertion
    else if cs = State.WORK_SUCCESS then .ok (w, State.WORK_SUCCESS)
    else
      match w.mBucketVerifyApplySeq with
      | some bs =>
        if bs = State.WORK_SUCCESS ∧ w.mBucketsAppliedEmitted = false then
          .ok ({ w with
                  mEvents := w.mEvents ++
                    [.progress .APPLIED_BUCKETS w.mVerifiedLedgerRangeStart.ledgerSeq]
                  mBucketsAppliedEmitted := true
                  mLastApplied := env.lastClosedLedgerHeader }, cs)
        else .ok (w, cs)
      | none => .ok (w, cs)
  | none =>
    match w.mDownloadVerifyLedgersSeq with
    | some ds =>
      -- still waiting for ledger headers
      if ds = State.WORK_SUCCESS then
        let w1 := { w with mVerifiedLedgerRangeStart := env.verifiedLedgerRangeStart }
        let checked : Except Failure Unit :=
          if catchupRange.mApplyBuckets ∧ w1.mBucketsAppliedEmitted = false then
            w1.assertBucketState env
          else .ok ()
        match checked with
        | .error e => .error e
        | .ok _ =>
          let w2 :=
            if catchupRange.mApplyBuckets then
              { w1 with
                mBucketVerifyApplySeq := some State.WORK_RUNNING
                mChildren := w1.mChildren ++ [.downloadApplyBuckets] }
            else w1
          let w3 :=
            if catchupRange.applyLedgers then
              { w2 with
                mTransactionsVerifyApplySeq := some State.WORK_RUNNING
                mChildren := w2.mChildren ++
                  [.downloadApplyTransactions catchupRange.mLedgers.mFirst catchupRange.getLast] }
            else w2
          .ok ({ w3 with
                  mCatchupSeq := some State.WORK_RUNNING
                  mChildren := w3.mChildren ++
                    [.catchupSeq
                      ((if catchupRange.mApplyBuckets then
                          [CatchupSeqMember.bucketVerifyApplySeq] else []) ++
                        (if catchupRange.applyLedgers then
                          [CatchupSeqMember.transactionsVerifyApplySeq] else []))] },
               State.WORK_RUNNING)
      else .ok (w, ds)
    | none =>
      -- step 4.1: download and verify the ledger chain
      match w.downloadVerifyLedgerChain catchupRange with
      | .error e => .error e
      | .ok w1 => .ok (w1, State.WORK_RUNNING)

/-- Step 3 of `CatchupWork::doWork`: when buckets are applied, make sure the archive state at
the bucket-apply ledger is known; then go on with step 4. -/
def CatchupWork.doWorkBuckets (env : CatchupEnv) (w : CatchupWork) (catchupRange : CatchupRange) :
    Except Failure (CatchupWork × State) :=
  if catchupRange.mApplyBuckets then
    match catchupRange.getBucketApplyLedger with
    | .error e => .error e
    | .ok applyBucketsAt =>
      if !w.alreadyHaveBucketsHistoryArchiveState applyBucketsAt then
        let w1 : CatchupWork :=
          match w.mGetBucketStateWork with
          | none =>
            { w with
              mGetBucketStateWork := some State.WORK_RUNNING
              mChildren := w.mChildren ++ [ChildWork.getBucketState applyBucketsAt] }
          | some _ => w
        match w1.mGetBucketStateWork with
        | some State.WORK_SUCCESS => w1.doWorkApply env catchupRange
        | some st => .ok (w1, st)
        | none => .error .null_dereference
      else
        ({ w with mApplyBucketsRemoteState := w.mRemoteState }).doWorkApply env catchupRange
  else w.doWorkApply env catchupRange

/-- `CatchupWork::doWork`: one poll of the pipeline. The result is the state returned to the
scheduler, or the exception that leaves `doWork`. -/
def CatchupWork.doWork (env : CatchupEnv) (w : CatchupWork) :
    Except Failure (CatchupWork × State) :=
  match w.mGetHistoryArchiveStateWork with
  | none =>
    -- step 1: get the history archive state
    let toCheckpoint :=
      if w.mCatchupConfiguration.toLedger = CatchupConfiguration.CURRENT then
        CatchupConfiguration.CURRENT
      else
        u32sub (u32 (env.historyManager.nextCheckpointLedger
          (u32add w.mCatchupConfiguration.toLedger 1))) 1
    .ok ({ w with
            mGetHistoryArchiveStateWork := some State.WORK_RUNNING
            mChildren := w.mChildren ++ [.getHistoryArchiveState toCheckpoint] }, State.WORK_RUNNING)
  | some st =>
    if st ≠ State.WORK_SUCCESS then .ok (w, st)
    else
      -- step 2: compare local and remote states
      match w.hasAnyLedgersToCatchupTo with
      | .error e => .error e
      | .ok false => .ok (w, State.WORK_FAILURE)
      | .ok true =>
        let resolvedConfiguration :=
          w.mCatchupConfiguration.resolve w.mRemoteState.currentLedger
        match CatchupRange.ctor w.mLastClosedLedgerHashPair resolvedConfiguration
            env.historyManager with
        | .error e => .error e
        | .ok catchupRange => w.doWorkBuckets env catchupRange

/-- `CatchupWork::onFailureRaise`: the catch-up manager is told, then FAILED is reported. -/
def CatchupWork.onFailureRaise (w : CatchupWork) : CatchupWork :=
  { w with mEvents := w.mEvents ++ [.historyCaughtup, .progress .FAILED 0] }

/-- `CatchupWork::onSuccess`: APPLIED_TRANSACTIONS and FINISHED are reported with the last
applied ledger, then the catch-up manager is told. -/
def CatchupWork.onSuccess (w : CatchupWork) : CatchupWork :=
  { w with mEvents := w.mEvents ++
      [.progress .APPLIED_TRANSACTIONS w.mLastApplied.ledgerSeq,
       .progress .FINISHED w.mLastApplied.ledgerSeq, .historyCaughtup] }

/-! ## The Herder (`HerderImpl.cpp`) -/

/-- A 256-bit hash, as a number. -/
abbrev Hash := Nat

/-- The value of a default-constructed `Hash` (`Hash h;` in `combineCandidates`): all zero. -/
def Hash.zero : Hash := 0

/-- `StellarValue`: the payload agreed on for a slot. -/
structure StellarValue where
  txSetHash : Hash
  closeTime : Nat
  baseFee : Nat
  deriving DecidableEq, Repr

/-- An SCP `Value` is an opaque byte string: either the XDR encoding of a `StellarValue`, or
bytes that do not decode to one. -/
inductive Value where
  | encoded (b : StellarValue)
  | undecodable (bytes : List Nat)
  deriving DecidableEq, Repr

/-- `xdr::xdr_from_opaque(value, b)`: throws on bytes that are not an encoded `StellarValue`. -/
def xdr_from_opaque : Value → Except Failure StellarValue
  | .encoded b => .ok b
  | .undecodable _ => .error .xdr_error

/-- `xdr::xdr_to_opaque(b)`. -/
def xdr_to_opaque (b : StellarValue) : Value := .encoded b

/-- `SCPBallot`. -/
structure SCPBallot where
  counter : Nat
  value : Value
  deriving DecidableEq, Repr

/-- What the Herder reads of a `TransactionFrame`: its full hash, its source account, its fee
(`getFee`, added up in an `int64_t`) and its sequence number (`SequenceNumber`, unsigned). -/
structure TransactionFrame where
  fullHash : Hash
  sourceID : Nat
  fee : Int
  seqNum : Nat
  deriving DecidableEq, Repr

/-- What the Herder reads of an `SCPEnvelope`: the slot and the node of its statement, and a
number standing for the rest of the statement. -/
structure SCPEnvelope where
  slotIndex : Nat
  nodeID : Nat
  pledges : Nat
  deriving DecidableEq, Repr

/-- `Herder::TransactionSubmitStatus`. -/
inductive TransactionSubmitStatus where
  | TX_STATUS_PENDING
  | TX_STATUS_DUPLICATE
  | TX_STATUS_ERROR
  deriving DecidableEq, Repr

/-- `TxSetFrame`: the ledger hash it builds on and its transactions. -/
structure TxSetFrame where
  previousLedgerHash : Hash
  mTransactions : List TransactionFrame
  deriving DecidableEq, Repr

/-- `ConsensusData`: the tracking state. -/
structure ConsensusData where
  mConsensusIndex : Nat
  mConsensusValue : StellarValue
  deriving DecidableEq, Repr

/-- `LedgerCloseData`, handed to the ledger manager when a value externalizes. -/
structure LedgerCloseData where
  ledgerSeq : Nat
  txSet : TxSetFrame
  closeTime : Nat
  baseFee : Nat
  deriving DecidableEq, Repr

/-- The collaborators and constants the Herder reads: the clock, the constants of `Herder.h`,
the configuration, the ledger manager and the operations of `TxSetFrame` and `TransactionFrame`
that are implemented outside `HerderImpl.cpp`. `checkValidTx tx highSeq` is
`tx->checkValid(app, highSeq)`, `getBalanceAboveReserve tx` the balance above reserve of the
source account of `tx`, `trimInvalidRemoved` the vector that `trimInvalid` fills with the
transactions it strips. -/
structure Application where
  timeNow : Nat
  MAX_TIME_SLIP_SECONDS : Nat
  MAX_SCP_TIMEOUT_SECONDS : Nat
  DESIRED_BASE_FEE : Nat
  isSynced : Bool
  lastClosedLedgerHash : Hash
  secretKeyIsZero : Bool
  localNodeID : Nat
  checkValid : TxSetFrame → Bool
  trimInvalid : TxSetFrame → TxSetFrame
  surgePricingFilter : TxSetFrame → TxSetFrame
  getContentsHash : TxSetFrame → Hash
  MANUAL_CLOSE : Bool
  LEDGER_VALIDITY_BRACKET : Nat
  lastClosedLedgerSeq : Nat
  lastClosedLedgerCloseTime : Nat
  checkValidTx : TransactionFrame → Nat → Bool
  getBalanceAboveReserve : TransactionFrame → Int
  trimInvalidRemoved : TxSetFrame → List TransactionFrame
  sortForApply : TxSetFrame → List TransactionFrame

/-- The members of `HerderImpl` used by the embedded operations. `mPendingEnvelopes` is the
transaction-set cache of the pending-envelope store; `mLedgerManager` lists the values handed to
`LedgerManager::externalizeValue`. `mLastSentMessage` holds the envelope when the message is an
SCP message; `mRebroadcastTimer` holds the delay in seconds while the timer is armed;
`mPendingSCPEnvelopes` lists the envelopes handed to the pending-envelope store,
`mOverlayBroadcasts` the envelopes broadcast (with the rebroadcast flag) and `mNominations` the
nominations started. -/
structure HerderImpl where
  mReceivedTransactions : List (List TransactionFrame)
  mTrackingSCP : Option ConsensusData
  mCurrentValue : Value
  mLastTrigger : Nat
  mPendingEnvelopes : List (Hash × TxSetFrame)
  mLedgerManager : List LedgerCloseData
  mLastSentMessage : Option SCPEnvelope
  mRebroadcastTimer : Option Nat
  mPendingSCPEnvelopes : List SCPEnvelope
  mOverlayBroadcasts : List (SCPEnvelope × Bool)
  mNominations : List (Nat × Value)
  deriving DecidableEq, Repr

/-- The constructor's pool: `mReceivedTransactions(4)`, four empty tiers. -/
def HerderImpl.initialReceivedTransactions : List (List TransactionFrame) :=
  List.replicate 4 []

/-- Modelled from the spec: `PendingEnvelopes::getTxSet` is defined in
`herder/PendingEnvelopes.cpp`, which is not among the sources; the cache is addressed by hash
and an unknown hash gives a null pointer. -/
def HerderImpl.getTxSet (h : HerderImpl) (hash : Hash) : Option TxSetFrame :=
  (h.mPendingEnvelopes.find? (fun e => e.1 == hash)).map (fun e => e.2)

/-- Modelled from the spec: `PendingEnvelopes::recvTxSet` is defined in
`herder/PendingEnvelopes.cpp`, which is not among the sources; the set is registered in the
cache under the given hash. -/
def HerderImpl.recvTxSet (h : HerderImpl) (hash : Hash) (txSet : TxSetFrame) : HerderImpl :=
  { h with mPendingEnvelopes := (hash, txSet) :: h.mPendingEnvelopes }

/-- Modelled from the spec: `nextConsensusLedgerIndex` is defined in `herder/HerderImpl.h`,
which is not among the sources; the next slot is the tracked consensus index plus one. -/
def ConsensusData.nextConsensusLedgerIndex (t : ConsensusData) : Nat :=
  t.mConsensusIndex + 1

/-- Modelled from the spec: `lastConsensusLedgerIndex` is defined in `herder/HerderImpl.h`,
which is not among the sources; it is the tracked consensus index. -/
def ConsensusData.lastConsensusLedgerIndex (t : ConsensusData) : Nat :=
  t.mConsensusIndex

/-- `HerderImpl::validateValue`. The decode exception is caught inside; no other statement
throws. The meters marked on the way are not part of the model. -/
def HerderImpl.validateValue (app : Application) (h : HerderImpl) (slotIndex : Nat)
    (_nodeID : Nat) (value : Value) : Except Failure Bool :=
  match xdr_from_opaque value with
  | .error _ => .ok false
  | .ok b =>
    match h.mTrackingSCP with
    | none => .ok true
    | some t =>
      if t.nextConsensusLedgerIndex > slotIndex then .ok true
      else if t.nextConsensusLedgerIndex < slotIndex then .ok false
      else if b.closeTime ≤ t.mConsensusValue.closeTime then .ok false
      else if b.closeTime > u64 (app.timeNow + app.MAX_TIME_SLIP_SECONDS) then .ok false
      else if !app.isSynced then .ok true
      else
        match h.getTxSet b.txSetHash with
        | none => .ok false
        | some txSet => if !app.checkValid txSet then .ok false else .ok true

/-- The term `(long long)pow(2.0, i)` of `validateBallot`. The power is exact in `double` and
fits in `long long` for `i <= 62`. From `i = 63` on it is out of the range of `long long`
(and infinite from `i = 1024` on): the conversion is then undefined in C++, and the conversion
instruction of x86-64 yields `INT64_MIN`, which is the value taken here. -/
def powToLongLong (i : Nat) : Int :=
  if i < 63 then 2 ^ i else -9223372036854775808

/-- The loop of `validateBallot` that adds up the timeouts of the rounds before
`ballot.counter`: `remaining` iterations are left, `i` is the loop variable. The `long long`
minimum of `MAX_SCP_TIMEOUT_SECONDS.count()` and `(long long)pow(2.0, i)` is added to the
`uint64_t` sum. -/
def sumTimeoutsLoop (app : Application) (lastTrigger : Nat) : Nat → Nat → Nat → Nat
  | 0, _, sumTimeouts => sumTimeouts
  | remaining + 1, i, sumTimeouts =>
    if u64 (app.timeNow + app.MAX_TIME_SLIP_SECONDS) ≥ u64 (lastTrigger + sumTimeouts) then
      sumTimeoutsLoop app lastTrigger remaining (i + 1)
        (u64OfInt ((sumTimeouts : Int) +
          min (app.MAX_SCP_TIMEOUT_SECONDS : Int) (powToLongLong i)))
    else sumTimeouts

/-- `HerderImpl::validateBallot`. While tracking, a ballot for a slot other than the next
consensus slot makes it throw. The comparison with half the desired fee is made in `double`,
exact for 32-bit fees; the doubled fee is a 32-bit product. -/
def HerderImpl.validateBallot (app : Application) (h : HerderImpl) (slotIndex : Nat)
    (nodeID : Nat) (ballot : SCPBallot) : Except Failure Bool :=
  match xdr_from_opaque ballot.value with
  | .error _ => .ok false
  | .ok b =>
    if b.closeTime > u64 (app.timeNow + app.MAX_TIME_SLIP_SECONDS) then .ok false
    else if (match h.mTrackingSCP with
        | some t => decide (t.nextConsensusLedgerIndex ≠ slotIndex)
        | none => false) then
      .error .runtime_error
    else
      let sumTimeouts := sumTimeoutsLoop app h.mLastTrigger ballot.counter 0 0
      if u64 (app.timeNow + app.MAX_TIME_SLIP_SECONDS) < u64 (h.mLastTrigger + sumTimeouts) then
        .ok false
      else if 2 * b.baseFee < app.DESIRED_BASE_FEE then .ok false
      else if b.baseFee > u32 (app.DESIRED_BASE_FEE * 2) then .ok false
      else if app.secretKeyIsZero && nodeID == app.localNodeID then .ok false
      else .ok true

/-- The budget of the counter check as the specification words it: the sum over `i` in
`[0, c)` of `min(MAX_SCP_TIMEOUT_SECONDS, 2^i)`, with no early exit and no machine width. -/
def ballotCounterBudget (app : Application) (c : Nat) : Nat :=
  ((List.range c).map (fun i => min app.MAX_SCP_TIMEOUT_SECONDS (2 ^ i))).sum

/-- Insertion into the `std::set<TransactionFramePtr>` of `combineCandidates`: a transaction
already in the set is not added again. -/
def aggSetInsert (aggSet : List TransactionFrame) (tx : TransactionFrame) :
    List TransactionFrame :=
  if tx ∈ aggSet then aggSet else aggSet ++ [tx]

/-- One iteration of the loop of `combineCandidates` over the candidates: `comp` takes the
larger base fee and close time, and the transactions of the set found under `comp.txSetHash`
are added when that set builds on the last closed ledger. -/
def combineCandidatesStep (app : Application) (h : HerderImpl)
    (acc : StellarValue × List TransactionFrame) (c : Value) :
    Except Failure (StellarValue × List TransactionFrame) :=
  match xdr_from_opaque c with
  | .error e => .error e
  | .ok sv =>
    let comp1 : StellarValue :=
      if acc.1.baseFee < sv.baseFee then { acc.1 with baseFee := sv.baseFee } else acc.1
    let comp2 : StellarValue :=
      if comp1.closeTime < sv.closeTime then { comp1 with closeTime := sv.closeTime } else comp1
    let aggSet : List TransactionFrame :=
      match h.getTxSet comp2.txSetHash with
      | some cTxSet =>
        if cTxSet.previousLedgerHash = app.lastClosedLedgerHash then
          cTxSet.mTransactions.foldl aggSetInsert acc.2
        else acc.2
      | none => acc.2
    .ok (comp2, aggSet)

/-- The loop of `combineCandidates` over the candidates, in the iteration order of the set. -/
def combineCandidatesLoop (app : Application) (h : HerderImpl) :
    List Value → StellarValue × List TransactionFrame →
    Except Failure (StellarValue × List TransactionFrame)
  | [], acc => .ok acc
  | c :: cs, acc =>
    match combineCandidatesStep app h acc c with
    | .error e => .error e
    | .ok acc1 => combineCandidatesLoop app h cs acc1

/-- `HerderImpl::combineCandidates`: the returned value and the Herder with the aggregate set
registered. -/
def HerderImpl.combineCandidates (app : Application) (h : HerderImpl) (_slotIndex : Nat)
    (candidates : List Value) : Except Failure (Value × HerderImpl) :=
  match combineCandidatesLoop app h candidates (⟨Hash.zero, 0, 0⟩, []) with
  | .error e => .error e
  | .ok (comp, aggSet) =>
    let aggTxSet : TxSetFrame :=
      aggSet.foldl (fun s tx => { s with mTransactions := s.mTransactions ++ [tx] })
        ⟨app.lastClosedLedgerHash, []⟩
    let trimmed := app.surgePricingFilter (app.trimInvalid aggTxSet)
    let comp1 : StellarValue := { comp with txSetHash := app.getContentsHash trimmed }
    .ok ( xdr_to_opaque comp1, h.recvTxSet comp1.txSetHash trimmed)

/-- The inner loop of `removeReceivedTx` over one tier: erase the first transaction with the
given full hash, if there is one. -/
def eraseFirstWithHash (hash : Hash) : List TransactionFrame → Option (List TransactionFrame)
  | [] => none
  | tx :: rest =>
    if tx.fullHash = hash then some rest
    else
      match eraseFirstWithHash hash rest with
      | some rest1 => some (tx :: rest1)
      | none => none

/-- `HerderImpl::removeReceivedTx` on the pool: the first transaction, in tier order, whose full
hash is that of `dropTx` is erased, and the search stops there. -/
def removeReceivedTx :
    List (List TransactionFrame) → TransactionFrame → List (List TransactionFrame)
  | [], _ => []
  | list :: lists, dropTx =>
    match eraseFirstWithHash dropTx.fullHash list with
    | some list1 => list1 :: lists
    | none => list :: removeReceivedTx lists dropTx

/-- Tier `i` of the pool, `mReceivedTransactions[i]`; no transactions beyond the last tier. -/
def tier (pool : List (List TransactionFrame)) (i : Nat) : List TransactionFrame :=
  pool.getD i []

/-- One iteration of the ageing loop of `valueExternalized`: every transaction of tier `n - 1`
is pushed to the back of tier `n`, and tier `n - 1` is cleared. -/
def ageTier (pool : List (List TransactionFrame)) (n : Nat) : List (List TransactionFrame) :=
  let moved := (tier pool (n - 1)).foldl (fun dst tx => dst ++ [tx]) (tier pool n)
  (pool.set n moved).set (n - 1) []

/-- The ageing loop of `valueExternalized`, `for (n = size - 1; n > 0; n--)`, from `n` down. -/
def ageLoop : Nat → List (List TransactionFrame) → List (List TransactionFrame)
  | 0, pool => pool
  | n + 1, pool => ageLoop n (ageTier pool (n + 1))

/-- The ageing of the pool in `valueExternalized`. -/
def ageReceivedTransactions (pool : List (List TransactionFrame)) :
    List (List TransactionFrame) :=
  ageLoop (pool.length - 1) pool

/-- What `valueExternalized` does to the pool: the transactions of the externalized set are
removed, at least two tiers are asserted, and the remaining ones age by one tier. -/
def externalizePool (pool : List (List TransactionFrame)) (externalizedSet : TxSetFrame) :
    Except Failure (List (List TransactionFrame)) :=
  let pool1 := externalizedSet.mTransactions.foldl removeReceivedTx pool
  if pool1.length < 2 then .error .assertion
  else .ok (ageReceivedTransactions pool1)

/-- The pool after a sequence of externalizations, one externalized set per cycle. -/
def externalizeCycles :
    List (List TransactionFrame) → List TxSetFrame → Except Failure (List (List TransactionFrame))
  | pool, [] => .ok pool
  | pool, externalizedSet :: rest =>
    match externalizePool pool externalizedSet with
    | .error e => .error e
    | .ok pool1 => externalizeCycles pool1 rest

/-- `HerderImpl::valueExternalized`, up to its final call of `ledgerClosed`: an undecodable value
aborts; the tracking state is replaced; the externalized set is looked up and dereferenced; the
ledger manager is told; the pool is cleaned and aged. Timers, meters, rebroadcasting and the
purge of old nodes and slots are not part of the model. -/
def HerderImpl.valueExternalized (h : HerderImpl) (slotIndex : Nat) (value : Value) :
    Except Failure HerderImpl :=
  match xdr_from_opaque value with
  | .error _ => .error .abort
  | .ok b =>
    let tracking : ConsensusData := ⟨slotIndex, b⟩
    match h.getTxSet b.txSetHash with
    | none => .error .null_dereference
    | some externalizedSet =>
      match externalizePool h.mReceivedTransactions externalizedSet with
      | .error e => .error e
      | .ok pool =>
        .ok { h with
          mCurrentValue := .undecodable []
          mTrackingSCP := some tracking
          mLedgerManager := h.mLedgerManager ++
            [⟨tracking.lastConsensusLedgerIndex, externalizedSet, b.closeTime, b.baseFee⟩]
          mReceivedTransactions := pool }

/-! ### Receiving transactions (`recvTransaction`, `recvTransactions`) -/

/-- The running values of the scan of the pool in `recvTransaction`: `totFee` and `highSeq`. -/
structure PoolScan where
  totFee : Int
  highSeq : Nat
  deriving DecidableEq, Repr

/-- The inner loop of `recvTransaction` over one tier. The result is `none` when a pooled
transaction has the full hash of `tx`, where the function returns TX_STATUS_DUPLICATE; a pooled
transaction of the same source adds its fee to `totFee` and raises `highSeq` to its sequence
number when that is larger. The sum of fees is an `int64_t` and wraps in two's complement. -/
def recvTransactionScanList (tx : TransactionFrame) :
    List TransactionFrame → PoolScan → Option PoolScan
  | [], scan => some scan
  | oldTX :: rest, scan =>
    if tx.fullHash = oldTX.fullHash then none
    else if oldTX.sourceID = tx.sourceID then
      recvTransactionScanList tx rest
        ⟨i64 (scan.totFee + oldTX.fee),
          if oldTX.seqNum > scan.highSeq then oldTX.seqNum else scan.highSeq⟩
    else recvTransactionScanList tx rest scan

/-- The outer loop of `recvTransaction` over the tiers of the pool. -/
def recvTransactionScan (tx : TransactionFrame) :
    List (List TransactionFrame) → PoolScan → Option PoolScan
  | [], scan => some scan
  | list :: lists, scan =>
    match recvTransactionScanList tx list scan with
    | none => none
    | some scan1 => recvTransactionScan tx lists scan1

/-- The statement `mReceivedTransactions[0].push_back(tx)`. -/
def pushToTierZero (pool : List (List TransactionFrame)) (tx : TransactionFrame) :
    List (List TransactionFrame) :=
  pool.set 0 (tier pool 0 ++ [tx])

/-- `HerderImpl::recvTransaction`: the status returned and the Herder afterwards. `totFee` is
an `int64_t` initialised with the fee of `tx`. The result code written into `tx` on
insufficient balance is not part of the model. -/
def HerderImpl.recvTransaction (app : Application) (h : HerderImpl) (tx : TransactionFrame) :
    TransactionSubmitStatus × HerderImpl :=
  match recvTransactionScan tx h.mReceivedTransactions ⟨i64 tx.fee, 0⟩ with
  | none => (.TX_STATUS_DUPLICATE, h)
  | some scan =>
    if !app.checkValidTx tx scan.highSeq then (.TX_STATUS_ERROR, h)
    else if app.getBalanceAboveReserve tx < scan.totFee then (.TX_STATUS_ERROR, h)
    else
      (.TX_STATUS_PENDING,
        { h with mReceivedTransactions := pushToTierZero h.mReceivedTransactions tx })

/-- The loop of `recvTransactions` over an ordered list of transactions: `allGood` and the
Herder. -/
def recvTransactionsLoop (app : Application) :
    List TransactionFrame → Bool × HerderImpl → Bool × HerderImpl
  | [], acc => acc
  | tx :: rest, acc =>
    let r := acc.2.recvTransaction app tx
    recvTransactionsLoop app rest
      (if r.1 ≠ TransactionSubmitStatus.TX_STATUS_PENDING then false else acc.1, r.2)

/-- `HerderImpl::recvTransactions`: every transaction of the set, in apply order, is submitted
with `recvTransaction`. -/
def HerderImpl.recvTransactions (app : Application) (h : HerderImpl) (txSet : TxSetFrame) :
    Bool × HerderImpl :=
  recvTransactionsLoop app (app.sortForApply txSet) (true, h)

/-- The pooled transactions of the source account of `tx`, over all tiers. -/
def pooledOfSameSource (pool : List (List TransactionFrame)) (tx : TransactionFrame) :
    List TransactionFrame :=
  pool.flatten.filter (fun old => old.sourceID == tx.sourceID)

/-- The highest sequence number among the pooled transactions of the source of `tx`, 0 if there
is none. -/
def highestPooledSeqNum (pool : List (List TransactionFrame)) (tx : TransactionFrame) : Nat :=
  ((pooledOfSameSource pool tx).map (fun old => old.seqNum)).foldl max 0

/-- The fee of `tx` plus the fees of all pooled transactions of the same source. -/
def cumulativeFee (pool : List (List TransactionFrame)) (tx : TransactionFrame) : Int :=
  tx.fee + ((pooledOfSameSource pool tx).map (fun old => old.fee)).sum

/-- The pool uniqueness invariant: no two entries of the pool, in the same tier or in different
tiers, have the same full hash. -/
def PoolUnique (pool : List (List TransactionFrame)) : Prop :=
  (pool.flatten.map (fun tx => tx.fullHash)).Nodup

/-! ### Envelopes and rebroadcast -/

/-- Modelled from the spec: `PendingEnvelopes::recvSCPEnvelope` is defined in
`herder/PendingEnvelopes.cpp`, which is not among the sources; the envelope is handed to the
store. -/
def HerderImpl.storeSCPEnvelope (h : HerderImpl) (envelope : SCPEnvelope) : HerderImpl :=
  { h with mPendingSCPEnvelopes := h.mPendingSCPEnvelopes ++ [envelope] }

/-- `HerderImpl::recvSCPEnvelope`. The bounds of the validity bracket are held in `uint32_t`
variables. -/
def HerderImpl.recvSCPEnvelope (app : Application) (h : HerderImpl) (envelope : SCPEnvelope) :
    HerderImpl :=
  if app.MANUAL_CLOSE then h
  else
    match h.mTrackingSCP with
    | some t =>
      let minLedgerSeq := u32 t.nextConsensusLedgerIndex
      let maxLedgerSeq := u32 (t.nextConsensusLedgerIndex + app.LEDGER_VALIDITY_BRACKET)
      if envelope.slotIndex > maxLedgerSeq ∨ envelope.slotIndex < minLedgerSeq then h
      else h.storeSCPEnvelope envelope
    | none => h.storeSCPEnvelope envelope

/-- `HerderImpl::startRebroadcastTimer`: with an SCP message as last sent message the timer is
armed for two seconds. -/
def HerderImpl.startRebroadcastTimer (h : HerderImpl) : HerderImpl :=
  match h.mLastSentMessage with
  | some _ => { h with mRebroadcastTimer := some 2 }
  | none => h

/-- `HerderImpl::rebroadcast`. -/
def HerderImpl.rebroadcast (app : Application) (h : HerderImpl) : HerderImpl :=
  match h.mLastSentMessage with
  | some envelope =>
    if !app.MANUAL_CLOSE then
      ({ h with mOverlayBroadcasts := h.mOverlayBroadcasts ++ [(envelope, true)] }
        ).startRebroadcastTimer
    else h
  | none => h

/-- The rebroadcast timer expires: it is no longer armed and its handler `rebroadcast` runs. -/
def HerderImpl.rebroadcastTimerExpired (app : Application) (h : HerderImpl) : HerderImpl :=
  ({ h with mRebroadcastTimer := none }).rebroadcast app

/-- `HerderImpl::emitEnvelope`. -/
def HerderImpl.emitEnvelope (app : Application) (h : HerderImpl) (envelope : SCPEnvelope) :
    HerderImpl :=
  if app.secretKeyIsZero then h
  else if h.mTrackingSCP.isNone || !app.isSynced then h
  else ({ h with mLastSentMessage := some envelope }).rebroadcast app

/-- `HerderImpl::herderOutOfSync` on a Herder whose pending-envelope store holds no envelope:
the tracking state is reset and `processSCPQueue` finds nothing to process. With envelopes in
the store they are handed to SCP, which is outside this model (`none`). -/
def HerderImpl.herderOutOfSync (h : HerderImpl) : Option HerderImpl :=
  if h.mPendingSCPEnvelopes = [] then some { h with mTrackingSCP := none } else none

/-! ### Triggering the next ledger -/

/-- `TxSetFrame::add`, as `triggerNextLedger` and `combineCandidates` use it: the transaction is
pushed to the back. -/
def TxSetFrame.add (s : TxSetFrame) (tx : TransactionFrame) : TxSetFrame :=
  { s with mTransactions := s.mTransactions ++ [tx] }

/-- `HerderImpl::triggerNextLedger`. The slot is the last closed ledger sequence plus one, in
32 bits. The SCP callbacks that `recvTxSet` and `nominate` may cause are outside the model; the
nomination is recorded. -/
def HerderImpl.triggerNextLedger (app : Application) (h : HerderImpl)
    (ledgerSeqToTrigger : Nat) : HerderImpl :=
  if h.mTrackingSCP.isNone || !app.isSynced then h
  else
    let collected : TxSetFrame :=
      h.mReceivedTransactions.foldl (fun s list => list.foldl TxSetFrame.add s)
        ⟨app.lastClosedLedgerHash, []⟩
    let removed := app.trimInvalidRemoved collected
    let h1 : HerderImpl :=
      { h with mReceivedTransactions := removed.foldl removeReceivedTx h.mReceivedTransactions }
    let proposedSet := app.surgePricingFilter (app.trimInvalid collected)
    let txSetHash := app.getContentsHash proposedSet
    let h2 := (h1.recvTransactions app proposedSet).2
    let h3 := h2.recvTxSet txSetHash proposedSet
    let slotIndex := u32add app.lastClosedLedgerSeq 1
    if ledgerSeqToTrigger ≠ slotIndex then h3
    else
      let nextCloseTime :=
        if app.timeNow ≤ app.lastClosedLedgerCloseTime then
          u64 (app.lastClosedLedgerCloseTime + 1)
        else app.timeNow
      let b : StellarValue := ⟨txSetHash, nextCloseTime, app.DESIRED_BASE_FEE⟩
      { h3 with
        mLastTrigger := app.timeNow
        mCurrentValue := xdr_to_opaque b
        mNominations := h3.mNominations ++ [(slotIndex, xdr_to_opaque b)] }

/-- The states of the Herder reachable from a freshly constructed pool by the operations that
touch `mReceivedTransactions` (`recvTransaction`, `valueExternalized`, `triggerNextLedger`) and
by any operation that leaves the pool as it is. -/
inductive HerderImpl.PoolReachable : HerderImpl → Prop where
  | constructed (h : HerderImpl)
      (hpool : h.mReceivedTransactions = HerderImpl.initialReceivedTransactions) :
      HerderImpl.PoolReachable h
  | recvTransaction (app : Application) (h : HerderImpl) (tx : TransactionFrame)
      (hr : HerderImpl.PoolReachable h) :
      HerderImpl.PoolReachable (h.recvTransaction app tx).2
  | valueExternalized (h h1 : HerderImpl) (slotIndex : Nat) (value : Value)
      (hr : HerderImpl.PoolReachable h) (hv : h.valueExternalized slotIndex value = .ok h1) :
      HerderImpl.PoolReachable h1
  | triggerNextLedger (app : Application) (h : HerderImpl) (ledgerSeqToTrigger : Nat)
      (hr : HerderImpl.PoolReachable h) :
      HerderImpl.PoolReachable (h.triggerNextLedger app ledgerSeqToTrigger)
  | other (h h1 : HerderImpl) (hr : HerderImpl.PoolReachable h)
      (hsame : h1.mReceivedTransactions = h.mReceivedTransactions) :
      HerderImpl.PoolReachable h1

/-! ### Runs of the catch-up pipeline -/

/-- The pipeline after its constructor and `doReset`: no child work, nothing emitted, the last
closed ledger taken from the ledger manager. -/
def CatchupWork.initial (configuration : CatchupConfiguration)
    (lcl : LedgerHeaderHistoryEntry) : CatchupWork where
  mCatchupConfiguration := configuration
  mLastClosedLedgerHashPair := lcl.ledgerSeq
  mRemoteState := ⟨0, 0⟩
  mApplyBucketsRemoteState := ⟨0, 0⟩
  mGetHistoryArchiveStateWork := none
  mGetBucketStateWork := none
  mDownloadVerifyLedgersSeq := none
  mBucketVerifyApplySeq := none
  mTransactionsVerifyApplySeq := none
  mCatchupSeq := none
  mBucketsAppliedEmitted := false
  mVerifiedLedgerRangeStart := ⟨0, 0⟩
  mLastApplied := lcl
  mChildren := []
  mEvents := []

/-- What the child works do between two polls: the state a created child reports may change,
and the archive-state works write the remote states they were given by reference. No child is
created or dropped and no other member changes. -/
def CatchupWork.ChildrenStep (w w1 : CatchupWork) : Prop :=
  w1.mCatchupConfiguration = w.mCatchupConfiguration ∧
  w1.mLastClosedLedgerHashPair = w.mLastClosedLedgerHashPair ∧
  w1.mGetHistoryArchiveStateWork.isSome = w.mGetHistoryArchiveStateWork.isSome ∧
  w1.mGetBucketStateWork.isSome = w.mGetBucketStateWork.isSome ∧
  w1.mDownloadVerifyLedgersSeq.isSome = w.mDownloadVerifyLedgersSeq.isSome ∧
  w1.mBucketVerifyApplySeq.isSome = w.mBucketVerifyApplySeq.isSome ∧
  w1.mTransactionsVerifyApplySeq.isSome = w.mTransactionsVerifyApplySeq.isSome ∧
  w1.mCatchupSeq.isSome = w.mCatchupSeq.isSome ∧
  w1.mBucketsAppliedEmitted = w.mBucketsAppliedEmitted ∧
  w1.mVerifiedLedgerRangeStart = w.mVerifiedLedgerRangeStart ∧
  w1.mLastApplied = w.mLastApplied ∧
  w1.mChildren = w.mChildren ∧
  w1.mEvents = w.mEvents

/-- The states of the pipeline in a run: it starts from `CatchupWork.initial`, and then polls
(`doWork` returning a state) alternate with steps of the child works. -/
inductive CatchupWork.Reachable : CatchupWork → Prop where
  | started (configuration : CatchupConfiguration) (lcl : LedgerHeaderHistoryEntry) :
      CatchupWork.Reachable (CatchupWork.initial configuration lcl)
  | polled (env : CatchupEnv) (w w1 : CatchupWork) (st : State)
      (hr : CatchupWork.Reachable w) (hp : w.doWork env = .ok (w1, st)) :
      CatchupWork.Reachable w1
  | children (w w1 : CatchupWork) (hr : CatchupWork.Reachable w)
      (hs : CatchupWork.ChildrenStep w w1) :
      CatchupWork.Reachable w1

/-- The run invariant behind the anchoring of bucket application: until the catch-up sequence
`mCatchupSeq` exists, APPLIED_BUCKETS has not been reported, the bucket download/apply work has
not been created and is not among the children. -/
def CatchupWork.NoBucketWorkBeforeSeq (w : CatchupWork) : Prop :=
  w.mCatchupSeq = none →
    w.mBucketsAppliedEmitted = false ∧ w.mBucketVerifyApplySeq = none ∧
      ChildWork.downloadApplyBuckets ∉ w.mChildren

/-- The three conditions that `assertBucketState` checks, as a proposition: the archive state
used for bucket application is at the ledger of the verified range start, has its bucket-list
hash, and that ledger is not below the last closed one. -/
def CatchupWork.bucketStateAnchored (env : CatchupEnv) (w : CatchupWork) : Prop :=
  w.mApplyBucketsRemoteState.currentLedger = w.mVerifiedLedgerRangeStart.ledgerSeq ∧
  w.mApplyBucketsRemoteState.bucketListHash = w.mVerifiedLedgerRangeStart.bucketListHash ∧
  ¬ w.mVerifiedLedgerRangeStart.ledgerSeq < env.lastClosedLedgerHeader.ledgerSeq

/-- The archive state that step 3 of `doWork` leaves in `mApplyBucketsRemoteState` for a range
that applies buckets: the remote state when it already is at the bucket-apply ledger
(`mFirst - 1`), and otherwise the state written by the bucket-state work. -/
def CatchupWork.bucketApplyState (w : CatchupWork) (r : CatchupRange) : HistoryArchiveState :=
  if w.alreadyHaveBucketsHistoryArchiveState (u32sub r.mLedgers.mFirst 1) then w.mRemoteState
  else w.mApplyBucketsRemoteState

/-! ## PathPayment2 (`PathPayment2OpFrame.cpp`) -/

/-- An account identifier, as a number. -/
abbrev AccountID := Nat

/-- Modelled from the spec: `Asset` is an XDR type declared outside the sources; an asset is
native or a credit asset (4- or 12-character code) with a code and an issuer. -/
inductive Asset where
  | native
  | alphaNum4 (assetCode : Nat) (issuer : AccountID)
  | alphaNum12 (assetCode : Nat) (issuer : AccountID)
  deriving DecidableEq, Repr

/-- The test `asset.type() == ASSET_TYPE_NATIVE`. -/
def Asset.isNative : Asset → Bool
  | .native => true
  | _ => false

/-- Modelled from the spec: `getIssuer` is defined in `transactions/TransactionUtils.h`, which is
not among the sources; it reads the issuer of a credit asset and is only called on one. -/
def getIssuer : Asset → AccountID
  | .native => 0
  | .alphaNum4 _ issuer => issuer
  | .alphaNum12 _ issuer => issuer

/-- The body of the operation, `PathPayment2Op`. Amounts are `int64_t`. -/
structure PathPayment2Op where
  sendAsset : Asset
  sendAmount : Int
  destination : AccountID
  destAsset : Asset
  destMinAmount : Int
  path : List Asset
  deriving DecidableEq, Repr

/-- The result codes that `PathPayment2OpFrame` sets in `innerResult()`. -/
inductive PathPaymentResultCode where
  | PATH_PAYMENT_SUCCESS
  | PATH_PAYMENT_MALFORMED
  | PATH_PAYMENT_UNDERFUNDED
  | PATH_PAYMENT_SRC_NO_TRUST
  | PATH_PAYMENT_SRC_NOT_AUTHORIZED
  | PATH_PAYMENT_NO_DESTINATION
  | PATH_PAYMENT_NO_TRUST
  | PATH_PAYMENT_NOT_AUTHORIZED
  | PATH_PAYMENT_LINE_FULL
  | PATH_PAYMENT_NO_ISSUER
  | PATH_PAYMENT_TOO_FEW_OFFERS
  | PATH_PAYMENT_OFFER_CROSS_SELF
  | PATH_PAYMENT_OVER_SENDMAX
  deriving DecidableEq, Repr

/-- The codes of the enclosing `OperationResult` (`mResult`) that the operation touches. -/
inductive OperationResultCode where
  | opINNER
  | opEXCEEDED_WORK_LIMIT
  deriving DecidableEq, Repr

/-- Modelled from the spec: `ClaimOfferAtom` is an XDR type declared outside the sources; one
claimed offer with what was sold and bought. -/
structure ClaimOfferAtom where
  sellerID : AccountID
  offerID : Nat
  assetSold : Asset
  amountSold : Int
  assetBought : Asset
  amountBought : Int
  deriving DecidableEq, Repr

/-- `SimplePaymentResult`: destination, asset and amount of the final payment. -/
structure SimplePaymentResult where
  destination : AccountID
  asset : Asset
  amount : Int
  deriving DecidableEq, Repr

/-- The result of the operation: the code of `mResult`, and of `innerResult()` its code, the
offers and last payment of the success arm, and the asset of the no-issuer arm. -/
structure PathPaymentResult where
  opCode : OperationResultCode
  code : PathPaymentResultCode
  offers : List ClaimOfferAtom
  last : Option SimplePaymentResult
  noIssuer : Option Asset
  deriving DecidableEq, Repr

/-- `ConvertResult` of `convertWithOffers`. -/
inductive ConvertResult where
  | eOK
  | ePartial
  | eFilterStop
  | eCrossedTooMany
  deriving DecidableEq, Repr

/-- What one call of `convertWithOffers` leaves behind: its return value, the ledger, the two
amounts it reports and the offer trail it filled. -/
structure ConvertOutcome (σ : Type) where
  result : ConvertResult
  ltx : σ
  actualCurASent : Int
  actualCurBReceived : Int
  offerTrail : List ClaimOfferAtom

/-- The ledger and the exchange as `PathPayment2OpFrame` uses them, over a ledger state `σ`
(`AbstractLedgerTxn`); all of them are implemented outside the sources. `accountExists` is
`loadAccount` / `loadAccountWithoutRecord` returning an entry; `addBalance` and
`addTrustLineBalance` return the new ledger, or `none` where the C++ function returns false;
`convertWithOffers ltx sourceID curA curAAmount curB maxOffersToCross` is the call made by
`doApply`, with `INT64_MAX` as the limit on the receiving side, rounding enabled and the filter
that stops at an offer whose seller is `sourceID`. -/
structure LedgerOps (σ : Type) where
  MAX_OFFERS_TO_CROSS : Int
  accountExists : σ → AccountID → Bool
  getAvailableBalance : σ → AccountID → Int
  addBalance : σ → AccountID → Int → Option σ
  trustLineExists : σ → AccountID → Asset → Bool
  isAuthorized : σ → AccountID → Asset → Bool
  addTrustLineBalance : σ → AccountID → Asset → Int → Option σ
  convertWithOffers : σ → AccountID → Asset → Int → Asset → Int → ConvertOutcome σ

/-- What `doApply` or `doCheckValid` returns, with the result and the ledger it leaves. -/
structure ApplyOutcome (σ : Type) where
  applied : Bool
  result : PathPaymentResult
  ltx : σ

/-- `PathPayment2OpFrame::doCheckValid`: the value returned and the result afterwards; the
code is only written on failure. `isAssetValid` is defined in
`transactions/TransactionUtils.h`, which is not among the sources, and is a parameter. -/
def PathPayment2OpFrame.doCheckValid (isAssetValid : Asset → Bool) (op : PathPayment2Op)
    (res : PathPaymentResult) (_ledgerVersion : Nat) : Bool × PathPaymentResult :=
  if op.sendAmount ≤ 0 ∨ op.destMinAmount < 0 then
    (false, { res with code := .PATH_PAYMENT_MALFORMED })
  else if !isAssetValid op.sendAsset || !isAssetValid op.destAsset then
    (false, { res with code := .PATH_PAYMENT_MALFORMED })
  else if !op.path.all isAssetValid then
    (false, { res with code := .PATH_PAYMENT_MALFORMED })
  else (true, res)

/-- The variables of the path loop of `doApply`: the ledger, the current asset and amount, and
the result. -/
structure WalkState (σ : Type) where
  ltx : σ
  curA : Asset
  curAAmount : Int
  result : PathPaymentResult

/-- The path loop of `doApply` over the remaining assets of `fullPath`. The Boolean is false
when the loop returned false from `doApply`; the state then holds the result at that point. A
hop between equal assets is skipped; the issuer of a credit asset must exist; the offers
crossed by `convertWithOffers` are inserted at the front of the offers of the result. When the
filter stops the conversion it has set PATH_PAYMENT_OFFER_CROSS_SELF. -/
def PathPayment2OpFrame.walkPath {σ : Type} (ops : LedgerOps σ) (sourceID : AccountID) :
    List Asset → WalkState σ → Except Failure (WalkState σ × Bool)
  | [], st => .ok (st, true)
  | curB :: rest, st =>
    if st.curA = curB then PathPayment2OpFrame.walkPath ops sourceID rest st
    else if !curB.isNative && !ops.accountExists st.ltx (getIssuer curB) then
      .ok ({ st with result :=
        { st.result with code := .PATH_PAYMENT_NO_ISSUER, noIssuer := some curB } }, false)
    else
      let offersCrossedSoFar : Int := st.result.offers.length
      let maxOffersToCross := ops.MAX_OFFERS_TO_CROSS - offersCrossedSoFar
      let r := ops.convertWithOffers st.ltx sourceID st.curA st.curAAmount curB maxOffersToCross
      match r.result with
      | .eFilterStop =>
        .ok ({ st with
          ltx := r.ltx
          result := { st.result with code := .PATH_PAYMENT_OFFER_CROSS_SELF } }, false)
      | .ePartial =>
        .ok ({ st with
          ltx := r.ltx
          result := { st.result with code := .PATH_PAYMENT_TOO_FEW_OFFERS } }, false)
      | .eCrossedTooMany =>
        .ok ({ st with
          ltx := r.ltx
          result := { st.result with opCode := .opEXCEEDED_WORK_LIMIT } }, false)
      | .eOK =>
        if st.curAAmount < r.actualCurASent then .error .assertion
        else
          PathPayment2OpFrame.walkPath ops sourceID rest
            { ltx := r.ltx
              curA := curB
              curAAmount := r.actualCurBReceived
              result := { st.result with offers := r.offerTrail ++ st.result.offers } }

/-- The first step of `doApply`: the amount to send is taken from the source, from its balance
for the native asset and from its trust line otherwise. The result is the ledger afterwards,
or the code with which `doApply` returns false. -/
def PathPayment2OpFrame.debitSource {σ : Type} (ops : LedgerOps σ) (op : PathPayment2Op)
    (sourceID : AccountID) (ltx : σ) : Except Failure (PathPaymentResultCode ⊕ σ) :=
  if op.sendAsset.isNative then
    if !ops.accountExists ltx sourceID then .ok (.inl .PATH_PAYMENT_MALFORMED)
    else if op.sendAmount > ops.getAvailableBalance ltx sourceID then
      .ok (.inl .PATH_PAYMENT_UNDERFUNDED)
    else
      match ops.addBalance ltx sourceID (-op.sendAmount) with
      | none => .error .assertion
      | some ltx1 => .ok (.inr ltx1)
  else
    if !ops.trustLineExists ltx sourceID op.sendAsset then
      .ok (.inl .PATH_PAYMENT_SRC_NO_TRUST)
    else if !ops.isAuthorized ltx sourceID op.sendAsset then
      .ok (.inl .PATH_PAYMENT_SRC_NOT_AUTHORIZED)
    else
      match ops.addTrustLineBalance ltx sourceID op.sendAsset (-op.sendAmount) with
      | none => .ok (.inl .PATH_PAYMENT_UNDERFUNDED)
      | some ltx1 => .ok (.inr ltx1)

/-- The full path of `doApply`: the send asset, the path, the destination asset. -/
def PathPayment2OpFrame.fullPath (op : PathPayment2Op) : List Asset :=
  op.sendAsset :: (op.path ++ [op.destAsset])

/-- The checks of `doApply` on the destination and the issuers before the path is walked,
skipped when credits are sent straight back to their issuer. The result is the failed result,
or `none` when the checks pass. -/
def PathPayment2OpFrame.checkDestination {σ : Type} (ops : LedgerOps σ) (op : PathPayment2Op)
    (ltx : σ) (res : PathPaymentResult) : Option PathPaymentResult :=
  let curA := op.sendAsset
  let bypassIssuerCheck :=
    !curA.isNative && decide ((PathPayment2OpFrame.fullPath op).length = 2) &&
      decide (op.sendAsset = op.destAsset) && decide (getIssuer curA = op.destination)
  if !bypassIssuerCheck then
    if !ops.accountExists ltx op.destination then
      some { res with code := .PATH_PAYMENT_NO_DESTINATION }
    else if !op.destAsset.isNative && !ops.accountExists ltx (getIssuer op.destAsset) then
      some { res with code := .PATH_PAYMENT_NO_ISSUER, noIssuer := some op.destAsset }
    else if !curA.isNative && !ops.accountExists ltx (getIssuer curA) then
      some { res with code := .PATH_PAYMENT_NO_ISSUER, noIssuer := some curA }
    else none
  else none

/-- The last step of `doApply`: what is left after the last hop must reach the destination
minimum, and is credited to the destination, to its balance for the native asset and to its
trust line otherwise. -/
def PathPayment2OpFrame.creditDestination {σ : Type} (ops : LedgerOps σ) (op : PathPayment2Op)
    (st : WalkState σ) : ApplyOutcome σ :=
  if st.curAAmount < op.destMinAmount then
    ⟨false, { st.result with code := .PATH_PAYMENT_OVER_SENDMAX }, st.ltx⟩
  else
    let credited : PathPaymentResultCode ⊕ σ :=
      if st.curA.isNative then
        match ops.addBalance st.ltx op.destination st.curAAmount with
        | none => .inl .PATH_PAYMENT_LINE_FULL
        | some ltx1 => .inr ltx1
      else if !ops.trustLineExists st.ltx op.destination st.curA then
        .inl .PATH_PAYMENT_NO_TRUST
      else if !ops.isAuthorized st.ltx op.destination st.curA then
        .inl .PATH_PAYMENT_NOT_AUTHORIZED
      else
        match ops.addTrustLineBalance st.ltx op.destination st.curA st.curAAmount with
        | none => .inl .PATH_PAYMENT_LINE_FULL
        | some ltx1 => .inr ltx1
    match credited with
    | .inl code => ⟨false, { st.result with code := code }, st.ltx⟩
    | .inr ltx1 =>
      ⟨true, { st.result with last := some ⟨op.destination, st.curA, st.curAAmount⟩ }, ltx1⟩

/-- `PathPayment2OpFrame::doApply`. Setting the code to PATH_PAYMENT_SUCCESS at the start
gives an empty list of offers. A failed `assert` ends the call. -/
def PathPayment2OpFrame.doApply {σ : Type} (ops : LedgerOps σ) (op : PathPayment2Op)
    (sourceID : AccountID) (ltx : σ) : Except Failure (ApplyOutcome σ) :=
  let res0 : PathPaymentResult :=
    { opCode := .opINNER, code := .PATH_PAYMENT_SUCCESS, offers := [], last := none,
      noIssuer := none }
  match PathPayment2OpFrame.debitSource ops op sourceID ltx with
  | .error e => .error e
  | .ok (.inl code) => .ok ⟨false, { res0 with code := code }, ltx⟩
  | .ok (.inr ltx1) =>
    match PathPayment2OpFrame.checkDestination ops op ltx1 res0 with
    | some failed => .ok ⟨false, failed, ltx1⟩
    | none =>
      match PathPayment2OpFrame.walkPath ops sourceID (PathPayment2OpFrame.fullPath op).tail
          ⟨ltx1, op.sendAsset, op.sendAmount, res0⟩ with
      | .error e => .error e
      | .ok (st, false) => .ok ⟨false, st.result, st.ltx⟩
      | .ok (st, true) => .ok (PathPayment2OpFrame.creditDestination ops op st)

/-- The exchanges of the path loop of `doApply`, in path order: for every hop between two
different assets that `convertWithOffers` completes, the offer trail it produced. The walk is
the one of the loop: each exchange starts from the ledger and the amount the previous one left,
and may cross as many offers as MAX_OFFERS_TO_CROSS leaves after the `crossed` offers before
it; it ends at the first hop that does not complete. -/
def PathPayment2OpFrame.hopTrails {σ : Type} (ops : LedgerOps σ) (sourceID : AccountID) :
    List Asset → σ → Asset → Int → Nat → List (List ClaimOfferAtom)
  | [], _, _, _, _ => []
  | curB :: rest, ltx, curA, curAAmount, crossed =>
    if curA = curB then PathPayment2OpFrame.hopTrails ops sourceID rest ltx curA curAAmount crossed
    else if !curB.isNative && !ops.accountExists ltx (getIssuer curB) then []
    else
      let r := ops.convertWithOffers ltx sourceID curA curAAmount curB
        (ops.MAX_OFFERS_TO_CROSS - (crossed : Int))
      if r.result = .eOK ∧ ¬ curAAmount < r.actualCurASent then
        r.offerTrail :: PathPayment2OpFrame.hopTrails ops sourceID rest r.ltx curB
          r.actualCurBReceived (crossed + r.offerTrail.length)
      else []

/-! ## Example states -/

/-- A pipeline at the comparison step: the archive-state fetch for CURRENT has succeeded and
reports ledger 127, which is also the local last closed ledger. -/
def exampleCaughtUpWork : CatchupWork where
  mCatchupConfiguration := ⟨CatchupConfiguration.CURRENT, 10⟩
  mLastClosedLedgerHashPair := 127
  mRemoteState := ⟨127, 7⟩
  mApplyBucketsRemoteState := ⟨0, 0⟩
  mGetHistoryArchiveStateWork := some State.WORK_SUCCESS
  mGetBucketStateWork := none
  mDownloadVerifyLedgersSeq := none
  mBucketVerifyApplySeq := none
  mTransactionsVerifyApplySeq := none
  mCatchupSeq := none
  mBucketsAppliedEmitted := false
  mVerifiedLedgerRangeStart := ⟨0, 0⟩
  mLastApplied := ⟨127, 7⟩
  mChildren := [ChildWork.getHistoryArchiveState CatchupConfiguration.CURRENT]
  mEvents := []

/-- The collaborators of `exampleCaughtUpWork`: checkpoint frequency 64, last closed ledger
127. -/
def exampleCatchupEnv : CatchupEnv where
  historyManager := ⟨64⟩
  lastClosedLedgerHeader := ⟨127, 7⟩
  verifiedLedgerRangeStart := ⟨0, 0⟩

/-- A clock at 1000 s with a slip of 60 s, a desired base fee of 100, a synced ledger manager
whose last closed ledger has hash 5, and transaction sets that are all valid and never
trimmed. -/
def exampleApplication : Application where
  timeNow := 1000
  MAX_TIME_SLIP_SECONDS := 60
  MAX_SCP_TIMEOUT_SECONDS := 240
  DESIRED_BASE_FEE := 100
  isSynced := true
  lastClosedLedgerHash := 5
  secretKeyIsZero := false
  localNodeID := 1
  checkValid := fun _ => true
  trimInvalid := fun s => s
  surgePricingFilter := fun s => s
  getContentsHash := fun s => 1000 + s.mTransactions.length
  MANUAL_CLOSE := false
  LEDGER_VALIDITY_BRACKET := 1000
  lastClosedLedgerSeq := 5
  lastClosedLedgerCloseTime := 990
  checkValidTx := fun _ _ => true
  getBalanceAboveReserve := fun _ => 1000
  trimInvalidRemoved := fun _ => []
  sortForApply := fun s => s.mTransactions

/-- A transaction of account 1. -/
def exampleTxA : TransactionFrame := ⟨101, 1, 100, 1⟩

/-- A transaction of account 2. -/
def exampleTxB : TransactionFrame := ⟨102, 2, 100, 1⟩

/-- A Herder tracking consensus index 5 that knows two transaction sets built on the last
closed ledger: `[exampleTxA]` under hash 11 and `[exampleTxB]` under hash 12. -/
def exampleHerder : HerderImpl where
  mReceivedTransactions := HerderImpl.initialReceivedTransactions
  mTrackingSCP := some ⟨5, ⟨0, 990, 100⟩⟩
  mCurrentValue := .undecodable []
  mLastTrigger := 995
  mPendingEnvelopes := [(11, ⟨5, [exampleTxA]⟩), (12, ⟨5, [exampleTxB]⟩)]
  mLedgerManager := []
  mLastSentMessage := none
  mRebroadcastTimer := none
  mPendingSCPEnvelopes := []
  mOverlayBroadcasts := []
  mNominations := []

/-- Two candidates naming the two known sets, with base fees 100 and 120 and close times 1000
and 1002. -/
def exampleCandidates : List Value :=
  [.encoded ⟨11, 1000, 100⟩, .encoded ⟨12, 1002, 120⟩]

/-- A ballot with counter 1 for the first candidate. -/
def exampleBallot : SCPBallot := ⟨1, .encoded ⟨11, 1000, 100⟩⟩

/-- A Herder with `exampleTxA` freshly received into tier 0 that knows the empty transaction
set under hash 20. -/
def examplePoolHerder : HerderImpl where
  mReceivedTransactions := [[exampleTxA], [], [], []]
  mTrackingSCP := none
  mCurrentValue := .undecodable []
  mLastTrigger := 995
  mPendingEnvelopes := [(20, ⟨5, []⟩)]
  mLedgerManager := []
  mLastSentMessage := none
  mRebroadcastTimer := none
  mPendingSCPEnvelopes := []
  mOverlayBroadcasts := []
  mNominations := []

/-- Four `valueExternalized` calls in a row, for slots 6 to 9, each externalizing the empty
transaction set. -/
def exampleFourCycles (h : HerderImpl) : Except Failure HerderImpl :=
  match h.valueExternalized 6 (.encoded ⟨20, 1000, 100⟩) with
  | .error e => .error e
  | .ok h1 =>
    match h1.valueExternalized 7 (.encoded ⟨20, 1005, 100⟩) with
    | .error e => .error e
    | .ok h2 =>
      match h2.valueExternalized 8 (.encoded ⟨20, 1010, 100⟩) with
      | .error e => .error e
      | .ok h3 => h3.valueExternalized 9 (.encoded ⟨20, 1015, 100⟩)

/-- Four externalized sets, none of which holds `exampleTxA`. -/
def exampleExternalizedSets : List TxSetFrame :=
  [⟨5, [exampleTxB]⟩, ⟨5, []⟩, ⟨5, []⟩, ⟨5, []⟩]

/-- The example application with the clock at 20000 s, 19005 s after the last trigger of the
example Herder. -/
def exampleLateApplication : Application :=
  { exampleApplication with timeNow := 20000 }

/-- The example application with accounts whose balance above reserve is the largest
`int64_t`, `2^63 - 1`. -/
def exampleRichApplication : Application :=
  { exampleApplication with getBalanceAboveReserve := fun _ => 9223372036854775807 }

/-- A transaction of account 1 with a fee of `2^62`. -/
def exampleBigFeeTxA : TransactionFrame := ⟨201, 1, 4611686018427387904, 1⟩

/-- A second transaction of account 1 with a fee of `2^62`. -/
def exampleBigFeeTxB : TransactionFrame := ⟨202, 1, 4611686018427387904, 2⟩

/-- The example Herder with `exampleBigFeeTxA` received into tier 0. -/
def exampleBigFeeHerder : HerderImpl :=
  { exampleHerder with mReceivedTransactions := [[exampleBigFeeTxA], [], [], []] }

/-- A pool that holds the same transaction in tier 0 and in tier 1. -/
def exampleDuplicatePool : List (List TransactionFrame) :=
  [[exampleTxA], [exampleTxA], [], []]

/-- The collaborators of the example run: checkpoint frequency 64, last closed ledger 1, and a
ledger-chain verification that reports header 959 with bucket-list hash 77 as range start. -/
def exampleRunEnv : CatchupEnv := ⟨⟨64⟩, ⟨1, 0⟩, ⟨959, 77⟩⟩

/-- The same collaborators with a verified range start whose bucket-list hash is 78. -/
def exampleBadAnchorEnv : CatchupEnv := ⟨⟨64⟩, ⟨1, 0⟩, ⟨959, 78⟩⟩

/-- The example run (target 1000, count 10, from genesis) after its first poll: the archive
state of checkpoint 1023 is requested. -/
def exampleRunArchiveRequested : CatchupWork :=
  { CatchupWork.initial ⟨1000, 10⟩ ⟨1, 0⟩ with
    mGetHistoryArchiveStateWork := some State.WORK_RUNNING
    mChildren := [ChildWork.getHistoryArchiveState 1023] }

/-- The archive-state work has succeeded and has written the remote state. -/
def exampleRunArchiveFetched : CatchupWork :=
  { exampleRunArchiveRequested with
    mGetHistoryArchiveStateWork := some State.WORK_SUCCESS
    mRemoteState := ⟨1023, 55⟩ }

/-- After the second poll: the archive state at the bucket-apply ledger 959 is requested. -/
def exampleRunBucketStateRequested : CatchupWork :=
  { exampleRunArchiveFetched with
    mGetBucketStateWork := some State.WORK_RUNNING
    mChildren := [ChildWork.getHistoryArchiveState 1023, ChildWork.getBucketState 959] }

/-- The bucket-state work has succeeded and has written the state of ledger 959, whose
bucket-list hash is 77. -/
def exampleRunBucketStateFetched : CatchupWork :=
  { exampleRunBucketStateRequested with
    mGetBucketStateWork := some State.WORK_SUCCESS
    mApplyBucketsRemoteState := ⟨959, 77⟩ }

/-- After the third poll: download and verification of the ledger chain 959..1000 is running. -/
def exampleRunHeadersRequested : CatchupWork :=
  { exampleRunBucketStateFetched with
    mDownloadVerifyLedgersSeq := some State.WORK_RUNNING
    mChildren := [ChildWork.getHistoryArchiveState 1023, ChildWork.getBucketState 959,
      ChildWork.downloadVerifyLedgers 959 1000] }

/-- The ledger chain has been verified. -/
def exampleRunHeadersVerified : CatchupWork :=
  { exampleRunHeadersRequested with mDownloadVerifyLedgersSeq := some State.WORK_SUCCESS }

/-- After the fourth poll with `exampleRunEnv`: the bucket work, the transaction work and the
catch-up sequence exist. -/
def exampleRunBucketsRequested : CatchupWork :=
  { exampleRunHeadersVerified with
    mVerifiedLedgerRangeStart := ⟨959, 77⟩
    mBucketVerifyApplySeq := some State.WORK_RUNNING
    mTransactionsVerifyApplySeq := some State.WORK_RUNNING
    mCatchupSeq := some State.WORK_RUNNING
    mChildren := [ChildWork.getHistoryArchiveState 1023, ChildWork.getBucketState 959,
      ChildWork.downloadVerifyLedgers 959 1000, ChildWork.downloadApplyBuckets,
      ChildWork.downloadApplyTransactions 960 1000,
      ChildWork.catchupSeq
        [CatchupSeqMember.bucketVerifyApplySeq, CatchupSeqMember.transactionsVerifyApplySeq]] }

/-- A second transaction of account 1, with the next sequence number. -/
def exampleTxC : TransactionFrame := ⟨103, 1, 100, 2⟩

/-- The example Herder after three submissions: `exampleTxA`, `exampleTxB`, and `exampleTxA`
once more. -/
def exampleThreeSubmissions : HerderImpl :=
  (((exampleHerder.recvTransaction exampleApplication exampleTxA).2.recvTransaction
    exampleApplication exampleTxB).2.recvTransaction exampleApplication exampleTxA).2

/-- Two `valueExternalized` calls in a row, for slots 6 and 7, the second with a close time
below the first; the result is the Herder after each call. -/
def exampleTwoExternalizations (h : HerderImpl) : Except Failure (HerderImpl × HerderImpl) :=
  match h.valueExternalized 6 (.encoded ⟨20, 1000, 100⟩) with
  | .error e => .error e
  | .ok h1 =>
    match h1.valueExternalized 7 (.encoded ⟨20, 900, 100⟩) with
    | .error e => .error e
    | .ok h2 => .ok (h1, h2)

/-- The example Herder after slot 6 externalized the value with set 11, close time 1000 and
base fee 100. -/
def exampleExternalizedHerder : HerderImpl :=
  { exampleHerder with
    mTrackingSCP := some ⟨6, ⟨11, 1000, 100⟩⟩
    mLedgerManager := [⟨6, ⟨5, [exampleTxA]⟩, 1000, 100⟩]
    mReceivedTransactions := [[], [], [], []] }

/-- A Herder tracking consensus index 4294967294, so that the next slot is the largest 32-bit
ledger number. -/
def exampleLateHerder : HerderImpl :=
  { exampleHerder with mTrackingSCP := some ⟨4294967294, ⟨0, 990, 100⟩⟩ }

/-- An envelope for slot 4294967295. -/
def exampleLateEnvelope : SCPEnvelope := ⟨4294967295, 2, 0⟩

/-- An envelope of the local node for slot 6. -/
def exampleEnvelope : SCPEnvelope := ⟨6, 1, 0⟩

/-- The example Herder after it emitted `exampleEnvelope` while tracking and then lost track of
consensus: the envelope is the last sent message and was broadcast once. -/
def exampleOutOfSyncHerder : HerderImpl :=
  { exampleHerder with
    mTrackingSCP := none
    mLastSentMessage := some exampleEnvelope
    mRebroadcastTimer := some 2
    mOverlayBroadcasts := [(exampleEnvelope, true)] }

/-- A pipeline at the comparison step whose archive-state fetch reports ledger 100, older than
the local last closed ledger 127. -/
def exampleRemoteOlderWork : CatchupWork :=
  { exampleCaughtUpWork with mRemoteState := ⟨100, 7⟩ }

/-- The credit asset number `n` of the issuer 90. -/
def exampleCur (n : Nat) : Asset := .alphaNum4 n 90

/-- A ledger in which every account and trust line exists, is authorized and takes any
balance, with an exchange that converts asset `a` into asset `a + 1` (and asset 4 into asset 1)
at two for one by crossing one offer, of the seller `10 * a + b` with offer number `a`; no other
pair of assets has offers. -/
def exampleLedgerOps : LedgerOps Unit where
  MAX_OFFERS_TO_CROSS := 1000
  accountExists := fun _ _ => true
  getAvailableBalance := fun _ _ => 0
  addBalance := fun _ _ _ => some ()
  trustLineExists := fun _ _ _ => true
  isAuthorized := fun _ _ _ => true
  addTrustLineBalance := fun _ _ _ _ => some ()
  convertWithOffers := fun _ _ curA curAAmount curB _ =>
    match curA, curB with
    | .alphaNum4 a 90, .alphaNum4 b 90 =>
      if b = a % 4 + 1 then
        ⟨.eOK, (), curAAmount, curAAmount / 2,
          [⟨10 * a + b, a, exampleCur b, curAAmount / 2, exampleCur a, curAAmount⟩]⟩
      else ⟨.ePartial, (), 0, 0, []⟩
    | _, _ => ⟨.ePartial, (), 0, 0, []⟩

/-- The payment of the test "path payment takes all offers, one offer per exchange": 80 of
asset 1 to account 7, to arrive as at least 10 of asset 4, along the assets 1, 2, 3, 4. -/
def examplePathPayment : PathPayment2Op :=
  ⟨exampleCur 1, 80, 7, exampleCur 4, 10,
    [exampleCur 1, exampleCur 2, exampleCur 3, exampleCur 4]⟩

/-- The payment of the test "path payment uses all offers in a loop": 2000000 of asset 1 along
the assets 2, 3, 4, 1, 2, 3 to asset 4. -/
def exampleLoopPathPayment : PathPayment2Op :=
  ⟨exampleCur 1, 2000000, 7, exampleCur 4, 0,
    [exampleCur 2, exampleCur 3, exampleCur 4, exampleCur 1, exampleCur 2, exampleCur 3]⟩

/-- What `examplePathPayment` leaves when applied for the source account 5. -/
def examplePathPaymentApplied : ApplyOutcome Unit :=
  ⟨true,
    { opCode := .opINNER
      code := .PATH_PAYMENT_SUCCESS
      offers :=
        [⟨34, 3, exampleCur 4, 10, exampleCur 3, 20⟩, ⟨23, 2, exampleCur 3, 20, exampleCur 2, 40⟩,
          ⟨12, 1, exampleCur 2, 40, exampleCur 1, 80⟩]
      last := some ⟨7, exampleCur 4, 10⟩
      noIssuer := none },
    ()⟩

/-! # Properties -/

/-! ## Catch-up range planner -/

/-- C1: for every `lastClosed > 1` (past genesis) and every 32-bit `target > lastClosed`,
whatever the count and the checkpoint frequency, the catch-up range replays
`(first = lastClosed + 1, count = target - lastClosed)` and applies no buckets. -/
theorem C1_past_genesis_replays_sequentially (lastClosed target count freq : Nat)
    (hpast : 1 < lastClosed) (htarget : lastClosed < target) (h32 : target < 4294967296) :
    CatchupRange.ctor lastClosed ⟨target, count⟩ ⟨freq⟩ =
      .ok ⟨⟨lastClosed + 1, target - lastClosed⟩, false⟩ := by
  have h0 : lastClosed ≠ 0 := by omega
  have h1 : ¬ target ≤ lastClosed := by omega
  have h2 : target ≠ 0 := by omega
  have h3 : (lastClosed + 1) % 4294967296 = lastClosed + 1 := by omega
  have h4 : (target + 4294967296 - lastClosed) % 4294967296 = target - lastClosed := by omega
  simp [CatchupRange.ctor, computeCatchupledgers, CatchupConfiguration.CURRENT,
    GENESIS_LEDGER_SEQ, u32add, u32sub, h0, h1, h2, h3, h4, hpast]

/-- C1 at `lastClosed = 100`, `target = 150`, `count = 1000`, frequency 64: the range is
`(101, 50)` without bucket application. -/
theorem C1_past_genesis_replays_sequentially_witness :
    1 < 100 ∧ 100 < 150 ∧ 150 < 4294967296 ∧
    CatchupRange.ctor 100 ⟨150, 1000⟩ ⟨64⟩ = .ok ⟨⟨101, 50⟩, false⟩ :=
  ⟨by decide, by decide, by decide,
    C1_past_genesis_replays_sequentially 100 150 1000 64 (by decide) (by decide) (by decide)⟩

/-- The model of `checkpointContainingLedger` returns a checkpoint boundary `k * freq - 1` with
`k >= 1`, not below the ledger, and no earlier boundary is: it is the smallest one. -/
theorem checkpointContainingLedger_boundary (freq ledger : Nat) (hf : 0 < freq) :
    ∃ k, 0 < k ∧ HistoryManager.checkpointContainingLedger ⟨freq⟩ ledger + 1 = k * freq ∧
      ledger ≤ HistoryManager.checkpointContainingLedger ⟨freq⟩ ledger ∧
      HistoryManager.checkpointContainingLedger ⟨freq⟩ ledger < ledger + freq := by
  have hdm := Nat.div_add_mod (ledger + freq) freq
  have hlt := Nat.mod_lt (ledger + freq) hf
  have hq : 0 < (ledger + freq) / freq := Nat.div_pos (by omega) hf
  have hm : freq ≤ (ledger + freq) / freq * freq := Nat.le_mul_of_pos_left freq hq
  have hc : freq * ((ledger + freq) / freq) = (ledger + freq) / freq * freq := Nat.mul_comm _ _
  refine ⟨(ledger + freq) / freq, hq, ?_, ?_, ?_⟩ <;>
    simp only [HistoryManager.checkpointContainingLedger] <;> omega

/-- A successful `computeCatchupledgers` had a non-zero last closed ledger and a target after
it. -/
theorem computeCatchupledgers_ok_target (lastClosed : Nat) (cfg : CatchupConfiguration)
    (hm : HistoryManager) (l : Ledgers)
    (h : computeCatchupledgers lastClosed cfg hm = .ok l) :
    0 < lastClosed ∧ lastClosed < cfg.toLedger := by
  unfold computeCatchupledgers at h
  by_cases h0 : lastClosed = 0
  · rw [if_pos h0] at h
    cases h
  by_cases h1 : cfg.toLedger ≤ lastClosed
  · rw [if_neg h0, if_pos h1] at h
    cases h
  omega

/-- C2: for every catch-up range built from genesis (`lastClosed = 1`) that applies buckets,
`getBucketApplyLedger` returns `mFirst - 1`, and that ledger is a checkpoint boundary
(`k * freq - 1`), for every 32-bit target, every count and every checkpoint frequency
`0 < freq < 2^32`. -/
theorem C2_genesis_bucket_apply_on_checkpoint (target count freq : Nat) (r : CatchupRange)
    (hf : 0 < freq) (hf32 : freq < 4294967296) (ht : target < 4294967296)
    (hr : CatchupRange.ctor 1 ⟨target, count⟩ ⟨freq⟩ = .ok r)
    (hb : r.mApplyBuckets = true) :
    r.getBucketApplyLedger = .ok (r.mLedgers.mFirst - 1) ∧
      HistoryManager.isCheckpointBoundary ⟨freq⟩ (r.mLedgers.mFirst - 1) = true := by
  obtain ⟨k, hk, hck, hle, hlt⟩ := checkpointContainingLedger_boundary freq
    (u32add (u32sub target (max 1 count)) 1) hf
  simp only [CatchupRange.ctor, computeCatchupledgers, CatchupConfiguration.CURRENT,
    GENESIS_LEDGER_SEQ, HistoryManager.getCheckpointFrequency] at hr
  generalize HistoryManager.checkpointContainingLedger ⟨freq⟩
    (u32add (u32sub target (max 1 count)) 1) = c at hck hle hlt hr
  generalize HistoryManager.checkpointContainingLedger ⟨freq⟩ 1 = c1 at hr
  simp only [u32, u32add, u32sub] at hck hle hlt hr
  obtain ⟨j, rfl⟩ : ∃ j, k = j + 1 := ⟨k - 1, by omega⟩
  rw [Nat.succ_mul] at hck
  have hmod : (j * freq) % freq = 0 := Nat.mul_mod_left _ _
  have hmod1 : (j * freq + freq) % freq = 0 := by simp
  generalize j * freq = m at hck hmod hmod1
  have e1 : ¬ ((1 : Nat) = 0) := by decide
  have e2 : ¬ ((1 : Nat) > 1) := by decide
  simp only [if_neg e1, if_neg e2] at hr
  by_cases h1 : target ≤ 1
  · simp only [if_pos h1] at hr
    cases hr
  have h0 : ¬ target = 0 := by omega
  simp only [if_neg h1, if_neg h0] at hr
  split_ifs at hr
  all_goals
    (simp only [Except.ok.injEq] at hr
     subst hr
     dsimp only at hb
     have hb1 := of_decide_eq_true hb
     simp only [CatchupRange.getBucketApplyLedger, HistoryManager.isCheckpointBoundary,
       u32sub, beq_iff_eq, Except.ok.injEq, hb, Bool.not_true, Bool.false_eq_true, if_false])
  · omega
  · refine ⟨by omega, ?_⟩
    have hm : (((target + 4294967296 - 1 ⊔ count) % 4294967296 + 1) % 4294967296 + 1) %
        4294967296 - 1 + 1 = m + freq := by omega
    rw [hm]
    exact hmod1
  · omega
  · refine ⟨by omega, ?_⟩
    have hm : ((c % 4294967296 + 4294967296 - freq) % 4294967296 + 1) % 4294967296 - 1 + 1
        = m := by omega
    rw [hm]
    exact hmod

/-- C2 at `lastClosed = 1`, `target = 1000`, `count = 10`, frequency 64: buckets are applied,
the range is `(960, 41)` and the bucket-apply ledger 959 is a checkpoint boundary. -/
theorem C2_genesis_bucket_apply_on_checkpoint_witness :
    CatchupRange.ctor 1 ⟨1000, 10⟩ ⟨64⟩ = .ok ⟨⟨960, 41⟩, true⟩ ∧
    (CatchupRange.getBucketApplyLedger ⟨⟨960, 41⟩, true⟩ = .ok (960 - 1) ∧
      HistoryManager.isCheckpointBoundary ⟨64⟩ (960 - 1) = true) :=
  ⟨rfl, C2_genesis_bucket_apply_on_checkpoint 1000 10 64 ⟨⟨960, 41⟩, true⟩
    (by decide) (by decide) (by decide) rfl rfl⟩

/-- C3: for every successfully constructed catch-up range with a 32-bit target, buckets are
applied if and only if the first ledger to replay is strictly greater than `lastClosed + 1`;
so they are not applied when replay starts at `lastClosed + 1`. -/
theorem C3_apply_buckets_iff_gap (lastClosed : Nat) (cfg : CatchupConfiguration)
    (hm : HistoryManager) (r : CatchupRange) (h32 : cfg.toLedger < 4294967296)
    (hr : CatchupRange.ctor lastClosed cfg hm = .ok r) :
    (r.mApplyBuckets = true ↔ lastClosed + 1 < r.mLedgers.mFirst) ∧
      (r.mLedgers.mFirst = lastClosed + 1 → r.mApplyBuckets = false) := by
  simp only [CatchupRange.ctor] at hr
  split at hr
  · cases hr
  · rename_i l hl
    cases hr
    have ht := computeCatchupledgers_ok_target lastClosed cfg hm l hl
    have hadd : u32add lastClosed 1 = lastClosed + 1 := by
      simp only [u32add]
      omega
    simp only [hadd, gt_iff_lt, decide_eq_true_eq, decide_eq_false_iff_not]
    exact ⟨trivial, fun h => by omega⟩

/-- C3 at the range built from genesis for target 1000, count 10 and frequency 64: the first
replayed ledger 960 is after ledger 2 and buckets are applied. -/
theorem C3_apply_buckets_iff_gap_witness :
    (1000 : Nat) < 4294967296 ∧
    CatchupRange.ctor 1 ⟨1000, 10⟩ ⟨64⟩ = .ok ⟨⟨960, 41⟩, true⟩ ∧
    ((true = true ↔ 1 + 1 < 960) ∧ (960 = 1 + 1 → true = false)) :=
  ⟨by decide, rfl,
    C3_apply_buckets_iff_gap 1 ⟨1000, 10⟩ ⟨64⟩ ⟨⟨960, 41⟩, true⟩ (by decide) rfl⟩

/-! ## The catch-up pipeline -/

/-- When the remote archive state is strictly older than the local last closed ledger, the
poll after a successful fetch returns WORK_FAILURE and leaves the pipeline as it was: no work
is created. -/
theorem doWork_remote_older_fails (env : CatchupEnv) (w : CatchupWork)
    (hfetched : w.mGetHistoryArchiveStateWork = some State.WORK_SUCCESS)
    (holder : w.mRemoteState.currentLedger < w.mLastClosedLedgerHashPair) :
    w.doWork env = .ok (w, State.WORK_FAILURE) := by
  have hn : ¬ w.mLastClosedLedgerHashPair ≤ w.mRemoteState.currentLedger := by omega
  simp [CatchupWork.doWork, CatchupWork.hasAnyLedgersToCatchupTo, hfetched, hn]

/-- C4: with the archive state fetched and `remoteState.currentLedger = 127` equal to the local
last closed ledger, `hasAnyLedgersToCatchupTo` answers true, and `doWork` does not return
WORK_FAILURE at the comparison step: it goes on to build the catch-up range, whose constructor
throws `invalid_argument` (target not after the last closed ledger). -/
theorem C4_equal_ledgers_pass_the_comparison :
    exampleCaughtUpWork.mGetHistoryArchiveStateWork = some State.WORK_SUCCESS ∧
    exampleCaughtUpWork.mRemoteState.currentLedger ≤
      exampleCaughtUpWork.mLastClosedLedgerHashPair ∧
    exampleCaughtUpWork.hasAnyLedgersToCatchupTo = .ok true ∧
    exampleCaughtUpWork.doWork exampleCatchupEnv =
      .error (.invalid_argument .toLedgerNotAfterLastClosedLedger) :=
  ⟨rfl, by decide, rfl, rfl⟩

/-! ## combineCandidates -/

/-- The loop of `combineCandidates` never changes `comp.txSetHash`, so every lookup is made
under the all-zero hash: when no set is known under it, no transaction is collected. -/
theorem combineCandidatesLoop_looks_up_zero_hash (app : Application) (h : HerderImpl)
    (hzero : h.getTxSet Hash.zero = none) (cs : List Value) :
    ∀ acc res : StellarValue × List TransactionFrame, acc.1.txSetHash = Hash.zero →
      combineCandidatesLoop app h cs acc = .ok res →
      res.1.txSetHash = Hash.zero ∧ res.2 = acc.2 := by
  induction cs with
  | nil =>
    intro acc res hacc hres
    simp only [combineCandidatesLoop, Except.ok.injEq] at hres
    subst hres
    exact ⟨hacc, rfl⟩
  | cons c cs ih =>
    intro acc res hacc hres
    simp only [combineCandidatesLoop] at hres
    cases hstep : combineCandidatesStep app h acc c with
    | error e => rw [hstep] at hres; cases hres
    | ok acc1 =>
      rw [hstep] at hres
      simp only [combineCandidatesStep] at hstep
      cases hdec : xdr_from_opaque c with
      | error e => rw [hdec] at hstep; cases hstep
      | ok sv =>
        rw [hdec] at hstep
        simp only [Except.ok.injEq] at hstep
        have hhash : acc1.1.txSetHash = Hash.zero := by
          rw [← hstep]
          dsimp only
          split_ifs <;> exact hacc
        have hagg : acc1.2 = acc.2 := by
          rw [← hstep]
          dsimp only
          have hz : (if (if acc.1.baseFee < sv.baseFee then
                ({ acc.1 with baseFee := sv.baseFee } : StellarValue) else acc.1).closeTime <
                sv.closeTime then
              ({ (if acc.1.baseFee < sv.baseFee then
                ({ acc.1 with baseFee := sv.baseFee } : StellarValue) else acc.1) with
                closeTime := sv.closeTime } : StellarValue)
              else (if acc.1.baseFee < sv.baseFee then
                ({ acc.1 with baseFee := sv.baseFee } : StellarValue) else acc.1)).txSetHash =
              Hash.zero := by
            split_ifs <;> exact hacc
          rw [hz, hzero]
        obtain ⟨h1, h2⟩ := ih acc1 res hhash hres
        exact ⟨h1, h2.trans hagg⟩

/-- C5: both candidates name a known transaction set that builds on the last closed ledger
(`[exampleTxA]` under hash 11, `[exampleTxB]` under hash 12) and nothing is trimmed, yet the
aggregate set registered under the returned `txSetHash` is empty: the lookup is made under
`comp.txSetHash`, never under the candidate's own hash. -/
theorem C5_aggregate_misses_candidate_transactions :
    exampleHerder.getTxSet 11 = some ⟨exampleApplication.lastClosedLedgerHash, [exampleTxA]⟩ ∧
    exampleHerder.getTxSet 12 = some ⟨exampleApplication.lastClosedLedgerHash, [exampleTxB]⟩ ∧
    exampleApplication.surgePricingFilter
        (exampleApplication.trimInvalid ⟨5, [exampleTxA, exampleTxB]⟩) =
      ⟨5, [exampleTxA, exampleTxB]⟩ ∧
    exampleHerder.combineCandidates exampleApplication 6 exampleCandidates =
      .ok (.encoded ⟨1000, 1002, 120⟩, exampleHerder.recvTxSet 1000 ⟨5, []⟩) ∧
    (exampleHerder.recvTxSet 1000 ⟨5, []⟩).getTxSet 1000 = some ⟨5, []⟩ :=
  ⟨rfl, rfl, rfl, rfl, rfl⟩

/-- One iteration of the candidate loop on a decodable candidate succeeds, and each of the base
fee and the close time of `comp` becomes the larger of its old value and the candidate's. -/
theorem combineCandidatesStep_ok (app : Application) (h : HerderImpl)
    (acc : StellarValue × List TransactionFrame) (c : Value) (sv : StellarValue)
    (hc : xdr_from_opaque c = .ok sv) :
    ∃ res, combineCandidatesStep app h acc c = .ok res ∧
      (acc.1.baseFee ≤ res.1.baseFee ∧ sv.baseFee ≤ res.1.baseFee ∧
        (res.1.baseFee = acc.1.baseFee ∨ res.1.baseFee = sv.baseFee)) ∧
      (acc.1.closeTime ≤ res.1.closeTime ∧ sv.closeTime ≤ res.1.closeTime ∧
        (res.1.closeTime = acc.1.closeTime ∨ res.1.closeTime = sv.closeTime)) ∧
      res.1.txSetHash = acc.1.txSetHash := by
  simp only [combineCandidatesStep, hc]
  refine ⟨_, rfl, ?_, ?_, ?_⟩ <;>
    by_cases h1 : acc.1.baseFee < sv.baseFee <;>
    by_cases h2 : acc.1.closeTime < sv.closeTime <;>
    simp only [h1, h2, if_true, if_false, or_true, true_or, and_true, le_refl, true_and] <;>
    (try omega)

/-- The candidate loop on decodable candidates succeeds; the base fee and the close time of the
result bound those of the start and of every candidate, and each is either that of the start
or that of some candidate. -/
theorem combineCandidatesLoop_max (app : Application) (h : HerderImpl) (cs : List Value) :
    ∀ acc : StellarValue × List TransactionFrame,
      (∀ c ∈ cs, ∃ sv, xdr_from_opaque c = .ok sv) →
      ∃ res, combineCandidatesLoop app h cs acc = .ok res ∧
        res.1.txSetHash = acc.1.txSetHash ∧
        acc.1.baseFee ≤ res.1.baseFee ∧ acc.1.closeTime ≤ res.1.closeTime ∧
        (∀ c ∈ cs, ∀ sv, xdr_from_opaque c = .ok sv →
          sv.baseFee ≤ res.1.baseFee ∧ sv.closeTime ≤ res.1.closeTime) ∧
        (res.1.baseFee = acc.1.baseFee ∨
          ∃ c ∈ cs, ∃ sv, xdr_from_opaque c = .ok sv ∧ sv.baseFee = res.1.baseFee) ∧
        (res.1.closeTime = acc.1.closeTime ∨
          ∃ c ∈ cs, ∃ sv, xdr_from_opaque c = .ok sv ∧ sv.closeTime = res.1.closeTime) := by
  induction cs with
  | nil =>
    intro acc _
    exact ⟨acc, rfl, rfl, le_refl _, le_refl _, by simp, Or.inl rfl, Or.inl rfl⟩
  | cons c cs ih =>
    intro acc hdec
    obtain ⟨sv, hsv⟩ := hdec c (List.mem_cons_self _ _)
    obtain ⟨acc1, hstep, hfee, htime, hhash⟩ := combineCandidatesStep_ok app h acc c sv hsv
    obtain ⟨res, hres, hh, hf, ht, hall, hfe, hte⟩ :=
      ih acc1 (fun c1 hc1 => hdec c1 (List.mem_cons_of_mem _ hc1))
    refine ⟨res, ?_, by rw [hh, hhash], by omega, by omega, ?_, ?_, ?_⟩
    · simp only [combineCandidatesLoop, hstep, hres]
    · intro c1 hc1 sv1 hsv1
      rcases List.mem_cons.mp hc1 with heq | hmem
      · rw [heq, hsv] at hsv1
        injection hsv1 with hsv1
        subst hsv1
        constructor <;> omega
      · exact hall c1 hmem sv1 hsv1
    · rcases hfe with hfe | ⟨c1, hc1, sv1, hsv1, he⟩
      · by_cases hlt : acc.1.baseFee < sv.baseFee
        · exact Or.inr ⟨c, List.mem_cons_self _ _, sv, hsv, by omega⟩
        · exact Or.inl (by omega)
      · exact Or.inr ⟨c1, List.mem_cons_of_mem _ hc1, sv1, hsv1, he⟩
    · rcases hte with hte | ⟨c1, hc1, sv1, hsv1, he⟩
      · by_cases hlt : acc.1.closeTime < sv.closeTime
        · exact Or.inr ⟨c, List.mem_cons_self _ _, sv, hsv, by omega⟩
        · exact Or.inl (by omega)
      · exact Or.inr ⟨c1, List.mem_cons_of_mem _ hc1, sv1, hsv1, he⟩

/-- Every example candidate decodes. -/
theorem exampleCandidates_decodable :
    ∀ c ∈ exampleCandidates, ∃ sv, xdr_from_opaque c = .ok sv := by
  intro c hc
  simp only [exampleCandidates, List.mem_cons, List.mem_singleton, List.not_mem_nil,
    or_false] at hc
  rcases hc with rfl | rfl
  · exact ⟨_, rfl⟩
  · exact ⟨_, rfl⟩

/-- C6: for every non-empty list of decodable candidates `combineCandidates` returns a value
whose base fee is the maximum of the candidates' base fees and whose close time is the maximum
of their close times: each bounds every candidate's and is attained by one. -/
theorem C6_combined_value_takes_maxima (app : Application) (h : HerderImpl) (slotIndex : Nat) (candidates : List Value)
    (hne : candidates ≠ [])
    (hdec : ∀ c ∈ candidates, ∃ sv, xdr_from_opaque c = .ok sv) :
    ∃ comp h1, h.combineCandidates app slotIndex candidates = .ok ( xdr_to_opaque comp, h1) ∧
      (∀ c ∈ candidates, ∀ sv, xdr_from_opaque c = .ok sv →
        sv.baseFee ≤ comp.baseFee ∧ sv.closeTime ≤ comp.closeTime) ∧
      (∃ c ∈ candidates, ∃ sv, xdr_from_opaque c = .ok sv ∧ sv.baseFee = comp.baseFee) ∧
      (∃ c ∈ candidates, ∃ sv, xdr_from_opaque c = .ok sv ∧ sv.closeTime = comp.closeTime) := by
  obtain ⟨res, hres, _, _, _, hall, hfe, hte⟩ :=
    combineCandidatesLoop_max app h candidates (⟨Hash.zero, 0, 0⟩, []) hdec
  obtain ⟨c0, rest, rfl⟩ := List.exists_cons_of_ne_nil hne
  obtain ⟨sv0, hsv0⟩ := hdec c0 (List.mem_cons_self _ _)
  have h0 := hall c0 (List.mem_cons_self _ _) sv0 hsv0
  obtain ⟨comp, aggSet⟩ := res
  simp only [HerderImpl.combineCandidates, hres]
  refine ⟨_, _, rfl, hall, ?_, ?_⟩
  · rcases hfe with hfe | hfe
    · exact ⟨c0, List.mem_cons_self _ _, sv0, hsv0, by simp only at hfe h0 ⊢; omega⟩
    · exact hfe
  · rcases hte with hte | hte
    · exact ⟨c0, List.mem_cons_self _ _, sv0, hsv0, by simp only at hte h0 ⊢; omega⟩
    · exact hte

/-- C6 at the two candidates with base fees 100, 120 and close times 1000, 1002: the combined
value has base fee 120 and close time 1002. -/
theorem C6_combined_value_takes_maxima_witness :
    exampleCandidates ≠ [] ∧
    exampleHerder.combineCandidates exampleApplication 6 exampleCandidates =
      .ok ( xdr_to_opaque ⟨1000, 1002, 120⟩, exampleHerder.recvTxSet 1000 ⟨5, []⟩) ∧
    ∃ comp h1, exampleHerder.combineCandidates exampleApplication 6 exampleCandidates =
        .ok ( xdr_to_opaque comp, h1) ∧
      (∀ c ∈ exampleCandidates, ∀ sv, xdr_from_opaque c = .ok sv →
        sv.baseFee ≤ comp.baseFee ∧ sv.closeTime ≤ comp.closeTime) ∧
      (∃ c ∈ exampleCandidates, ∃ sv, xdr_from_opaque c = .ok sv ∧ sv.baseFee = comp.baseFee) ∧
      (∃ c ∈ exampleCandidates, ∃ sv,
        xdr_from_opaque c = .ok sv ∧ sv.closeTime = comp.closeTime) :=
  ⟨by decide, rfl,
    C6_combined_value_takes_maxima exampleApplication exampleHerder 6 exampleCandidates
      (by decide) exampleCandidates_decodable⟩

/-! ## Validation -/

/-- `validateValue` returns a boolean on every input. -/
theorem validateValue_returns (app : Application) (h : HerderImpl) (slotIndex nodeID : Nat)
    (value : Value) : ∃ b, h.validateValue app slotIndex nodeID value = .ok b := by
  unfold HerderImpl.validateValue
  repeat' split
  all_goals exact ⟨_, rfl⟩

/-- C7 as stated fails: while tracking consensus index 5 (next slot 6), `validateBallot` for a
decodable ballot of slot 7 whose close time is within the slip does not return a boolean, it
throws. -/
theorem C7_validateBallot_throws_for_other_slot :
    exampleHerder.mTrackingSCP = some ⟨5, ⟨0, 990, 100⟩⟩ ∧
    exampleHerder.validateBallot exampleApplication 7 2 exampleBallot = .error .runtime_error :=
  ⟨rfl, rfl⟩

/-- C7, amended: `validateValue` returns a boolean on every input (undecodable payloads
included); `validateBallot` throws exactly when the ballot decodes, its close time is within
the slip, the node is tracking and the slot is not the next consensus slot, and returns a boolean
in every other case (undecodable payloads included). -/
theorem C7_validation_throws_only_for_other_slot (app : Application) (h : HerderImpl)
    (slotIndex nodeID : Nat) (value : Value) (ballot : SCPBallot) :
    (∃ r, h.validateValue app slotIndex nodeID value = .ok r) ∧
    ((∃ b t, xdr_from_opaque ballot.value = .ok b ∧
        b.closeTime ≤ u64 (app.timeNow + app.MAX_TIME_SLIP_SECONDS) ∧
        h.mTrackingSCP = some t ∧ t.nextConsensusLedgerIndex ≠ slotIndex) →
      h.validateBallot app slotIndex nodeID ballot = .error .runtime_error) ∧
    (¬ (∃ b t, xdr_from_opaque ballot.value = .ok b ∧
        b.closeTime ≤ u64 (app.timeNow + app.MAX_TIME_SLIP_SECONDS) ∧
        h.mTrackingSCP = some t ∧ t.nextConsensusLedgerIndex ≠ slotIndex) →
      ∃ r, h.validateBallot app slotIndex nodeID ballot = .ok r) := by
  refine ⟨validateValue_returns app h slotIndex nodeID value, ?_, ?_⟩
  · rintro ⟨b, t, hb, hct, htr, hne⟩
    have hct1 : ¬ b.closeTime > u64 (app.timeNow + app.MAX_TIME_SLIP_SECONDS) := by omega
    simp [HerderImpl.validateBallot, hb, hct1, htr, hne]
  · intro hno
    unfold HerderImpl.validateBallot
    split
    · exact ⟨_, rfl⟩
    · rename_i b hb
      by_cases hct : b.closeTime > u64 (app.timeNow + app.MAX_TIME_SLIP_SECONDS)
      · exact ⟨false, by simp [hct]⟩
      · rw [if_neg hct]
        cases htr : h.mTrackingSCP with
        | none =>
          simp only [Bool.false_eq_true, if_false]
          repeat' split
          all_goals exact ⟨_, rfl⟩
        | some t =>
          have heq : ¬ t.nextConsensusLedgerIndex ≠ slotIndex := fun hne =>
            hno ⟨b, t, hb, by omega, htr, hne⟩
          simp only [heq, decide_False, Bool.false_eq_true, if_false]
          repeat' split
          all_goals exact ⟨_, rfl⟩

/-- C7, amended, at the example Herder (tracking index 5): an undecodable value and an
undecodable ballot are answered with a boolean, and the ballot of slot 7 makes `validateBallot`
throw. -/
theorem C7_validation_throws_only_for_other_slot_witness :
    (∃ r, exampleHerder.validateValue exampleApplication 7 2 (.undecodable [1, 2]) = .ok r) ∧
    exampleHerder.validateBallot exampleApplication 7 2 exampleBallot = .error .runtime_error ∧
    (∃ r, exampleHerder.validateBallot exampleApplication 7 2 ⟨1, .undecodable [1, 2]⟩ = .ok r) :=
  ⟨(C7_validation_throws_only_for_other_slot exampleApplication exampleHerder 7 2
      (.undecodable [1, 2]) exampleBallot).1,
    (C7_validation_throws_only_for_other_slot exampleApplication exampleHerder 7 2
      (.undecodable [1, 2]) exampleBallot).2.1
        ⟨⟨11, 1000, 100⟩, ⟨5, ⟨0, 990, 100⟩⟩, rfl, by decide, rfl, by decide⟩,
    (C7_validation_throws_only_for_other_slot exampleApplication exampleHerder 7 2
      (.undecodable [1, 2]) ⟨1, .undecodable [1, 2]⟩).2.2
        (by rintro ⟨b, t, hb, _⟩; cases hb)⟩

/-- C8: while the node tracks consensus index `T`, every ballot for which `validateBallot`
returns true is for slot `T + 1`. -/
theorem C8_accepted_ballot_is_for_next_slot (app : Application) (h : HerderImpl) (slotIndex nodeID : Nat) (ballot : SCPBallot)
    (t : ConsensusData) (htracking : h.mTrackingSCP = some t)
    (haccept : h.validateBallot app slotIndex nodeID ballot = .ok true) :
    slotIndex = t.mConsensusIndex + 1 := by
  by_contra hne
  have hne1 : t.nextConsensusLedgerIndex ≠ slotIndex := by
    simp only [ConsensusData.nextConsensusLedgerIndex]
    omega
  unfold HerderImpl.validateBallot at haccept
  split at haccept
  · cases haccept
  · split at haccept
    · cases haccept
    · simp [htracking, hne1] at haccept

/-- C8 at the example Herder, tracking index 5: the example ballot is accepted for slot 6. -/
theorem C8_accepted_ballot_is_for_next_slot_witness :
    exampleHerder.mTrackingSCP = some ⟨5, ⟨0, 990, 100⟩⟩ ∧
    exampleHerder.validateBallot exampleApplication 6 2 exampleBallot = .ok true ∧
    6 = (⟨5, ⟨0, 990, 100⟩⟩ : ConsensusData).mConsensusIndex + 1 :=
  ⟨rfl, rfl,
    C8_accepted_ballot_is_for_next_slot exampleApplication exampleHerder 6 2 exampleBallot
      ⟨5, ⟨0, 990, 100⟩⟩ rfl rfl⟩

/-! ## The transaction pool -/

/-- Pushing the transactions of a tier one by one to the back of another appends the tier. -/
theorem foldl_push_back (l init : List TransactionFrame) :
    l.foldl (fun dst tx => dst ++ [tx]) init = init ++ l := by
  induction l generalizing init with
  | nil => simp
  | cons x xs ih => simp [List.foldl_cons, ih]

/-- The tiers of a pool after one tier has been replaced. -/
theorem tier_set (pool : List (List TransactionFrame)) (i j : Nat) (a : List TransactionFrame) :
    tier (pool.set i a) j = if i = j ∧ i < pool.length then a else tier pool j := by
  simp only [tier, List.getD_eq_getElem?_getD, List.getElem?_set]
  by_cases hij : i = j
  · by_cases hlt : i < pool.length
    · subst hij
      simp [hlt]
    · subst hij
      have : pool[i]? = none := List.getElem?_eq_none (by omega)
      simp [hlt, this]
  · simp [hij]

/-- Beyond the last tier there are no transactions. -/
theorem tier_of_length_le (pool : List (List TransactionFrame)) (j : Nat)
    (h : pool.length ≤ j) : tier pool j = [] := by
  simp [tier, List.getElem?_eq_none h]

/-- One ageing iteration keeps the number of tiers. -/
theorem length_ageTier (pool : List (List TransactionFrame)) (n : Nat) :
    (ageTier pool n).length = pool.length := by
  simp [ageTier]

/-- The tiers after one ageing iteration: tier `n` is emptied into tier `n + 1`. -/
theorem tier_ageTier (pool : List (List TransactionFrame)) (n j : Nat)
    (hn : n + 1 < pool.length) :
    tier (ageTier pool (n + 1)) j =
      if j = n then [] else if j = n + 1 then tier pool (n + 1) ++ tier pool n
      else tier pool j := by
  simp only [ageTier, tier_set, foldl_push_back, List.length_set, Nat.add_sub_cancel]
  by_cases h1 : j = n
  · subst h1
    simp
    omega
  · by_cases h2 : j = n + 1
    · subst h2
      simp [hn]
    · have e1 : ¬ (n = j ∧ n < pool.length) := fun h => h1 h.1.symm
      have e2 : ¬ (n + 1 = j ∧ n + 1 < pool.length) := fun h => h2 h.1.symm
      simp [h1, h2, e1, e2]

/-- The ageing loop keeps the number of tiers. -/
theorem length_ageLoop (n : Nat) : ∀ pool : List (List TransactionFrame),
    (ageLoop n pool).length = pool.length := by
  induction n with
  | zero => intro pool; rfl
  | succ n ih => intro pool; simp [ageLoop, ih, length_ageTier]

/-- The tiers after the ageing loop started at `n`: tier 0 is empty, each tier up to `n - 1`
holds the former tier below it, and tier `n` holds its former content followed by that of tier
`n - 1`. -/
theorem tier_ageLoop (n : Nat) : ∀ (pool : List (List TransactionFrame)) (j : Nat),
    n < pool.length →
    tier (ageLoop n pool) j =
      if n = 0 then tier pool j
      else if j = 0 then []
      else if j < n then tier pool (j - 1)
      else if j = n then tier pool n ++ tier pool (n - 1)
      else tier pool j := by
  induction n with
  | zero => intro pool j _; simp [ageLoop]
  | succ n ih =>
    intro pool j hn
    have hlen : n < (ageTier pool (n + 1)).length := by
      rw [length_ageTier]; omega
    simp only [ageLoop, ih (ageTier pool (n + 1)) j hlen, tier_ageTier pool n _ hn]
    by_cases hn0 : n = 0
    · subst hn0
      by_cases hj0 : j = 0
      · simp [hj0]
      · by_cases hj1 : j = 1
        · simp [hj1]
        · have : ¬ j < 1 := by omega
          simp [hj0, hj1, this]
    · by_cases hj0 : j = 0
      · simp [hn0, hj0]
      · by_cases hjn : j < n
        · have a1 : ¬ j - 1 = n := by omega
          have a2 : ¬ j - 1 = n + 1 := by omega
          have a3 : j < n + 1 := by omega
          simp [hn0, hj0, hjn, a1, a2, a3]
        · by_cases hjeq : j = n
          · subst hjeq
            have a1 : ¬ j - 1 = j := by omega
            have a2 : ¬ j - 1 = j + 1 := by omega
            simp [hn0, a1, a2]
          · by_cases hjeq1 : j = n + 1
            · subst hjeq1
              simp
            · have a3 : ¬ j < n + 1 := by omega
              simp [hn0, hj0, hjn, hjeq, hjeq1, a3]

/-- Erasing the first transaction with a given hash from a tier only removes transactions, and
none with another hash. -/
theorem eraseFirstWithHash_mem (hash : Hash) : ∀ (l l1 : List TransactionFrame),
    eraseFirstWithHash hash l = some l1 →
    (∀ tx, tx ∈ l1 → tx ∈ l) ∧ (∀ tx, tx.fullHash ≠ hash → tx ∈ l → tx ∈ l1) := by
  intro l
  induction l with
  | nil => intro l1 h; cases h
  | cons x xs ih =>
    intro l1 h
    simp only [eraseFirstWithHash] at h
    by_cases hx : x.fullHash = hash
    · rw [if_pos hx] at h
      cases h
      refine ⟨fun tx htx => List.mem_cons_of_mem _ htx, fun tx hne htx => ?_⟩
      rcases List.mem_cons.mp htx with heq | hmem
      · subst heq
        exact absurd hx hne
      · exact hmem
    · rw [if_neg hx] at h
      cases hrest : eraseFirstWithHash hash xs with
      | none => rw [hrest] at h; cases h
      | some rest1 =>
        rw [hrest] at h
        cases h
        obtain ⟨h1, h2⟩ := ih rest1 hrest
        refine ⟨fun tx htx => ?_, fun tx hne htx => ?_⟩
        · rcases List.mem_cons.mp htx with heq | hmem
          · exact heq ▸ List.mem_cons_self _ _
          · exact List.mem_cons_of_mem _ (h1 tx hmem)
        · rcases List.mem_cons.mp htx with heq | hmem
          · exact heq ▸ List.mem_cons_self _ _
          · exact List.mem_cons_of_mem _ (h2 tx hne hmem)

/-- `removeReceivedTx` keeps the number of tiers. -/
theorem length_removeReceivedTx (dropTx : TransactionFrame) :
    ∀ pool : List (List TransactionFrame), (removeReceivedTx pool dropTx).length = pool.length := by
  intro pool
  induction pool with
  | nil => rfl
  | cons l ls ih =>
    simp only [removeReceivedTx]
    split <;> simp [ih]

/-- `removeReceivedTx` adds nothing to any tier and keeps every transaction with another
hash in its tier. -/
theorem tier_removeReceivedTx (dropTx : TransactionFrame) :
    ∀ (pool : List (List TransactionFrame)) (j : Nat),
      (∀ tx, tx ∈ tier (removeReceivedTx pool dropTx) j → tx ∈ tier pool j) ∧
      (∀ tx, tx.fullHash ≠ dropTx.fullHash → tx ∈ tier pool j →
        tx ∈ tier (removeReceivedTx pool dropTx) j) := by
  intro pool
  induction pool with
  | nil => intro j; exact ⟨fun _ h => h, fun _ _ h => h⟩
  | cons l ls ih =>
    intro j
    simp only [removeReceivedTx]
    cases herase : eraseFirstWithHash dropTx.fullHash l with
    | some l1 =>
      obtain ⟨h1, h2⟩ := eraseFirstWithHash_mem dropTx.fullHash l l1 herase
      cases j with
      | zero => exact ⟨fun tx htx => h1 tx htx, fun tx hne htx => h2 tx hne htx⟩
      | succ j => exact ⟨fun _ h => h, fun _ _ h => h⟩
    | none =>
      cases j with
      | zero => exact ⟨fun _ h => h, fun _ _ h => h⟩
      | succ j => exact ih j

/-- Removing the transactions of an externalized set keeps the number of tiers. -/
theorem length_foldl_removeReceivedTx (txs : List TransactionFrame) :
    ∀ pool : List (List TransactionFrame),
      (txs.foldl removeReceivedTx pool).length = pool.length := by
  induction txs with
  | nil => intro pool; rfl
  | cons d ds ih => intro pool; simp [List.foldl_cons, ih, length_removeReceivedTx]

/-- Removing the transactions of an externalized set adds nothing to any tier and keeps every
transaction whose hash is not in the set in its tier. -/
theorem tier_foldl_removeReceivedTx (txs : List TransactionFrame) :
    ∀ (pool : List (List TransactionFrame)) (j : Nat),
      (∀ tx, tx ∈ tier (txs.foldl removeReceivedTx pool) j → tx ∈ tier pool j) ∧
      (∀ tx, (∀ e ∈ txs, e.fullHash ≠ tx.fullHash) → tx ∈ tier pool j →
        tx ∈ tier (txs.foldl removeReceivedTx pool) j) := by
  induction txs with
  | nil => intro pool j; exact ⟨fun _ h => h, fun _ _ h => h⟩
  | cons d ds ih =>
    intro pool j
    obtain ⟨h1, h2⟩ := ih (removeReceivedTx pool d) j
    obtain ⟨g1, g2⟩ := tier_removeReceivedTx d pool j
    simp only [List.foldl_cons]
    refine ⟨fun tx htx => g1 tx (h1 tx htx), fun tx hne htx => ?_⟩
    refine h2 tx (fun e he => hne e (List.mem_cons_of_mem _ he)) (g2 tx ?_ htx)
    exact fun heq => hne d (List.mem_cons_self _ _) heq.symm

/-- The pool part of `valueExternalized` succeeds on a pool of at least two tiers, keeps the
number of tiers, and leaves tier 0 empty, each middle tier with what remained of the tier below
it, and the last tier with what remained of itself and of the tier below it. -/
theorem externalizePool_tiers (pool : List (List TransactionFrame)) (ext : TxSetFrame)
    (hlen : 2 ≤ pool.length) :
    ∃ new, externalizePool pool ext = .ok new ∧ new.length = pool.length ∧
      ∀ j, tier new j =
        if j = 0 then []
        else if j < pool.length - 1 then tier (ext.mTransactions.foldl removeReceivedTx pool) (j - 1)
        else if j = pool.length - 1 then
          tier (ext.mTransactions.foldl removeReceivedTx pool) (pool.length - 1) ++
            tier (ext.mTransactions.foldl removeReceivedTx pool) (pool.length - 2)
        else [] := by
  have hl := length_foldl_removeReceivedTx ext.mTransactions pool
  have hnot : ¬ (ext.mTransactions.foldl removeReceivedTx pool).length < 2 := by omega
  refine ⟨ageReceivedTransactions (ext.mTransactions.foldl removeReceivedTx pool), ?_, ?_, ?_⟩
  · simp only [externalizePool, if_neg hnot]
  · simp only [ageReceivedTransactions, length_ageLoop, hl]
  · intro j
    have hn0 : ¬ pool.length - 1 = 0 := by omega
    simp only [ageReceivedTransactions, hl]
    rw [tier_ageLoop (pool.length - 1) _ j (by omega), if_neg hn0]
    have e : pool.length - 1 - 1 = pool.length - 2 := by omega
    rw [e]
    by_cases hj0 : j = 0
    · simp [hj0]
    · by_cases hj1 : j < pool.length - 1
      · simp [hj0, hj1]
      · by_cases hj2 : j = pool.length - 1
        · simp [hj0, hj1, hj2]
        · simp only [if_neg hj0, if_neg hj1, if_neg hj2]
          exact tier_of_length_le _ _ (by omega)

/-- A successful `valueExternalized` changes the pool as `externalizePool` does, for the
transaction set named by the externalized value. -/
theorem valueExternalized_pool (h h1 : HerderImpl) (slotIndex : Nat) (value : Value)
    (hv : h.valueExternalized slotIndex value = .ok h1) :
    ∃ b externalizedSet, xdr_from_opaque value = .ok b ∧
      h.getTxSet b.txSetHash = some externalizedSet ∧
      externalizePool h.mReceivedTransactions externalizedSet = .ok h1.mReceivedTransactions := by
  unfold HerderImpl.valueExternalized at hv
  split at hv
  · cases hv
  · rename_i b hb
    split at hv
    · cases hv
    · rename_i ext hext
      split at hv
      · cases hv
      · rename_i pool hpool
        cases hv
        exact ⟨b, ext, hb, hext, hpool⟩

/-- One externalization moves a transaction that is not in the externalized set one tier up,
or keeps it in the last tier. -/
theorem externalizePool_keeps (pool : List (List TransactionFrame)) (ext : TxSetFrame)
    (tx : TransactionFrame) (i : Nat) (hlen : 2 ≤ pool.length) (hi : i < pool.length)
    (htx : tx ∈ tier pool i) (hnot : ∀ e ∈ ext.mTransactions, e.fullHash ≠ tx.fullHash) :
    ∃ new, externalizePool pool ext = .ok new ∧ new.length = pool.length ∧
      tx ∈ tier new (min (i + 1) (pool.length - 1)) := by
  obtain ⟨new, hnew, hl, htiers⟩ := externalizePool_tiers pool ext hlen
  have hkept := (tier_foldl_removeReceivedTx ext.mTransactions pool i).2 tx hnot htx
  refine ⟨new, hnew, hl, ?_⟩
  rw [htiers]
  by_cases hlast : i + 1 < pool.length - 1
  · have e1 : min (i + 1) (pool.length - 1) = i + 1 := by omega
    have e2 : ¬ i + 1 = 0 := by omega
    rw [e1, if_neg e2, if_pos hlast]
    exact hkept
  · have e1 : min (i + 1) (pool.length - 1) = pool.length - 1 := by omega
    have e2 : ¬ pool.length - 1 = 0 := by omega
    have e3 : ¬ pool.length - 1 < pool.length - 1 := by omega
    rw [e1, if_neg e2, if_neg e3, if_pos rfl]
    by_cases hi1 : i = pool.length - 1
    · exact List.mem_append_left _ (hi1 ▸ hkept)
    · have e4 : i = pool.length - 2 := by omega
      exact List.mem_append_right _ (e4 ▸ hkept)

/-- After any number of externalizations a transaction that was in none of the externalized
sets has moved up one tier per cycle, up to the last tier. -/
theorem externalizeCycles_keeps (tx : TransactionFrame) (exts : List TxSetFrame) :
    ∀ (pool : List (List TransactionFrame)) (i : Nat), 2 ≤ pool.length → i < pool.length →
      tx ∈ tier pool i →
      (∀ ext ∈ exts, ∀ e ∈ ext.mTransactions, e.fullHash ≠ tx.fullHash) →
      ∃ new, externalizeCycles pool exts = .ok new ∧ new.length = pool.length ∧
        tx ∈ tier new (min (i + exts.length) (pool.length - 1)) := by
  induction exts with
  | nil =>
    intro pool i _ hi htx _
    refine ⟨pool, rfl, rfl, ?_⟩
    have e : min (i + ([] : List TxSetFrame).length) (pool.length - 1) = i := by
      simp only [List.length_nil]; omega
    rw [e]
    exact htx
  | cons ext rest ih =>
    intro pool i hlen hi htx hnot
    obtain ⟨p1, hp1, hl1, hmem1⟩ := externalizePool_keeps pool ext tx i hlen hi htx
      (hnot ext (List.mem_cons_self _ _))
    obtain ⟨new, hnew, hl, hmem⟩ := ih p1 (min (i + 1) (pool.length - 1)) (by omega) (by omega)
      hmem1 (fun e he => hnot e (List.mem_cons_of_mem _ he))
    refine ⟨new, ?_, by omega, ?_⟩
    · simp only [externalizeCycles, hp1, hnew]
    · have e : min (min (i + 1) (pool.length - 1) + rest.length) (p1.length - 1) =
          min (i + (ext :: rest).length) (pool.length - 1) := by
        simp only [List.length_cons]; omega
      rw [← e]
      exact hmem

/-- C9 as stated fails: a transaction received into tier 0 and not included in any of four
externalized values is still in the pool after the four `valueExternalized` calls, in the last
tier. -/
theorem C9_still_pooled_after_four_cycles :
    exampleTxA ∈ tier examplePoolHerder.mReceivedTransactions 0 ∧
    (exampleFourCycles examplePoolHerder).map (fun h => h.mReceivedTransactions) =
      .ok [[], [], [], [exampleTxA]] :=
  ⟨by decide, rfl⟩

/-- C9, amended: a transaction in tier 0 of a pool of at least two tiers whose hash is in none
of the externalized sets is never evicted by ageing: every sequence of externalizations
succeeds, and after `k` of them the transaction is in tier `min k (tiers - 1)`, so from
`tiers - 1` cycles on it stays in the last tier. -/
theorem C9_aged_to_last_tier_and_kept (pool : List (List TransactionFrame)) (exts : List TxSetFrame)
    (tx : TransactionFrame) (hlen : 2 ≤ pool.length) (htx : tx ∈ tier pool 0)
    (hnot : ∀ ext ∈ exts, ∀ e ∈ ext.mTransactions, e.fullHash ≠ tx.fullHash) :
    ∃ new, externalizeCycles pool exts = .ok new ∧
      tx ∈ tier new (min exts.length (pool.length - 1)) := by
  obtain ⟨new, hnew, _, hmem⟩ := externalizeCycles_keeps tx exts pool 0 hlen (by omega) htx hnot
  rw [Nat.zero_add] at hmem
  exact ⟨new, hnew, hmem⟩

/-- C9, amended, at a pool of four tiers and four externalized sets: the transaction of tier 0
ends in tier 3. -/
theorem C9_aged_to_last_tier_and_kept_witness :
    2 ≤ examplePoolHerder.mReceivedTransactions.length ∧
    exampleTxA ∈ tier examplePoolHerder.mReceivedTransactions 0 ∧
    (∀ ext ∈ exampleExternalizedSets, ∀ e ∈ ext.mTransactions,
      e.fullHash ≠ exampleTxA.fullHash) ∧
    ∃ new, externalizeCycles examplePoolHerder.mReceivedTransactions exampleExternalizedSets =
        .ok new ∧
      exampleTxA ∈ tier new (min exampleExternalizedSets.length
        (examplePoolHerder.mReceivedTransactions.length - 1)) :=
  ⟨by decide, by decide, by decide,
    C9_aged_to_last_tier_and_kept examplePoolHerder.mReceivedTransactions
      exampleExternalizedSets exampleTxA (by decide) (by decide) (by decide)⟩

/-- The ageing loop has no de-duplication of its own: in a pool that holds the same transaction
in tiers 0 and 1, which violates the uniqueness invariant and is not reachable, after an
externalization that does not include it the transaction of tier 0 is in tier 1 and also in
tier 2. -/
theorem duplicate_pool_ages_into_two_tiers :
    exampleTxA ∈ tier exampleDuplicatePool 0 ∧
    externalizePool exampleDuplicatePool ⟨5, []⟩ = .ok [[], [exampleTxA], [exampleTxA], []] ∧
    exampleTxA ∈ tier [[], [exampleTxA], [exampleTxA], []] 1 ∧
    exampleTxA ∈ tier [[], [exampleTxA], [exampleTxA], []] 2 :=
  ⟨by decide, rfl, by decide, by decide⟩

/-- For every pool, every externalized set and every transaction of a tier `i` below the last
whose hash is not in the set, the pool part of `valueExternalized` succeeds, leaves tier 0
empty and the transaction in tier `i + 1`; it is in no other tier provided it was in no tier
other than `i` before. -/
theorem externalizePool_moves_one_tier_up (pool : List (List TransactionFrame)) (ext : TxSetFrame)
    (tx : TransactionFrame) (i : Nat) (hi : i + 1 < pool.length) (htx : tx ∈ tier pool i)
    (hnot : ∀ e ∈ ext.mTransactions, e.fullHash ≠ tx.fullHash) :
    ∃ new, externalizePool pool ext = .ok new ∧ tier new 0 = [] ∧ tx ∈ tier new (i + 1) ∧
      ((∀ j, j ≠ i → tx ∉ tier pool j) → ∀ j, j ≠ i + 1 → tx ∉ tier new j) := by
  obtain ⟨new, hnew, hl, htiers⟩ := externalizePool_tiers pool ext (by omega)
  obtain ⟨new1, hnew1, _, hmem⟩ :=
    externalizePool_keeps pool ext tx i (by omega) (by omega) htx hnot
  have hsame : new1 = new := by
    rw [hnew] at hnew1
    injection hnew1 with hnew1
    exact hnew1.symm
  subst hsame
  have hmin : min (i + 1) (pool.length - 1) = i + 1 := by omega
  rw [hmin] at hmem
  have hsub := fun j => (tier_foldl_removeReceivedTx ext.mTransactions pool j).1 tx
  refine ⟨new1, hnew, ?_, hmem, ?_⟩
  · rw [htiers]; simp
  · intro huniq j hj hin
    rw [htiers] at hin
    by_cases hj0 : j = 0
    · simp [hj0] at hin
    · rw [if_neg hj0] at hin
      by_cases hj1 : j < pool.length - 1
      · rw [if_pos hj1] at hin
        exact huniq (j - 1) (by omega) (hsub _ hin)
      · rw [if_neg hj1] at hin
        by_cases hj2 : j = pool.length - 1
        · rw [if_pos hj2] at hin
          rcases List.mem_append.mp hin with h1 | h1
          · exact huniq _ (by omega) (hsub _ h1)
          · exact huniq _ (by omega) (hsub _ h1)
        · rw [if_neg hj2] at hin
          cases hin

/-! ## Catch-up range: rejected configurations and the range invariant -/

/-- With a last closed ledger of at least 1 and a target above it, `computeCatchupledgers`
returns a range. -/
theorem computeCatchupledgers_ok_of_valid (lastClosed : Nat) (cfg : CatchupConfiguration)
    (hm : HistoryManager) (h1 : 1 ≤ lastClosed) (h2 : lastClosed < cfg.toLedger) :
    ∃ l, computeCatchupledgers lastClosed cfg hm = .ok l := by
  have e0 : ¬ lastClosed = 0 := by omega
  have e1 : ¬ cfg.toLedger ≤ lastClosed := by omega
  have e2 : ¬ cfg.toLedger = CatchupConfiguration.CURRENT := by
    simp only [CatchupConfiguration.CURRENT]; omega
  simp only [computeCatchupledgers, if_neg e0, if_neg e1, if_neg e2]
  split_ifs <;> exact ⟨_, rfl⟩

/-- C19: the construction of a `CatchupRange` fails with an invalid-argument error if and only
if `lastClosed = 0` or the target ledger is at most `lastClosed`; it fails in no other way; the
unresolved target CURRENT is rejected for every `lastClosed`; and for `lastClosed >= 1` with a
target above it the construction succeeds. -/
theorem C19_range_rejected_iff_invalid (lastClosed : Nat) (cfg : CatchupConfiguration)
    (hm : HistoryManager) :
    ((∃ what, CatchupRange.ctor lastClosed cfg hm = .error (.invalid_argument what)) ↔
      (lastClosed = 0 ∨ cfg.toLedger ≤ lastClosed)) ∧
    (∀ e, CatchupRange.ctor lastClosed cfg hm = .error e → ∃ what, e = .invalid_argument what) ∧
    (cfg.toLedger = CatchupConfiguration.CURRENT →
      ∃ what, CatchupRange.ctor lastClosed cfg hm = .error (.invalid_argument what)) ∧
    (1 ≤ lastClosed → lastClosed < cfg.toLedger →
      ∃ r, CatchupRange.ctor lastClosed cfg hm = .ok r) := by
  have hbad : (lastClosed = 0 ∨ cfg.toLedger ≤ lastClosed) →
      ∃ what, CatchupRange.ctor lastClosed cfg hm = .error (.invalid_argument what) := by
    intro h
    by_cases e0 : lastClosed = 0
    · exact ⟨.lastClosedLedgerIsZero,
        by simp only [CatchupRange.ctor, computeCatchupledgers, if_pos e0]⟩
    · have e1 : cfg.toLedger ≤ lastClosed := by omega
      exact ⟨.toLedgerNotAfterLastClosedLedger,
        by simp only [CatchupRange.ctor, computeCatchupledgers, if_neg e0, if_pos e1]⟩
  have hgood : 1 ≤ lastClosed → lastClosed < cfg.toLedger →
      ∃ r, CatchupRange.ctor lastClosed cfg hm = .ok r := by
    intro h1 h2
    obtain ⟨l, hl⟩ := computeCatchupledgers_ok_of_valid lastClosed cfg hm h1 h2
    exact ⟨⟨l, decide (l.mFirst > u32add lastClosed 1)⟩, by simp only [CatchupRange.ctor, hl]⟩
  refine ⟨⟨fun ⟨what, hw⟩ => ?_, hbad⟩, fun e he => ?_, fun hcur => ?_, hgood⟩
  · by_contra hcon
    obtain ⟨r, hr⟩ := hgood (by omega) (by omega)
    rw [hr] at hw
    cases hw
  · by_cases hv : lastClosed = 0 ∨ cfg.toLedger ≤ lastClosed
    · obtain ⟨what, hw⟩ := hbad hv
      rw [hw] at he
      cases he
      exact ⟨what, rfl⟩
    · obtain ⟨r, hr⟩ := hgood (by omega) (by omega)
      rw [hr] at he
      cases he
  · apply hbad
    simp only [CatchupConfiguration.CURRENT] at hcur
    omega

/-- C19 at concrete inputs: a last closed ledger of 0, a target equal to the last closed ledger
and the target CURRENT are rejected with an invalid-argument error; last closed ledger 1 with
target 1000 gives a range. -/
theorem C19_range_rejected_iff_invalid_witness :
    (∃ what, CatchupRange.ctor 0 ⟨1000, 10⟩ ⟨64⟩ = .error (.invalid_argument what)) ∧
    (∃ what, CatchupRange.ctor 127 ⟨127, 10⟩ ⟨64⟩ = .error (.invalid_argument what)) ∧
    (∃ what, CatchupRange.ctor 127 ⟨CatchupConfiguration.CURRENT, 10⟩ ⟨64⟩ =
      .error (.invalid_argument what)) ∧
    (∃ r, CatchupRange.ctor 1 ⟨1000, 10⟩ ⟨64⟩ = .ok r) :=
  ⟨(C19_range_rejected_iff_invalid 0 ⟨1000, 10⟩ ⟨64⟩).1.2 (Or.inl rfl),
    (C19_range_rejected_iff_invalid 127 ⟨127, 10⟩ ⟨64⟩).1.2 (Or.inr (by decide)),
    (C19_range_rejected_iff_invalid 127 ⟨CatchupConfiguration.CURRENT, 10⟩ ⟨64⟩).2.2.1 rfl,
    (C19_range_rejected_iff_invalid 1 ⟨1000, 10⟩ ⟨64⟩).2.2.2 (by decide) (by decide)⟩

/-- Two checkpoint boundaries less than one checkpoint frequency apart are the same ledger. -/
theorem boundary_unique (freq a b : Nat) (ha : (a + 1) % freq = 0)
    (hb : (b + 1) % freq = 0) (hab : a ≤ b) (hlt : b < a + freq) : a = b := by
  have h1 : freq ∣ a + 1 := Nat.dvd_of_mod_eq_zero ha
  have h2 : freq ∣ b + 1 := Nat.dvd_of_mod_eq_zero hb
  have h3 : freq ∣ (b + 1) - (a + 1) := Nat.dvd_sub' h2 h1
  have h4 : (b + 1) - (a + 1) = 0 := Nat.eq_zero_of_dvd_of_lt h3 (by omega)
  omega

/-- A 32-bit sum that does not overflow is the sum. -/
theorem u32add_of_lt (a b : Nat) (h : a + b < 4294967296) : u32add a b = a + b :=
  Nat.mod_eq_of_lt h

/-- A 32-bit difference that does not underflow is the difference. -/
theorem u32sub_of_le (a b : Nat) (hb : b ≤ a) (ha : a < 4294967296) : u32sub a b = a - b := by
  unfold u32sub
  omega

/-- The smallest ledger to apply, `toLedger - max(1, count) + 1`, when the count is below
`target - 1`: the target for a count of at most 1, `target + 1 - count` otherwise. -/
theorem smallestLedgerToApply_eq (target count : Nat) (ht : target + 1 < 4294967296)
    (hc : ¬ count ≥ target - 1) :
    (count ≤ 1 → u32add (u32sub target (max 1 count)) 1 = target) ∧
    (1 < count → u32add (u32sub target (max 1 count)) 1 + count = target + 1) := by
  constructor
  · intro h
    rw [Nat.max_eq_left h, u32sub_of_le _ _ (by omega) (by omega),
      u32add_of_lt _ _ (by omega)]
    omega
  · intro h
    rw [Nat.max_eq_right (Nat.le_of_lt h), u32sub_of_le _ _ (by omega) (by omega),
      u32add_of_lt _ _ (by omega)]
    omega

/-- The checkpoint of a 32-bit ledger, stored in 32 bits, is that ledger only if it is that
ledger before the conversion. -/
theorem u32_checkpoint_eq_iff (c s freq : Nat) (hle : s ≤ c) (hlt : c < s + freq)
    (hf32 : freq < 4294967296) (hs : s < 4294967296) : u32 c = s ↔ c = s := by
  unfold u32
  omega

/-- The first ledger of the last branch of `computeCatchupledgers`: the ledger after the
checkpoint boundary before the one containing the smallest ledger to apply. -/
theorem last_branch_first (c freq m : Nat) (hcm : c + 1 = m + freq) (hm : 1 ≤ m)
    (hm32 : m < 4294967296) (hf32 : freq < 4294967296) :
    u32add (u32sub (u32 c) freq) 1 = m := by
  unfold u32add u32sub u32
  omega

/-- The count of the last branch of `computeCatchupledgers`: the ledgers from that first
ledger to the target. -/
theorem last_branch_count (target c freq m : Nat) (hcm : c + 1 = m + freq)
    (ht : target + 1 < 4294967296) (hlt : c < target + freq) :
    u32add (u32sub target (u32 c)) freq = target + 1 - m := by
  unfold u32add u32sub u32
  omega

/-- For a range with `first + count = target + 1` in 32 bits, `getLast` is the target. -/
theorem getLast_eq_target (l : Ledgers) (b : Bool) (target : Nat)
    (hs : l.mFirst + l.mCount = target + 1) (ht : target + 1 < 4294967296) :
    CatchupRange.getLast ⟨l, b⟩ = target := by
  simp only [CatchupRange.getLast, u32add, u32sub, hs]
  omega

/-- The range of a replay from the last closed ledger, without 32-bit wrap-around. -/
theorem range_full_replay (lastClosed target : Nat)
    (h2 : lastClosed < target) (ht : target + 1 < 4294967296) :
    u32add lastClosed 1 = lastClosed + 1 ∧ u32sub target lastClosed = target - lastClosed := by
  rw [u32add_of_lt _ _ (by omega), u32sub_of_le _ _ (by omega) (by omega)]
  exact ⟨rfl, rfl⟩

/-- A checkpoint at or after ledger 1 that is not the first checkpoint has a checkpoint
boundary before it, and the ledger after that boundary is at least 2. -/
theorem checkpoint_not_first (freq c c1 k k1 : Nat) (hk : 0 < k) (hk1 : 0 < k1)
    (hck : c + 1 = k * freq) (hck1 : c1 + 1 = k1 * freq) (hc1 : c1 < 1 + freq)
    (hc1le : 1 ≤ c1) (hs : 1 ≤ c) (hne : ¬ u32 c = u32 c1) :
    ∃ m, c + 1 = m + freq ∧ 2 ≤ m := by
  obtain ⟨j, rfl⟩ : ∃ j, k = j + 1 := ⟨k - 1, by omega⟩
  rw [Nat.succ_mul] at hck
  refine ⟨j * freq, hck, ?_⟩
  have hne1 : c ≠ c1 := fun h => hne (by rw [h])
  clear hne
  have hk12 : k1 * freq = freq ∨ 2 * freq ≤ k1 * freq := by
    rcases Nat.lt_or_ge k1 2 with h | h
    · have : k1 = 1 := by omega
      rw [this, Nat.one_mul]
      exact Or.inl rfl
    · exact Or.inr (Nat.mul_le_mul_right freq h)
  rcases Nat.eq_zero_or_pos j with hj | hj
  · exfalso
    rw [hj, Nat.zero_mul] at hck
    omega
  · have hjf : freq ≤ j * freq := Nat.le_mul_of_pos_left freq hj
    by_contra hlt2
    omega

/-- The checkpoint containing a checkpoint boundary is that boundary. -/
theorem boundary_is_checkpoint (freq target c k : Nat) (hck : c + 1 = k * freq)
    (hle : target ≤ c) (hlt : c < target + freq)
    (hb : HistoryManager.isCheckpointBoundary ⟨freq⟩ target = true) : c = target := by
  simp only [HistoryManager.isCheckpointBoundary, beq_iff_eq] at hb
  have hmod : (c + 1) % freq = 0 := by rw [hck]; simp
  exact (boundary_unique freq target c hb hmod hle hlt).symm

/-- C20, amended: for `lastClosed >= 1`, a target above it with `target + 1` in 32 bits, any
count and any checkpoint frequency from 1 to 32 bits, every computed range starts above the last
closed ledger (`first >= lastClosed + 1`), ends at the target (`first + count = target + 1`, and
`getLast`, which is `first + count - 1`, is the target), and has `count >= 1` except in one
case, where it is empty: from genesis, with a count of at most 1 that is below `target - 1`, and
a target on a checkpoint boundary. -/
theorem C20_range_ends_at_target (lastClosed target count freq : Nat) (l : Ledgers)
    (h1 : 1 ≤ lastClosed) (h2 : lastClosed < target) (ht : target + 1 < 4294967296)
    (hf : 0 < freq) (hf32 : freq < 4294967296)
    (hl : computeCatchupledgers lastClosed ⟨target, count⟩ ⟨freq⟩ = .ok l) :
    lastClosed + 1 ≤ l.mFirst ∧ l.mFirst + l.mCount = target + 1 ∧
      (∀ b, CatchupRange.getLast ⟨l, b⟩ = target) ∧
      (l.mCount = 0 ↔ (lastClosed = 1 ∧ count ≤ 1 ∧ count + 1 < target ∧
        HistoryManager.isCheckpointBoundary ⟨freq⟩ target = true)) := by
  suffices hmain : lastClosed + 1 ≤ l.mFirst ∧ l.mFirst + l.mCount = target + 1 ∧
      (l.mCount = 0 ↔ (lastClosed = 1 ∧ count ≤ 1 ∧ count + 1 < target ∧
        HistoryManager.isCheckpointBoundary ⟨freq⟩ target = true)) from
    ⟨hmain.1, hmain.2.1, fun b => getLast_eq_target l b target hmain.2.1 ht, hmain.2.2⟩
  have e0 : ¬ lastClosed = 0 := by omega
  have e1 : ¬ target ≤ lastClosed := by omega
  have e2 : ¬ target = CatchupConfiguration.CURRENT := by
    simp only [CatchupConfiguration.CURRENT]; omega
  simp only [computeCatchupledgers, if_neg e0, if_neg e1, if_neg e2, GENESIS_LEDGER_SEQ,
    HistoryManager.getCheckpointFrequency] at hl
  clear e0 e1 e2
  obtain ⟨ha, hb⟩ := range_full_replay lastClosed target h2 ht
  by_cases hL : lastClosed > 1
  · rw [if_pos hL, ha, hb] at hl
    cases hl
    refine ⟨Nat.le_refl _, by dsimp only; omega, ?_⟩
    constructor
    · intro h; dsimp only at h; omega
    · rintro ⟨h, _⟩; omega
  · rw [if_neg hL] at hl
    have hL1 : lastClosed = 1 := by omega
    subst hL1
    clear hL h1
    by_cases hn : count ≥ u32sub target 1
    · rw [if_pos hn, ha, hb] at hl
      rw [hb] at hn
      cases hl
      refine ⟨Nat.le_refl _, by dsimp only; omega, ?_⟩
      constructor
      · intro h; dsimp only at h; omega
      · rintro ⟨_, _, h3, _⟩; omega
    · rw [if_neg hn] at hl
      rw [hb] at hn
      obtain ⟨hs1, hs2⟩ := smallestLedgerToApply_eq target count ht hn
      obtain ⟨k, hk, hck, hle, hlt⟩ := checkpointContainingLedger_boundary freq
        (u32add (u32sub target (max 1 count)) 1) hf
      obtain ⟨k1, hk1, hck1, hle1, hlt1⟩ := checkpointContainingLedger_boundary freq 1 hf
      generalize u32add (u32sub target (max 1 count)) 1 = s at hl hs1 hs2 hck hle hlt
      generalize HistoryManager.checkpointContainingLedger ⟨freq⟩ s = c at hl hck hle hlt
      generalize HistoryManager.checkpointContainingLedger ⟨freq⟩ 1 = c1 at hl hck1 hle1 hlt1
      have hst : s ≤ target := by
        rcases Nat.lt_or_ge 1 count with h | h
        · have := hs2 h; omega
        · have := hs1 h; omega
      have hs2le : 2 ≤ s := by
        rcases Nat.lt_or_ge 1 count with h | h
        · have := hs2 h; omega
        · have := hs1 h; omega
      have hrhs : c ≠ s → ¬ (1 = 1 ∧ count ≤ 1 ∧ count + 1 < target ∧
          HistoryManager.isCheckpointBoundary ⟨freq⟩ target = true) := by
        rintro hne ⟨_, hc1, _, hbd⟩
        have hst2 := hs1 hc1
        subst hst2
        exact hne (boundary_is_checkpoint freq s c k hck hle hlt hbd)
      by_cases heq : u32 c = s
      · rw [if_pos heq] at hl
        have hcs : c = s := (u32_checkpoint_eq_iff c s freq hle hlt hf32 (by omega)).mp heq
        rw [u32add_of_lt s 1 (by omega), u32sub_of_le target s hst (by omega)] at hl
        cases hl
        refine ⟨by dsimp only; omega, by dsimp only; omega, ?_⟩
        constructor
        · intro h
          dsimp only at h
          have hcount : count ≤ 1 := by
            by_contra hc
            have := hs2 (by omega)
            omega
          refine ⟨rfl, hcount, by omega, ?_⟩
          have hs3 := hs1 hcount
          simp only [HistoryManager.isCheckpointBoundary, beq_iff_eq]
          rw [← hs3, ← hcs, hck]
          simp
        · rintro ⟨_, hc1, _, _⟩
          have := hs1 hc1
          dsimp only
          omega
      · rw [if_neg heq] at hl
        have hcs : c ≠ s := fun h => heq
          ((u32_checkpoint_eq_iff c s freq hle hlt hf32 (by omega)).mpr h)
        have hno := hrhs hcs
        by_cases heq1 : u32 c = u32 c1
        · rw [if_pos heq1, ha, hb] at hl
          cases hl
          refine ⟨Nat.le_refl _, by dsimp only; omega, ?_⟩
          constructor
          · intro h; dsimp only at h; omega
          · intro h; exact absurd h hno
        · rw [if_neg heq1] at hl
          obtain ⟨m, hcm, hm2⟩ := checkpoint_not_first freq c c1 k k1 hk hk1 hck hck1 hlt1
            hle1 (by omega) heq1
          rw [last_branch_first c freq m hcm (by omega) (by omega) hf32,
            last_branch_count target c freq m hcm ht (by omega)] at hl
          cases hl
          refine ⟨by dsimp only; omega, by dsimp only; omega, ?_⟩
          constructor
          · intro h; dsimp only at h; omega
          · intro h; exact absurd h hno

/-- C20, as stated, fails: from genesis with count 1, checkpoint frequency 64 and the target
127 on a checkpoint boundary, the computed range starts at 128 and has count 0, so `count >= 1`
does not hold. -/
theorem C20_empty_range_on_checkpoint_target :
    computeCatchupledgers 1 ⟨127, 1⟩ ⟨64⟩ = .ok ⟨128, 0⟩ ∧
    ¬ (1 ≤ (⟨128, 0⟩ : Ledgers).mCount) :=
  ⟨rfl, by decide⟩

/-- C20, amended, at concrete inputs: from genesis with target 127, count 1 and frequency 64
the range is (128, 0), the exceptional empty range; with target 1000 and count 10 it is
(960, 41). -/
theorem C20_range_ends_at_target_witness :
    (1 ≤ 1 ∧ 1 < 127 ∧ 127 + 1 < 4294967296 ∧ 0 < 64 ∧ 64 < 4294967296 ∧
      computeCatchupledgers 1 ⟨127, 1⟩ ⟨64⟩ = .ok ⟨128, 0⟩ ∧
      (1 + 1 ≤ (⟨128, 0⟩ : Ledgers).mFirst ∧
        (⟨128, 0⟩ : Ledgers).mFirst + (⟨128, 0⟩ : Ledgers).mCount = 127 + 1 ∧
        (∀ b, CatchupRange.getLast ⟨⟨128, 0⟩, b⟩ = 127) ∧
        ((⟨128, 0⟩ : Ledgers).mCount = 0 ↔ (1 = 1 ∧ 1 ≤ 1 ∧ 1 + 1 < 127 ∧
          HistoryManager.isCheckpointBoundary ⟨64⟩ 127 = true)))) ∧
    (computeCatchupledgers 1 ⟨1000, 10⟩ ⟨64⟩ = .ok ⟨960, 41⟩ ∧
      (1 + 1 ≤ (⟨960, 41⟩ : Ledgers).mFirst ∧
        (⟨960, 41⟩ : Ledgers).mFirst + (⟨960, 41⟩ : Ledgers).mCount = 1000 + 1 ∧
        (∀ b, CatchupRange.getLast ⟨⟨960, 41⟩, b⟩ = 1000) ∧
        ((⟨960, 41⟩ : Ledgers).mCount = 0 ↔ (1 = 1 ∧ 10 ≤ 1 ∧ 10 + 1 < 1000 ∧
          HistoryManager.isCheckpointBoundary ⟨64⟩ 1000 = true)))) :=
  ⟨⟨by decide, by decide, by decide, by decide, by decide, rfl,
    C20_range_ends_at_target 1 127 1 64 ⟨128, 0⟩ (by decide) (by decide) (by decide)
      (by decide) (by decide) rfl⟩,
   rfl,
    C20_range_ends_at_target 1 1000 10 64 ⟨960, 41⟩ (by decide) (by decide) (by decide)
      (by decide) (by decide) rfl⟩

/-! ## Anchoring of bucket application -/

/-- Step 4 of `doWork` keeps the invariant `NoBucketWorkBeforeSeq`. -/
theorem doWorkApply_noBucketWork (env : CatchupEnv) (w w1 : CatchupWork) (r : CatchupRange)
    (st : State) (hinv : w.NoBucketWorkBeforeSeq) (hp : w.doWorkApply env r = .ok (w1, st)) :
    w1.NoBucketWorkBeforeSeq := by
  unfold CatchupWork.doWorkApply at hp
  unfold CatchupWork.NoBucketWorkBeforeSeq at *
  cases hseq : w.mCatchupSeq with
  | some cs =>
    simp only [hseq] at hp
    repeat' (split at hp)
    all_goals
      first
      | (cases hp; done)
      | (simp only [Except.ok.injEq, Prod.mk.injEq] at hp
         obtain ⟨rfl, _⟩ := hp
         intro h
         simp [hseq] at h)
  | none =>
    obtain ⟨hfalse, hnone, hnot⟩ := hinv hseq
    simp only [hseq] at hp
    cases hds : w.mDownloadVerifyLedgersSeq with
    | some ds =>
      simp only [hds] at hp
      repeat' (split at hp)
      all_goals
        first
        | (cases hp; done)
        | (simp only [Except.ok.injEq, Prod.mk.injEq] at hp
           obtain ⟨rfl, _⟩ := hp
           first
           | exact hinv
           | (intro h; cases h))
    | none =>
      simp only [hds, CatchupWork.downloadVerifyLedgerChain] at hp
      split at hp
      · cases hp
      · rename_i w2 hw2
        simp only [Except.ok.injEq, Prod.mk.injEq] at hp
        obtain ⟨rfl, _⟩ := hp
        split at hw2
        · cases hw2
        · simp only [Except.ok.injEq] at hw2
          subst hw2
          intro _
          refine ⟨hfalse, hnone, ?_⟩
          simp [hnot]

/-- Step 3 of `doWork` keeps the invariant `NoBucketWorkBeforeSeq`. -/
theorem doWorkBuckets_noBucketWork (env : CatchupEnv) (w w1 : CatchupWork) (r : CatchupRange)
    (st : State) (hinv : w.NoBucketWorkBeforeSeq) (hp : w.doWorkBuckets env r = .ok (w1, st)) :
    w1.NoBucketWorkBeforeSeq := by
  unfold CatchupWork.doWorkBuckets at hp
  split_ifs at hp
  · split at hp
    · cases hp
    · split_ifs at hp
      · cases hg : w.mGetBucketStateWork with
        | none =>
          simp only [hg] at hp
          cases hp
          intro h
          obtain ⟨h1, h2, h3⟩ := hinv h
          refine ⟨h1, h2, ?_⟩
          simp [h3]
        | some s =>
          simp only [hg] at hp
          cases s
          all_goals
            first
            | exact doWorkApply_noBucketWork env _ w1 r st hinv hp
            | (simp only [Except.ok.injEq, Prod.mk.injEq] at hp
               obtain ⟨rfl, _⟩ := hp
               exact hinv)
      · refine doWorkApply_noBucketWork env _ w1 r st ?_ hp
        exact hinv
  · exact doWorkApply_noBucketWork env _ w1 r st hinv hp

/-- A poll keeps the invariant `NoBucketWorkBeforeSeq`. -/
theorem doWork_noBucketWork (env : CatchupEnv) (w w1 : CatchupWork) (st : State)
    (hinv : w.NoBucketWorkBeforeSeq) (hp : w.doWork env = .ok (w1, st)) :
    w1.NoBucketWorkBeforeSeq := by
  unfold CatchupWork.doWork at hp
  split at hp
  · simp only [Except.ok.injEq, Prod.mk.injEq] at hp
    obtain ⟨rfl, _⟩ := hp
    intro h
    obtain ⟨h1, h2, h3⟩ := hinv h
    refine ⟨h1, h2, ?_⟩
    simp [h3]
  · split_ifs at hp
    · simp only [Except.ok.injEq, Prod.mk.injEq] at hp
      obtain ⟨rfl, _⟩ := hp
      exact hinv
    · split at hp
      · cases hp
      · simp only [Except.ok.injEq, Prod.mk.injEq] at hp
        obtain ⟨rfl, _⟩ := hp
        exact hinv
      · dsimp only at hp
        split at hp
        · cases hp
        · exact doWorkBuckets_noBucketWork env w w1 _ st hinv hp

/-- Every state of a run satisfies `NoBucketWorkBeforeSeq`: no bucket work exists before the
catch-up sequence does. -/
theorem reachable_noBucketWork (w : CatchupWork) (hr : CatchupWork.Reachable w) :
    w.NoBucketWorkBeforeSeq := by
  induction hr with
  | started configuration lcl =>
    intro _
    exact ⟨rfl, rfl, by simp [CatchupWork.initial]⟩
  | polled env w w1 st _ hp ih => exact doWork_noBucketWork env w w1 st ih hp
  | children w w1 _ hs ih =>
    obtain ⟨_, _, _, _, _, h6, _, h8, h9, _, _, h12, _⟩ := hs
    intro h
    have hw : w.mCatchupSeq = none := by
      rw [h] at h8
      cases hc : w.mCatchupSeq with
      | none => rfl
      | some c => rw [hc] at h8; cases h8
    obtain ⟨h1, h2, h3⟩ := ih hw
    refine ⟨by rw [h9]; exact h1, ?_, by rw [h12]; exact h3⟩
    rw [h2] at h6
    cases hb : w1.mBucketVerifyApplySeq with
    | none => rfl
    | some b => rw [hb] at h6; cases h6

/-- `assertBucketState` returns exactly when the three anchoring conditions hold. -/
theorem assertBucketState_ok_iff (env : CatchupEnv) (w : CatchupWork) :
    w.assertBucketState env = .ok () ↔ w.bucketStateAnchored env := by
  unfold CatchupWork.assertBucketState CatchupWork.bucketStateAnchored
  constructor
  · intro h
    split_ifs at h with h1 h2 h3
    exact ⟨not_not.mp h1, not_not.mp h2, h3⟩
  · rintro ⟨h1, h2, h3⟩
    rw [if_neg (not_not.mpr h1), if_neg (not_not.mpr h2), if_neg h3]

/-- When an anchoring condition fails, `assertBucketState` fails with an assertion (ledger or
hash mismatch) or a runtime error (anchor below the last closed ledger). -/
theorem assertBucketState_error (env : CatchupEnv) (w : CatchupWork)
    (h : ¬ w.bucketStateAnchored env) :
    ∃ e, w.assertBucketState env = .error e ∧ (e = .assertion ∨ e = .runtime_error) := by
  unfold CatchupWork.assertBucketState
  split_ifs with h1 h2 h3
  · exact ⟨_, rfl, Or.inl rfl⟩
  · exact ⟨_, rfl, Or.inl rfl⟩
  · exact ⟨_, rfl, Or.inr rfl⟩
  · exact absurd ⟨not_not.mp h1, not_not.mp h2, h3⟩ h

/-- Step 4 of `doWork` creates the bucket work only after the headers were verified, for a
range that applies buckets, and with the anchoring conditions satisfied. -/
theorem doWorkApply_bucket_work (env : CatchupEnv) (w w1 : CatchupWork) (r : CatchupRange)
    (st : State) (hinv : w.NoBucketWorkBeforeSeq) (hp : w.doWorkApply env r = .ok (w1, st))
    (hnone : w.mBucketVerifyApplySeq = none) (hsome : w1.mBucketVerifyApplySeq.isSome = true) :
    w1.bucketStateAnchored env ∧ w1.mVerifiedLedgerRangeStart = env.verifiedLedgerRangeStart ∧
      r.mApplyBuckets = true ∧ w.mDownloadVerifyLedgersSeq = some State.WORK_SUCCESS := by
  unfold CatchupWork.doWorkApply at hp
  cases hseq : w.mCatchupSeq with
  | some cs =>
    simp only [hseq] at hp
    repeat' (split at hp)
    all_goals
      first
      | (cases hp; done)
      | (simp only [Except.ok.injEq, Prod.mk.injEq] at hp
         obtain ⟨rfl, _⟩ := hp
         simp [hnone] at hsome)
  | none =>
    obtain ⟨hfalse, _, _⟩ := hinv hseq
    simp only [hseq] at hp
    cases hds : w.mDownloadVerifyLedgersSeq with
    | none =>
      simp only [hds, CatchupWork.downloadVerifyLedgerChain] at hp
      split at hp
      · cases hp
      · rename_i w2 hw2
        simp only [Except.ok.injEq, Prod.mk.injEq] at hp
        obtain ⟨rfl, _⟩ := hp
        split at hw2
        · cases hw2
        · simp only [Except.ok.injEq] at hw2
          subst hw2
          simp [hnone] at hsome
    | some ds =>
      simp only [hds] at hp
      by_cases hsucc : ds = State.WORK_SUCCESS
      · simp only [hsucc, if_true] at hp
        cases hab : r.mApplyBuckets with
        | false =>
          simp only [hab, Bool.false_eq_true, false_and, if_false] at hp
          split_ifs at hp
          all_goals
            (simp only [Except.ok.injEq, Prod.mk.injEq] at hp
             obtain ⟨rfl, _⟩ := hp
             simp [hnone] at hsome)
        | true =>
          simp only [hab, hfalse, and_self, if_true] at hp
          split at hp
          · cases hp
          · rename_i u hassert
            have hanch := (assertBucketState_ok_iff env _).mp hassert
            split_ifs at hp
            all_goals
              (simp only [Except.ok.injEq, Prod.mk.injEq] at hp
               obtain ⟨rfl, _⟩ := hp
               exact ⟨hanch, rfl, rfl, by rw [hsucc]⟩)
      · simp only [if_neg hsucc, Except.ok.injEq, Prod.mk.injEq] at hp
        obtain ⟨rfl, _⟩ := hp
        simp [hnone] at hsome

/-- Step 3 of `doWork` creates the bucket work only under the same conditions. -/
theorem doWorkBuckets_bucket_work (env : CatchupEnv) (w w1 : CatchupWork) (r : CatchupRange)
    (st : State) (hinv : w.NoBucketWorkBeforeSeq) (hp : w.doWorkBuckets env r = .ok (w1, st))
    (hnone : w.mBucketVerifyApplySeq = none) (hsome : w1.mBucketVerifyApplySeq.isSome = true) :
    w1.bucketStateAnchored env ∧ w1.mVerifiedLedgerRangeStart = env.verifiedLedgerRangeStart ∧
      r.mApplyBuckets = true ∧ w.mDownloadVerifyLedgersSeq = some State.WORK_SUCCESS := by
  unfold CatchupWork.doWorkBuckets at hp
  split_ifs at hp
  · split at hp
    · cases hp
    · split_ifs at hp
      · cases hg : w.mGetBucketStateWork with
        | none =>
          simp only [hg] at hp
          cases hp
          simp [hnone] at hsome
        | some s =>
          simp only [hg] at hp
          cases s
          all_goals
            first
            | exact doWorkApply_bucket_work env _ w1 r st hinv hp hnone hsome
            | (simp only [Except.ok.injEq, Prod.mk.injEq] at hp
               obtain ⟨rfl, _⟩ := hp
               simp [hnone] at hsome)
      · exact doWorkApply_bucket_work env { w with mApplyBucketsRemoteState := w.mRemoteState }
          w1 r st hinv hp hnone hsome
  · exact doWorkApply_bucket_work env _ w1 r st hinv hp hnone hsome

/-- A poll creates the bucket work only with the anchoring conditions satisfied. -/
theorem doWork_bucket_work (env : CatchupEnv) (w w1 : CatchupWork) (st : State)
    (hinv : w.NoBucketWorkBeforeSeq) (hp : w.doWork env = .ok (w1, st))
    (hnone : w.mBucketVerifyApplySeq = none) (hsome : w1.mBucketVerifyApplySeq.isSome = true) :
    w1.bucketStateAnchored env ∧ w1.mVerifiedLedgerRangeStart = env.verifiedLedgerRangeStart ∧
      w.mDownloadVerifyLedgersSeq = some State.WORK_SUCCESS := by
  unfold CatchupWork.doWork at hp
  split at hp
  · simp only [Except.ok.injEq, Prod.mk.injEq] at hp
    obtain ⟨rfl, _⟩ := hp
    simp [hnone] at hsome
  · split_ifs at hp
    · simp only [Except.ok.injEq, Prod.mk.injEq] at hp
      obtain ⟨rfl, _⟩ := hp
      simp [hnone] at hsome
    · split at hp
      · cases hp
      · simp only [Except.ok.injEq, Prod.mk.injEq] at hp
        obtain ⟨rfl, _⟩ := hp
        simp [hnone] at hsome
      · dsimp only at hp
        split at hp
        · cases hp
        · obtain ⟨h1, h2, _, h4⟩ := doWorkBuckets_bucket_work env w w1 _ st hinv hp hnone hsome
          exact ⟨h1, h2, h4⟩

/-- Step 4 of `doWork` with verified headers, a range that applies buckets and a failed
anchoring condition ends in the failure of `assertBucketState`. -/
theorem doWorkApply_unanchored_fails (env : CatchupEnv) (w : CatchupWork) (r : CatchupRange)
    (hinv : w.NoBucketWorkBeforeSeq) (hab : r.mApplyBuckets = true)
    (hseq : w.mCatchupSeq = none)
    (hds : w.mDownloadVerifyLedgersSeq = some State.WORK_SUCCESS)
    (hbad : ¬ (w.mApplyBucketsRemoteState.currentLedger = env.verifiedLedgerRangeStart.ledgerSeq ∧
      w.mApplyBucketsRemoteState.bucketListHash = env.verifiedLedgerRangeStart.bucketListHash ∧
      ¬ env.verifiedLedgerRangeStart.ledgerSeq < env.lastClosedLedgerHeader.ledgerSeq)) :
    ∃ e, w.doWorkApply env r = .error e ∧ (e = .assertion ∨ e = .runtime_error) := by
  obtain ⟨hfalse, _, _⟩ := hinv hseq
  obtain ⟨e, he, hor⟩ := assertBucketState_error env
    { w with mVerifiedLedgerRangeStart := env.verifiedLedgerRangeStart } hbad
  refine ⟨e, ?_, hor⟩
  unfold CatchupWork.doWorkApply
  simp only [hseq, hds, hfalse] at he
  simp only [hseq, hds, hab, hfalse, and_self, if_true, he]

/-- A poll with verified headers, a range that applies buckets, a known bucket-apply state and
a failed anchoring condition ends in the failure of `assertBucketState`. -/
theorem doWork_unanchored_fails (env : CatchupEnv) (w : CatchupWork) (r : CatchupRange)
    (hinv : w.NoBucketWorkBeforeSeq)
    (hfetch : w.mGetHistoryArchiveStateWork = some State.WORK_SUCCESS)
    (hnewer : w.mLastClosedLedgerHashPair ≤ w.mRemoteState.currentLedger)
    (hrange : CatchupRange.ctor w.mLastClosedLedgerHashPair
      (w.mCatchupConfiguration.resolve w.mRemoteState.currentLedger) env.historyManager = .ok r)
    (hab : r.mApplyBuckets = true)
    (hstate : w.alreadyHaveBucketsHistoryArchiveState (u32sub r.mLedgers.mFirst 1) = true ∨
      w.mGetBucketStateWork = some State.WORK_SUCCESS)
    (hseq : w.mCatchupSeq = none)
    (hds : w.mDownloadVerifyLedgersSeq = some State.WORK_SUCCESS)
    (hbad : ¬ ((w.bucketApplyState r).currentLedger = env.verifiedLedgerRangeStart.ledgerSeq ∧
      (w.bucketApplyState r).bucketListHash = env.verifiedLedgerRangeStart.bucketListHash ∧
      ¬ env.verifiedLedgerRangeStart.ledgerSeq < env.lastClosedLedgerHeader.ledgerSeq)) :
    ∃ e, w.doWork env = .error e ∧ (e = .assertion ∨ e = .runtime_error) := by
  have hany : w.hasAnyLedgersToCatchupTo = .ok true := by
    unfold CatchupWork.hasAnyLedgersToCatchupTo
    simp only [hfetch, ne_eq, not_true_eq_false, if_false, decide_eq_true hnewer]
  have hdw : w.doWork env = w.doWorkBuckets env r := by
    unfold CatchupWork.doWork
    simp only [hfetch, ne_eq, not_true_eq_false, if_false, hany, hrange]
  rw [hdw]
  unfold CatchupWork.doWorkBuckets
  unfold CatchupWork.bucketApplyState at hbad
  simp only [hab, if_true, CatchupRange.getBucketApplyLedger, Bool.not_true, Bool.false_eq_true,
    if_false]
  cases hal : w.alreadyHaveBucketsHistoryArchiveState (u32sub r.mLedgers.mFirst 1) with
  | true =>
    simp only [hal, if_true] at hbad
    simp only [Bool.not_true, Bool.false_eq_true, if_false]
    exact doWorkApply_unanchored_fails env { w with mApplyBucketsRemoteState := w.mRemoteState }
      r hinv hab hseq hds hbad
  | false =>
    simp only [hal, Bool.false_eq_true, if_false] at hbad
    have hg : w.mGetBucketStateWork = some State.WORK_SUCCESS := by
      rcases hstate with h | h
      · rw [hal] at h; cases h
      · exact h
    simp only [Bool.not_false, if_true, hg]
    exact doWorkApply_unanchored_fails env w r hinv hab hseq hds hbad

/-- The example run reaches `exampleRunHeadersVerified`: three polls, each followed by the
success of the child work it created. -/
theorem exampleRunHeadersVerified_reachable : CatchupWork.Reachable exampleRunHeadersVerified := by
  have h0 := CatchupWork.Reachable.started ⟨1000, 10⟩ ⟨1, 0⟩
  have h1 : CatchupWork.Reachable exampleRunArchiveRequested :=
    CatchupWork.Reachable.polled exampleRunEnv _ _ State.WORK_RUNNING h0 rfl
  have h2 : CatchupWork.Reachable exampleRunArchiveFetched :=
    CatchupWork.Reachable.children _ _ h1
      ⟨rfl, rfl, rfl, rfl, rfl, rfl, rfl, rfl, rfl, rfl, rfl, rfl, rfl⟩
  have h3 : CatchupWork.Reachable exampleRunBucketStateRequested :=
    CatchupWork.Reachable.polled exampleRunEnv _ _ State.WORK_RUNNING h2 rfl
  have h4 : CatchupWork.Reachable exampleRunBucketStateFetched :=
    CatchupWork.Reachable.children _ _ h3
      ⟨rfl, rfl, rfl, rfl, rfl, rfl, rfl, rfl, rfl, rfl, rfl, rfl, rfl⟩
  have h5 : CatchupWork.Reachable exampleRunHeadersRequested :=
    CatchupWork.Reachable.polled exampleRunEnv _ _ State.WORK_RUNNING h4 rfl
  exact CatchupWork.Reachable.children _ _ h5
    ⟨rfl, rfl, rfl, rfl, rfl, rfl, rfl, rfl, rfl, rfl, rfl, rfl, rfl⟩

/-- C18: in every run of the pipeline, a poll creates the bucket download/apply work only when
the ledger-chain verification has succeeded and the archive state used for bucket application
matches the verified range-start header in ledger and in bucket-list hash, with that ledger not
below the local last closed one; and at the poll that follows a successful verification, for a
range that applies buckets, a failure of any of the three conditions makes `assertBucketState`
fail the poll (assertion or runtime error) while no bucket work exists. -/
theorem C18_bucket_work_only_for_anchored_state (env : CatchupEnv) (w : CatchupWork)
    (hr : CatchupWork.Reachable w) :
    (∀ w1 st, w.doWork env = .ok (w1, st) → w.mBucketVerifyApplySeq = none →
      w1.mBucketVerifyApplySeq.isSome = true →
        w.mDownloadVerifyLedgersSeq = some State.WORK_SUCCESS ∧
        w1.mVerifiedLedgerRangeStart = env.verifiedLedgerRangeStart ∧
        w1.mApplyBucketsRemoteState.currentLedger = w1.mVerifiedLedgerRangeStart.ledgerSeq ∧
        w1.mApplyBucketsRemoteState.bucketListHash =
          w1.mVerifiedLedgerRangeStart.bucketListHash ∧
        ¬ w1.mVerifiedLedgerRangeStart.ledgerSeq < env.lastClosedLedgerHeader.ledgerSeq) ∧
    (∀ r, w.mGetHistoryArchiveStateWork = some State.WORK_SUCCESS →
      w.mLastClosedLedgerHashPair ≤ w.mRemoteState.currentLedger →
      CatchupRange.ctor w.mLastClosedLedgerHashPair
        (w.mCatchupConfiguration.resolve w.mRemoteState.currentLedger) env.historyManager =
          .ok r →
      r.mApplyBuckets = true →
      (w.alreadyHaveBucketsHistoryArchiveState (u32sub r.mLedgers.mFirst 1) = true ∨
        w.mGetBucketStateWork = some State.WORK_SUCCESS) →
      w.mCatchupSeq = none →
      w.mDownloadVerifyLedgersSeq = some State.WORK_SUCCESS →
      ¬ ((w.bucketApplyState r).currentLedger = env.verifiedLedgerRangeStart.ledgerSeq ∧
        (w.bucketApplyState r).bucketListHash = env.verifiedLedgerRangeStart.bucketListHash ∧
        ¬ env.verifiedLedgerRangeStart.ledgerSeq < env.lastClosedLedgerHeader.ledgerSeq) →
      (∃ e, w.doWork env = .error e ∧ (e = .assertion ∨ e = .runtime_error)) ∧
        w.mBucketVerifyApplySeq = none ∧ ChildWork.downloadApplyBuckets ∉ w.mChildren) := by
  have hinv := reachable_noBucketWork w hr
  refine ⟨?_, ?_⟩
  · intro w1 st hp hnone hsome
    obtain ⟨⟨h1, h2, h3⟩, h4, h5⟩ := doWork_bucket_work env w w1 st hinv hp hnone hsome
    exact ⟨h5, h4, h1, h2, h3⟩
  · intro r hfetch hnewer hrange hab hstate hseq hds hbad
    exact ⟨doWork_unanchored_fails env w r hinv hfetch hnewer hrange hab hstate hseq hds hbad,
      (hinv hseq).2⟩

/-- C18 on the example run: with the verified header (959, hash 77) matching the bucket-apply
state the fourth poll creates the bucket work; with a header of hash 78 for the same ledger the
poll fails before any bucket work exists. -/
theorem C18_bucket_work_only_for_anchored_state_witness :
    (exampleRunHeadersVerified.doWork exampleRunEnv =
        .ok (exampleRunBucketsRequested, State.WORK_RUNNING) ∧
      exampleRunBucketsRequested.mApplyBucketsRemoteState = ⟨959, 77⟩ ∧
      (exampleRunHeadersVerified.mDownloadVerifyLedgersSeq = some State.WORK_SUCCESS ∧
        exampleRunBucketsRequested.mVerifiedLedgerRangeStart =
          exampleRunEnv.verifiedLedgerRangeStart ∧
        exampleRunBucketsRequested.mApplyBucketsRemoteState.currentLedger =
          exampleRunBucketsRequested.mVerifiedLedgerRangeStart.ledgerSeq ∧
        exampleRunBucketsRequested.mApplyBucketsRemoteState.bucketListHash =
          exampleRunBucketsRequested.mVerifiedLedgerRangeStart.bucketListHash ∧
        ¬ exampleRunBucketsRequested.mVerifiedLedgerRangeStart.ledgerSeq <
          exampleRunEnv.lastClosedLedgerHeader.ledgerSeq)) ∧
    (exampleRunHeadersVerified.bucketApplyState ⟨⟨960, 41⟩, true⟩ = ⟨959, 77⟩ ∧
      exampleBadAnchorEnv.verifiedLedgerRangeStart = ⟨959, 78⟩ ∧
      ((∃ e, exampleRunHeadersVerified.doWork exampleBadAnchorEnv = .error e ∧
          (e = .assertion ∨ e = .runtime_error)) ∧
        exampleRunHeadersVerified.mBucketVerifyApplySeq = none ∧
        ChildWork.downloadApplyBuckets ∉ exampleRunHeadersVerified.mChildren)) :=
  ⟨⟨rfl, rfl,
    (C18_bucket_work_only_for_anchored_state exampleRunEnv exampleRunHeadersVerified
      exampleRunHeadersVerified_reachable).1 exampleRunBucketsRequested State.WORK_RUNNING
      rfl rfl rfl⟩,
   rfl, rfl,
    (C18_bucket_work_only_for_anchored_state exampleBadAnchorEnv exampleRunHeadersVerified
      exampleRunHeadersVerified_reachable).2 ⟨⟨960, 41⟩, true⟩ rfl (by decide) rfl rfl
      (Or.inr rfl) rfl rfl (by decide)⟩

/-! ## Receiving transactions -/

/-- Reduction to `int64_t` is idempotent. -/
theorem i64_i64 (a : Int) : i64 (i64 a) = i64 a := by
  unfold i64
  omega

/-- Reduction to `int64_t` of a sum may be delayed to the end. -/
theorem i64_add_i64 (a b : Int) : i64 (i64 a + b) = i64 (a + b) := by
  unfold i64
  omega

/-- A value in the range of `int64_t` is its own reduction. -/
theorem i64_of_fits (a : Int) (h1 : -9223372036854775808 ≤ a) (h2 : a < 9223372036854775808) :
    i64 a = a := by
  unfold i64
  omega

/-- The scan of one tier in `recvTransaction`: it stops with a duplicate exactly when the tier
holds a transaction with the full hash of `tx`; otherwise it adds the fees of the pooled
transactions of the source of `tx` to `totFee`, in `int64_t`, and raises `highSeq` to their
largest sequence number. -/
theorem recvTransactionScanList_spec (tx : TransactionFrame) (l : List TransactionFrame) :
    ∀ scan : PoolScan,
      ((∃ old ∈ l, old.fullHash = tx.fullHash) → recvTransactionScanList tx l scan = none) ∧
      ((∀ old ∈ l, old.fullHash ≠ tx.fullHash) → i64 scan.totFee = scan.totFee →
        recvTransactionScanList tx l scan =
          some ⟨i64 (scan.totFee +
              ((l.filter (fun old => old.sourceID == tx.sourceID)).map (fun old => old.fee)).sum),
            ((l.filter (fun old => old.sourceID == tx.sourceID)).map
              (fun old => old.seqNum)).foldl max scan.highSeq⟩) := by
  induction l with
  | nil =>
    intro scan
    refine ⟨fun hex => ?_, fun _ hscan => ?_⟩
    · obtain ⟨old, hold, _⟩ := hex
      cases hold
    · simp [recvTransactionScanList, hscan]
  | cons x xs ih =>
    intro scan
    constructor
    · rintro ⟨old, hold, hh⟩
      simp only [recvTransactionScanList]
      by_cases hx : tx.fullHash = x.fullHash
      · rw [if_pos hx]
      · rw [if_neg hx]
        have hrest : ∃ old ∈ xs, old.fullHash = tx.fullHash := by
          rcases List.mem_cons.mp hold with heq | hmem
          · subst heq
            exact absurd hh.symm hx
          · exact ⟨old, hmem, hh⟩
        split
        · exact (ih _).1 hrest
        · exact (ih _).1 hrest
    · intro hno hscan
      have hx : ¬ tx.fullHash = x.fullHash := fun h => hno x (List.mem_cons_self _ _) h.symm
      have hrest : ∀ old ∈ xs, old.fullHash ≠ tx.fullHash :=
        fun old hold => hno old (List.mem_cons_of_mem _ hold)
      simp only [recvTransactionScanList, if_neg hx]
      by_cases hs : x.sourceID = tx.sourceID
      · rw [if_pos hs, (ih _).2 hrest (i64_i64 _)]
        have hb : (x.sourceID == tx.sourceID) = true := by simpa using hs
        simp only [List.filter_cons, hb, if_true, List.map_cons, List.sum_cons, List.foldl_cons]
        have hmax : (if x.seqNum > scan.highSeq then x.seqNum else scan.highSeq) =
            max scan.highSeq x.seqNum := by
          rw [Nat.max_def]
          split_ifs <;> omega
        rw [hmax, i64_add_i64, add_assoc]
      · rw [if_neg hs, (ih _).2 hrest hscan]
        have hb : (x.sourceID == tx.sourceID) = false := by simpa using hs
        simp only [List.filter_cons, hb]
        rfl

/-- The scan of the whole pool in `recvTransaction`: a duplicate in any tier stops it;
otherwise it returns the cumulative fee, reduced to `int64_t`, and the highest sequence number
over all tiers. -/
theorem recvTransactionScan_spec (tx : TransactionFrame) (pool : List (List TransactionFrame)) :
    ∀ scan : PoolScan,
      ((∃ old ∈ pool.flatten, old.fullHash = tx.fullHash) →
        recvTransactionScan tx pool scan = none) ∧
      ((∀ old ∈ pool.flatten, old.fullHash ≠ tx.fullHash) → i64 scan.totFee = scan.totFee →
        recvTransactionScan tx pool scan =
          some ⟨i64 (scan.totFee + ((pooledOfSameSource pool tx).map (fun old => old.fee)).sum),
            ((pooledOfSameSource pool tx).map (fun old => old.seqNum)).foldl max
              scan.highSeq⟩) := by
  induction pool with
  | nil =>
    intro scan
    refine ⟨fun hex => ?_, fun _ hscan => ?_⟩
    · obtain ⟨old, hold, _⟩ := hex
      simp at hold
    · simp [recvTransactionScan, pooledOfSameSource, hscan]
  | cons l ls ih =>
    intro scan
    constructor
    · rintro ⟨old, hold, hh⟩
      simp only [recvTransactionScan]
      by_cases hl : ∃ o ∈ l, o.fullHash = tx.fullHash
      · rw [(recvTransactionScanList_spec tx l scan).1 hl]
      · have hno : ∀ o ∈ l, o.fullHash ≠ tx.fullHash := fun o ho hh => hl ⟨o, ho, hh⟩
        cases hres : recvTransactionScanList tx l scan with
        | none => rfl
        | some scan1 =>
          simp only [List.flatten_cons, List.mem_append] at hold
          rcases hold with hm | hm
          · exact absurd hh (hno old hm)
          · exact (ih _).1 ⟨old, hm, hh⟩
    · intro hno hscan
      have hl : ∀ o ∈ l, o.fullHash ≠ tx.fullHash := fun o ho =>
        hno o (by simp only [List.flatten_cons, List.mem_append]; exact Or.inl ho)
      have hls : ∀ o ∈ ls.flatten, o.fullHash ≠ tx.fullHash := fun o ho =>
        hno o (by simp only [List.flatten_cons, List.mem_append]; exact Or.inr ho)
      simp only [recvTransactionScan, (recvTransactionScanList_spec tx l scan).2 hl hscan]
      rw [(ih _).2 hls (i64_i64 _)]
      simp only [pooledOfSameSource, List.flatten_cons, List.filter_append,
        List.map_append, List.sum_append, List.foldl_append, i64_add_i64, add_assoc]

/-- A transaction with the hash of `tx` is in the flattened pool exactly when it is in some
tier. -/
theorem mem_flatten_iff_tier (pool : List (List TransactionFrame)) (tx : TransactionFrame) :
    (∃ old ∈ pool.flatten, old.fullHash = tx.fullHash) ↔
      ∃ list ∈ pool, ∃ old ∈ list, old.fullHash = tx.fullHash := by
  constructor
  · rintro ⟨old, hold, hh⟩
    obtain ⟨l, hl, hm⟩ := List.mem_flatten.mp hold
    exact ⟨l, hl, old, hm, hh⟩
  · rintro ⟨l, hl, old, hm, hh⟩
    exact ⟨old, List.mem_flatten.mpr ⟨l, hl, hm⟩, hh⟩

/-- C12: `recvTransaction` returns TX_STATUS_DUPLICATE if and only if some transaction in some
tier of the pool has the full hash of the submitted one; and then the Herder, and so the pool,
is unchanged, whatever the validity and fee checks would say. -/
theorem C12_duplicate_iff_same_hash_pooled (app : Application) (h : HerderImpl) (tx : TransactionFrame) :
    ((h.recvTransaction app tx).1 = TransactionSubmitStatus.TX_STATUS_DUPLICATE ↔
      ∃ list ∈ h.mReceivedTransactions, ∃ old ∈ list, old.fullHash = tx.fullHash) ∧
    ((∃ list ∈ h.mReceivedTransactions, ∃ old ∈ list, old.fullHash = tx.fullHash) →
      h.recvTransaction app tx = (TransactionSubmitStatus.TX_STATUS_DUPLICATE, h)) := by
  have hdup : (∃ list ∈ h.mReceivedTransactions, ∃ old ∈ list, old.fullHash = tx.fullHash) →
      h.recvTransaction app tx = (TransactionSubmitStatus.TX_STATUS_DUPLICATE, h) := by
    intro hex
    have hs := (recvTransactionScan_spec tx h.mReceivedTransactions ⟨i64 tx.fee, 0⟩).1
      ((mem_flatten_iff_tier _ tx).mpr hex)
    simp only [HerderImpl.recvTransaction, hs]
  refine ⟨⟨fun hst => ?_, fun hex => by rw [hdup hex]⟩, hdup⟩
  by_contra hno
  have hno1 : ∀ old ∈ h.mReceivedTransactions.flatten, old.fullHash ≠ tx.fullHash :=
    fun old hold hh => hno ((mem_flatten_iff_tier _ tx).mp ⟨old, hold, hh⟩)
  have hs := (recvTransactionScan_spec tx h.mReceivedTransactions ⟨i64 tx.fee, 0⟩).2 hno1
    (i64_i64 _)
  simp only [HerderImpl.recvTransaction, hs] at hst
  split_ifs at hst

/-- The tiers after `mReceivedTransactions[0].push_back(tx)`. -/
theorem tier_pushToTierZero (pool : List (List TransactionFrame)) (tx : TransactionFrame)
    (hlen : 0 < pool.length) (j : Nat) :
    tier (pushToTierZero pool tx) j = if j = 0 then tier pool 0 ++ [tx] else tier pool j := by
  simp only [pushToTierZero, tier_set]
  by_cases hj : j = 0
  · subst hj
    simp [hlen]
  · have : ¬ (0 = j ∧ 0 < pool.length) := fun h => hj h.1.symm
    simp [hj, this]

/-- For a transaction whose full hash is in no tier, `recvTransaction` is decided by the
validity check at the highest pooled sequence number of the source and by the comparison of the
balance above reserve with the cumulative fee reduced to `int64_t`. -/
theorem recvTransaction_decision (app : Application) (h : HerderImpl) (tx : TransactionFrame)
    (hnodup : ∀ list ∈ h.mReceivedTransactions, ∀ old ∈ list, old.fullHash ≠ tx.fullHash) :
    h.recvTransaction app tx =
      if !app.checkValidTx tx (highestPooledSeqNum h.mReceivedTransactions tx) then
        (TransactionSubmitStatus.TX_STATUS_ERROR, h)
      else if app.getBalanceAboveReserve tx < i64 (cumulativeFee h.mReceivedTransactions tx) then
        (TransactionSubmitStatus.TX_STATUS_ERROR, h)
      else (TransactionSubmitStatus.TX_STATUS_PENDING,
        { h with mReceivedTransactions := pushToTierZero h.mReceivedTransactions tx }) := by
  have hno1 : ∀ old ∈ h.mReceivedTransactions.flatten, old.fullHash ≠ tx.fullHash := by
    intro old hold hh
    obtain ⟨l, hl, hm⟩ := List.mem_flatten.mp hold
    exact hnodup l hl old hm hh
  have hs := (recvTransactionScan_spec tx h.mReceivedTransactions ⟨i64 tx.fee, 0⟩).2 hno1
    (i64_i64 _)
  simp only [HerderImpl.recvTransaction, hs, highestPooledSeqNum, cumulativeFee, i64_add_i64]

/-- C13, as stated, fails: with a balance above reserve of `2^63 - 1` the example Herder accepts
a first transaction of account 1 with a fee of `2^62`; a second transaction of the same account
with a fee of `2^62` is not a duplicate, the fee of the transaction plus the fees of the pooled
transactions of its source is `2^63`, above the balance, and yet `recvTransaction` returns
TX_STATUS_PENDING and appends it to tier 0: the `int64_t` sum has wrapped to `-2^63`. -/
theorem C13_fee_sum_wraps_and_is_accepted :
    exampleHerder.recvTransaction exampleRichApplication exampleBigFeeTxA =
      (TransactionSubmitStatus.TX_STATUS_PENDING, exampleBigFeeHerder) ∧
    exampleBigFeeHerder.mReceivedTransactions = [[exampleBigFeeTxA], [], [], []] ∧
    (∀ list ∈ exampleBigFeeHerder.mReceivedTransactions, ∀ old ∈ list,
      old.fullHash ≠ exampleBigFeeTxB.fullHash) ∧
    exampleRichApplication.checkValidTx exampleBigFeeTxB
      (highestPooledSeqNum exampleBigFeeHerder.mReceivedTransactions exampleBigFeeTxB) = true ∧
    cumulativeFee exampleBigFeeHerder.mReceivedTransactions exampleBigFeeTxB =
      9223372036854775808 ∧
    exampleRichApplication.getBalanceAboveReserve exampleBigFeeTxB <
      cumulativeFee exampleBigFeeHerder.mReceivedTransactions exampleBigFeeTxB ∧
    i64 (cumulativeFee exampleBigFeeHerder.mReceivedTransactions exampleBigFeeTxB) =
      -9223372036854775808 ∧
    (exampleBigFeeHerder.recvTransaction exampleRichApplication exampleBigFeeTxB).1 =
      TransactionSubmitStatus.TX_STATUS_PENDING ∧
    tier (exampleBigFeeHerder.recvTransaction exampleRichApplication
      exampleBigFeeTxB).2.mReceivedTransactions 0 = [exampleBigFeeTxA, exampleBigFeeTxB] :=
  ⟨rfl, by decide, by decide, rfl, by decide, by decide, by decide, by decide, by decide⟩

/-- C13, amended: for a transaction whose full hash is in no tier of a pool with at least one
tier, as long as the fee of the transaction plus the fees of all pooled transactions of the
same source fits in `int64_t`: when the validity check, given the highest sequence number among
the pooled transactions of the same source (0 if none), fails, or when that sum of fees exceeds
the balance above reserve, `recvTransaction` returns TX_STATUS_ERROR and leaves the Herder
unchanged; otherwise it returns TX_STATUS_PENDING, appends the transaction at the end of tier 0
and leaves every other tier, and the number of tiers, unchanged. -/
theorem C13_error_or_pending_into_tier_zero (app : Application) (h : HerderImpl)
    (tx : TransactionFrame)
    (hnodup : ∀ list ∈ h.mReceivedTransactions, ∀ old ∈ list, old.fullHash ≠ tx.fullHash)
    (hlen : 0 < h.mReceivedTransactions.length)
    (hfit1 : -9223372036854775808 ≤ cumulativeFee h.mReceivedTransactions tx)
    (hfit2 : cumulativeFee h.mReceivedTransactions tx < 9223372036854775808) :
    ((app.checkValidTx tx (highestPooledSeqNum h.mReceivedTransactions tx) = false ∨
        app.getBalanceAboveReserve tx < cumulativeFee h.mReceivedTransactions tx) →
      h.recvTransaction app tx = (TransactionSubmitStatus.TX_STATUS_ERROR, h)) ∧
    (¬ (app.checkValidTx tx (highestPooledSeqNum h.mReceivedTransactions tx) = false ∨
        app.getBalanceAboveReserve tx < cumulativeFee h.mReceivedTransactions tx) →
      (h.recvTransaction app tx).1 = TransactionSubmitStatus.TX_STATUS_PENDING ∧
      (h.recvTransaction app tx).2 =
        { h with mReceivedTransactions := pushToTierZero h.mReceivedTransactions tx } ∧
      (h.recvTransaction app tx).2.mReceivedTransactions.length =
        h.mReceivedTransactions.length ∧
      tier (h.recvTransaction app tx).2.mReceivedTransactions 0 =
        tier h.mReceivedTransactions 0 ++ [tx] ∧
      ∀ j, j ≠ 0 → tier (h.recvTransaction app tx).2.mReceivedTransactions j =
        tier h.mReceivedTransactions j) := by
  have hrecv := recvTransaction_decision app h tx hnodup
  rw [i64_of_fits _ hfit1 hfit2] at hrecv
  constructor
  · rintro (hv | hf)
    · rw [hrecv, hv]
      rfl
    · rw [hrecv]
      split_ifs <;> rfl
  · intro hok
    have hv : app.checkValidTx tx (highestPooledSeqNum h.mReceivedTransactions tx) = true := by
      cases hc : app.checkValidTx tx (highestPooledSeqNum h.mReceivedTransactions tx)
      · exact absurd (Or.inl hc) hok
      · rfl
    have hf : ¬ app.getBalanceAboveReserve tx < cumulativeFee h.mReceivedTransactions tx :=
      fun hlt => hok (Or.inr hlt)
    have hres : h.recvTransaction app tx = (TransactionSubmitStatus.TX_STATUS_PENDING,
        { h with mReceivedTransactions := pushToTierZero h.mReceivedTransactions tx }) := by
      rw [hrecv, hv, if_neg hf]
      rfl
    rw [hres]
    refine ⟨rfl, rfl, ?_, ?_, ?_⟩
    · simp [pushToTierZero]
    · rw [tier_pushToTierZero _ _ hlen, if_pos rfl]
    · intro j hj
      rw [tier_pushToTierZero _ _ hlen, if_neg hj]

/-- C12 at concrete inputs: `exampleTxA` submitted to a pool that holds it is a duplicate and
the Herder is unchanged; `exampleTxB` is not a duplicate there. -/
theorem C12_duplicate_iff_same_hash_pooled_witness :
    examplePoolHerder.recvTransaction exampleApplication exampleTxA =
      (TransactionSubmitStatus.TX_STATUS_DUPLICATE, examplePoolHerder) ∧
    ¬ (examplePoolHerder.recvTransaction exampleApplication exampleTxB).1 =
      TransactionSubmitStatus.TX_STATUS_DUPLICATE :=
  ⟨(C12_duplicate_iff_same_hash_pooled exampleApplication examplePoolHerder exampleTxA).2
      ⟨[exampleTxA], by decide, exampleTxA, by decide, rfl⟩,
    fun h => absurd
      ((C12_duplicate_iff_same_hash_pooled exampleApplication examplePoolHerder exampleTxB).1.mp h)
      (by decide)⟩

/-- C13, amended, at concrete inputs: `exampleTxC`, a second transaction of the source of the
pooled `exampleTxA`, is checked against sequence number 1 and a cumulative fee of 200, which
fits in `int64_t`, and is appended to tier 0. -/
theorem C13_error_or_pending_into_tier_zero_witness :
    (∀ list ∈ examplePoolHerder.mReceivedTransactions, ∀ old ∈ list,
      old.fullHash ≠ exampleTxC.fullHash) ∧
    0 < examplePoolHerder.mReceivedTransactions.length ∧
    highestPooledSeqNum examplePoolHerder.mReceivedTransactions exampleTxC = 1 ∧
    cumulativeFee examplePoolHerder.mReceivedTransactions exampleTxC = 200 ∧
    (examplePoolHerder.recvTransaction exampleApplication exampleTxC).1 =
      TransactionSubmitStatus.TX_STATUS_PENDING ∧
    tier (examplePoolHerder.recvTransaction exampleApplication exampleTxC).2.mReceivedTransactions
      0 = [exampleTxA, exampleTxC] :=
  ⟨by decide, by decide, by decide, by decide,
    ((C13_error_or_pending_into_tier_zero exampleApplication examplePoolHerder exampleTxC
      (by decide) (by decide) (by decide) (by decide)).2 (by decide)).1,
    ((C13_error_or_pending_into_tier_zero exampleApplication examplePoolHerder exampleTxC
      (by decide) (by decide) (by decide) (by decide)).2 (by decide)).2.2.2.1⟩

/-! ## The pool uniqueness invariant -/

/-- Ageing tier 0 into tier 1: tier 1 receives the transactions of tier 0 at its back. -/
theorem ageTier_cons_cons (a b : List TransactionFrame) (rest : List (List TransactionFrame)) :
    ageTier (a :: b :: rest) 1 = [] :: (b ++ a) :: rest := by
  simp only [ageTier, tier, foldl_push_back, Nat.sub_self, List.getD_cons_zero,
    List.getD_cons_succ, List.set_cons_succ, List.set_cons_zero]

/-- An ageing step beyond tier 1 leaves tier 0 alone. -/
theorem ageTier_cons_succ (a : List TransactionFrame) (rest : List (List TransactionFrame))
    (n : Nat) : ageTier (a :: rest) (n + 2) = a :: ageTier rest (n + 1) := by
  simp only [ageTier, tier, foldl_push_back, Nat.add_sub_cancel, List.getD_cons_succ,
    List.set_cons_succ]
  rfl

/-- One ageing step permutes the entries of the pool. -/
theorem flatten_ageTier_perm (n : Nat) : ∀ pool : List (List TransactionFrame),
    n + 1 < pool.length → (ageTier pool (n + 1)).flatten.Perm pool.flatten := by
  induction n with
  | zero =>
    intro pool hlen
    match pool, hlen with
    | a :: b :: rest, _ =>
      rw [ageTier_cons_cons]
      simp only [List.flatten_cons, List.nil_append, List.append_assoc]
      rw [← List.append_assoc, ← List.append_assoc]
      exact List.Perm.append_right _ List.perm_append_comm
  | succ n ih =>
    intro pool hlen
    match pool, hlen with
    | a :: rest, hlen =>
      rw [ageTier_cons_succ]
      simp only [List.flatten_cons]
      exact List.Perm.append_left _ (ih rest (by simpa using hlen))

/-- The ageing loop permutes the entries of the pool. -/
theorem flatten_ageLoop_perm (n : Nat) : ∀ pool : List (List TransactionFrame),
    n < pool.length → (ageLoop n pool).flatten.Perm pool.flatten := by
  induction n with
  | zero => intro pool _; exact List.Perm.refl _
  | succ n ih =>
    intro pool hlen
    simp only [ageLoop]
    exact (ih _ (by rw [length_ageTier]; omega)).trans (flatten_ageTier_perm n pool hlen)

/-- Ageing keeps the hashes of the pool distinct. -/
theorem PoolUnique_ageReceivedTransactions (pool : List (List TransactionFrame))
    (hlen : 2 ≤ pool.length) (hu : PoolUnique pool) :
    PoolUnique (ageReceivedTransactions pool) := by
  have hp := flatten_ageLoop_perm (pool.length - 1) pool (by omega)
  have hq : (List.map (fun tx : TransactionFrame => tx.fullHash)
      (ageReceivedTransactions pool).flatten).Perm
      (List.map (fun tx : TransactionFrame => tx.fullHash) pool.flatten) := hp.map _
  exact hq.nodup_iff.mpr hu

/-- Erasing a transaction from a tier leaves a sublist of the tier. -/
theorem eraseFirstWithHash_sublist (hash : Hash) : ∀ l l1 : List TransactionFrame,
    eraseFirstWithHash hash l = some l1 → l1.Sublist l := by
  intro l
  induction l with
  | nil => intro l1 h; cases h
  | cons x xs ih =>
    intro l1 h
    simp only [eraseFirstWithHash] at h
    by_cases hx : x.fullHash = hash
    · rw [if_pos hx] at h
      cases h
      exact List.sublist_cons_self _ _
    · rw [if_neg hx] at h
      cases hrest : eraseFirstWithHash hash xs with
      | none => rw [hrest] at h; cases h
      | some rest1 =>
        rw [hrest] at h
        cases h
        exact (ih rest1 hrest).cons₂ x

/-- `removeReceivedTx` leaves a sublist of the entries of the pool. -/
theorem flatten_removeReceivedTx_sublist (dropTx : TransactionFrame) :
    ∀ pool : List (List TransactionFrame),
      (removeReceivedTx pool dropTx).flatten.Sublist pool.flatten := by
  intro pool
  induction pool with
  | nil => exact List.Sublist.refl _
  | cons l ls ih =>
    simp only [removeReceivedTx]
    cases herase : eraseFirstWithHash dropTx.fullHash l with
    | some l1 =>
      simp only [List.flatten_cons]
      exact List.Sublist.append (eraseFirstWithHash_sublist _ _ _ herase) (List.Sublist.refl _)
    | none =>
      simp only [List.flatten_cons]
      exact List.Sublist.append (List.Sublist.refl _) ih

/-- `removeReceivedTx` keeps the hashes of the pool distinct. -/
theorem PoolUnique_removeReceivedTx (pool : List (List TransactionFrame))
    (dropTx : TransactionFrame) (hu : PoolUnique pool) :
    PoolUnique (removeReceivedTx pool dropTx) :=
  List.Nodup.sublist ((flatten_removeReceivedTx_sublist dropTx pool).map _) hu

/-- Removing a list of transactions keeps the hashes of the pool distinct. -/
theorem PoolUnique_foldl_removeReceivedTx (txs : List TransactionFrame) :
    ∀ pool : List (List TransactionFrame), PoolUnique pool →
      PoolUnique (txs.foldl removeReceivedTx pool) := by
  induction txs with
  | nil => intro pool hu; exact hu
  | cons d ds ih =>
    intro pool hu
    exact ih _ (PoolUnique_removeReceivedTx pool d hu)

/-- The removal and ageing of `valueExternalized` keep the hashes of the pool distinct. -/
theorem PoolUnique_externalizePool (pool new : List (List TransactionFrame))
    (ext : TxSetFrame) (hu : PoolUnique pool) (he : externalizePool pool ext = .ok new) :
    PoolUnique new := by
  simp only [externalizePool] at he
  split_ifs at he with hlen
  simp only [Except.ok.injEq] at he
  subst he
  exact PoolUnique_ageReceivedTransactions _ (by omega)
    (PoolUnique_foldl_removeReceivedTx _ _ hu)

/-- Pushing a transaction whose hash is not pooled keeps the hashes of the pool distinct. -/
theorem PoolUnique_pushToTierZero (pool : List (List TransactionFrame))
    (tx : TransactionFrame) (hu : PoolUnique pool)
    (hnew : ∀ old ∈ pool.flatten, old.fullHash ≠ tx.fullHash) :
    PoolUnique (pushToTierZero pool tx) := by
  cases pool with
  | nil => exact hu
  | cons t0 rest =>
    simp only [PoolUnique, pushToTierZero, tier, List.getD_cons_zero, List.set_cons_zero,
      List.flatten_cons, List.map_append, List.map_cons, List.map_nil, List.append_assoc,
      List.singleton_append] at hu ⊢
    rw [List.nodup_middle, List.nodup_cons]
    refine ⟨?_, hu⟩
    intro hmem
    rw [← List.map_append, List.mem_map] at hmem
    obtain ⟨old, hold, hh⟩ := hmem
    exact hnew old (by simpa using hold) hh

/-- `recvTransaction` keeps the hashes of the pool distinct. -/
theorem PoolUnique_recvTransaction (app : Application) (h : HerderImpl) (tx : TransactionFrame)
    (hu : PoolUnique h.mReceivedTransactions) :
    PoolUnique (h.recvTransaction app tx).2.mReceivedTransactions := by
  by_cases hdup : ∃ old ∈ h.mReceivedTransactions.flatten, old.fullHash = tx.fullHash
  · have hs := (recvTransactionScan_spec tx h.mReceivedTransactions ⟨i64 tx.fee, 0⟩).1 hdup
    simp only [HerderImpl.recvTransaction, hs]
    exact hu
  · have hno : ∀ old ∈ h.mReceivedTransactions.flatten, old.fullHash ≠ tx.fullHash :=
      fun old hold hh => hdup ⟨old, hold, hh⟩
    have hs := (recvTransactionScan_spec tx h.mReceivedTransactions ⟨i64 tx.fee, 0⟩).2 hno
      (i64_i64 _)
    simp only [HerderImpl.recvTransaction, hs]
    split_ifs
    · exact hu
    · exact hu
    · exact PoolUnique_pushToTierZero _ _ hu hno

/-- The loop of `recvTransactions` keeps the hashes of the pool distinct. -/
theorem PoolUnique_recvTransactionsLoop (app : Application) (txs : List TransactionFrame) :
    ∀ acc : Bool × HerderImpl, PoolUnique acc.2.mReceivedTransactions →
      PoolUnique (recvTransactionsLoop app txs acc).2.mReceivedTransactions := by
  induction txs with
  | nil => intro acc hu; exact hu
  | cons tx rest ih =>
    intro acc hu
    simp only [recvTransactionsLoop]
    exact ih _ (PoolUnique_recvTransaction app acc.2 tx hu)

/-- `triggerNextLedger` keeps the hashes of the pool distinct. -/
theorem PoolUnique_triggerNextLedger (app : Application) (h : HerderImpl)
    (ledgerSeqToTrigger : Nat) (hu : PoolUnique h.mReceivedTransactions) :
    PoolUnique (h.triggerNextLedger app ledgerSeqToTrigger).mReceivedTransactions := by
  simp only [HerderImpl.triggerNextLedger]
  split_ifs
  · exact hu
  all_goals
    (simp only [HerderImpl.recvTxSet, HerderImpl.recvTransactions]
     exact PoolUnique_recvTransactionsLoop app _ _
       (PoolUnique_foldl_removeReceivedTx _ _ hu))

/-- `valueExternalized` keeps the hashes of the pool distinct. -/
theorem PoolUnique_valueExternalized (h h1 : HerderImpl) (slotIndex : Nat) (value : Value)
    (hu : PoolUnique h.mReceivedTransactions)
    (hv : h.valueExternalized slotIndex value = .ok h1) :
    PoolUnique h1.mReceivedTransactions := by
  obtain ⟨b, ext, _, _, hpool⟩ := valueExternalized_pool h h1 slotIndex value hv
  exact PoolUnique_externalizePool _ _ ext hu hpool

/-- In every reachable state the hashes of the pool are distinct. -/
theorem PoolUnique_of_reachable (h : HerderImpl) (hr : HerderImpl.PoolReachable h) :
    PoolUnique h.mReceivedTransactions := by
  induction hr with
  | constructed h hpool =>
    rw [hpool]
    simp [PoolUnique, HerderImpl.initialReceivedTransactions]
  | recvTransaction app h tx _ ih => exact PoolUnique_recvTransaction app h tx ih
  | valueExternalized h h1 slotIndex value _ hv ih =>
    exact PoolUnique_valueExternalized h h1 slotIndex value ih hv
  | triggerNextLedger app h seq _ ih => exact PoolUnique_triggerNextLedger app h seq ih
  | other h h1 _ hsame ih => rw [hsame]; exact ih

/-- The pool uniqueness invariant, entry by entry: any two entries of the flattened pool, the
first before the second, have different full hashes. -/
theorem PoolUnique_iff_pairwise (pool : List (List TransactionFrame)) :
    PoolUnique pool ↔ pool.flatten.Pairwise (fun a b => a.fullHash ≠ b.fullHash) := by
  unfold PoolUnique List.Nodup
  exact List.pairwise_map

/-- C11: in every state reachable from the constructor's pool the full hashes of the entries of
`mReceivedTransactions`, over all tiers, are pairwise distinct; and from any state with
distinct hashes, `recvTransaction`, `removeReceivedTx`, the ageing step, `valueExternalized` as
a whole, `recvTransactions` (the re-submission of the proposed set) and `triggerNextLedger` as a
whole lead to a pool with distinct hashes. -/
theorem C11_pool_hashes_stay_unique (h : HerderImpl) :
    (HerderImpl.PoolReachable h → PoolUnique h.mReceivedTransactions) ∧
    (PoolUnique h.mReceivedTransactions →
      (∀ app tx, PoolUnique (h.recvTransaction app tx).2.mReceivedTransactions) ∧
      (∀ dropTx, PoolUnique (removeReceivedTx h.mReceivedTransactions dropTx)) ∧
      PoolUnique (ageReceivedTransactions h.mReceivedTransactions) ∧
      (∀ slotIndex value h1, h.valueExternalized slotIndex value = .ok h1 →
        PoolUnique h1.mReceivedTransactions) ∧
      (∀ app txSet, PoolUnique (h.recvTransactions app txSet).2.mReceivedTransactions) ∧
      (∀ app ledgerSeqToTrigger,
        PoolUnique (h.triggerNextLedger app ledgerSeqToTrigger).mReceivedTransactions)) := by
  refine ⟨PoolUnique_of_reachable h, fun hu => ⟨?_, ?_, ?_, ?_, ?_, ?_⟩⟩
  · exact fun app tx => PoolUnique_recvTransaction app h tx hu
  · exact fun dropTx => PoolUnique_removeReceivedTx _ dropTx hu
  · by_cases hlen : 2 ≤ h.mReceivedTransactions.length
    · exact PoolUnique_ageReceivedTransactions _ hlen hu
    · have h0 : h.mReceivedTransactions.length - 1 = 0 := by omega
      simp only [ageReceivedTransactions, h0, ageLoop]
      exact hu
  · exact fun slotIndex value h1 hv => PoolUnique_valueExternalized h h1 slotIndex value hu hv
  · exact fun app txSet => PoolUnique_recvTransactionsLoop app _ (true, h) hu
  · exact fun app seq => PoolUnique_triggerNextLedger app h seq hu

/-- C11 on a concrete run: after `exampleTxA`, `exampleTxB` and `exampleTxA` again are
submitted to a fresh Herder the pool holds the first two once each, its hashes are distinct, and
they stay distinct when `exampleTxC` is submitted. -/
theorem C11_pool_hashes_stay_unique_witness :
    exampleThreeSubmissions.mReceivedTransactions = [[exampleTxA, exampleTxB], [], [], []] ∧
    PoolUnique exampleThreeSubmissions.mReceivedTransactions ∧
    PoolUnique
      (exampleThreeSubmissions.recvTransaction exampleApplication exampleTxC).2.mReceivedTransactions :=
  ⟨by decide,
    (C11_pool_hashes_stay_unique exampleThreeSubmissions).1
      (HerderImpl.PoolReachable.recvTransaction exampleApplication _ exampleTxA
        (HerderImpl.PoolReachable.recvTransaction exampleApplication _ exampleTxB
          (HerderImpl.PoolReachable.recvTransaction exampleApplication _ exampleTxA
            (HerderImpl.PoolReachable.constructed exampleHerder rfl)))),
    ((C11_pool_hashes_stay_unique exampleThreeSubmissions).2
      ((C11_pool_hashes_stay_unique exampleThreeSubmissions).1
        (HerderImpl.PoolReachable.recvTransaction exampleApplication _ exampleTxA
          (HerderImpl.PoolReachable.recvTransaction exampleApplication _ exampleTxB
            (HerderImpl.PoolReachable.recvTransaction exampleApplication _ exampleTxA
              (HerderImpl.PoolReachable.constructed exampleHerder rfl)))))).1
      exampleApplication exampleTxC⟩

/-! ## Externalized values and the decision table of `validateValue` -/

/-- C14, as stated, fails: two `valueExternalized` calls in a row, for slots 6 and 7, record the
close times 1000 and then 900. -/
theorem C14_closeTime_can_decrease :
    (exampleTwoExternalizations examplePoolHerder).map
        (fun p => (p.1.mTrackingSCP.map (fun t => t.mConsensusValue.closeTime),
          p.2.mTrackingSCP.map (fun t => t.mConsensusValue.closeTime))) =
      .ok (some 1000, some 900) ∧
    ¬ ((1000 : Nat) < 900) :=
  ⟨rfl, by decide⟩

/-- A `valueExternalized` call that returns has decoded the value and records it, with the
slot, as the tracking state. -/
theorem valueExternalized_tracking (h h1 : HerderImpl) (slotIndex : Nat) (value : Value)
    (hv : h.valueExternalized slotIndex value = .ok h1) :
    ∃ b, xdr_from_opaque value = .ok b ∧ h1.mTrackingSCP = some ⟨slotIndex, b⟩ := by
  unfold HerderImpl.valueExternalized at hv
  split at hv
  · cases hv
  · rename_i b hb
    split at hv
    · cases hv
    · split at hv
      · cases hv
      · cases hv
        exact ⟨b, hb, rfl⟩

/-- C14, amended: a `valueExternalized` call that returns records the close time of the
externalized value in the tracking state, whatever it is; it is strictly greater than the close
time recorded before whenever the node was tracking, the value is for the next consensus slot
and `validateValue` accepts it. -/
theorem C14_validated_closeTime_increases (app : Application) (h h1 : HerderImpl) (slotIndex nodeID : Nat) (value : Value)
    (hv : h.valueExternalized slotIndex value = .ok h1) :
    ∃ b, xdr_from_opaque value = .ok b ∧ h1.mTrackingSCP = some ⟨slotIndex, b⟩ ∧
      ∀ t, h.mTrackingSCP = some t → slotIndex = t.nextConsensusLedgerIndex →
        h.validateValue app slotIndex nodeID value = .ok true →
        t.mConsensusValue.closeTime < b.closeTime := by
  obtain ⟨b, hb, htr⟩ := valueExternalized_tracking h h1 slotIndex value hv
  refine ⟨b, hb, htr, ?_⟩
  intro t ht hslot hvalid
  by_contra hnot
  have hle : b.closeTime ≤ t.mConsensusValue.closeTime := by omega
  have e1 : ¬ t.nextConsensusLedgerIndex > slotIndex := by omega
  have e2 : ¬ t.nextConsensusLedgerIndex < slotIndex := by omega
  simp only [HerderImpl.validateValue, hb, ht, if_neg e1, if_neg e2, if_pos hle] at hvalid
  cases hvalid

/-- C15: the decision table of `validateValue`. An undecodable value is rejected in every
state. For a decodable value: when not tracking it is accepted; when tracking with next slot N
it is accepted for every slot below N, rejected for every slot above N, and for slot N rejected
whenever its close time is at most the tracked close time or beyond the clock plus
MAX_TIME_SLIP_SECONDS. -/
theorem C15_validateValue_decision_table (app : Application) (h : HerderImpl) (slotIndex nodeID : Nat) (value : Value) :
    ((∀ b, xdr_from_opaque value ≠ .ok b) →
      h.validateValue app slotIndex nodeID value = .ok false) ∧
    (∀ b, xdr_from_opaque value = .ok b →
      (h.mTrackingSCP = none → h.validateValue app slotIndex nodeID value = .ok true) ∧
      (∀ t, h.mTrackingSCP = some t →
        (slotIndex < t.nextConsensusLedgerIndex →
          h.validateValue app slotIndex nodeID value = .ok true) ∧
        (slotIndex > t.nextConsensusLedgerIndex →
          h.validateValue app slotIndex nodeID value = .ok false) ∧
        (slotIndex = t.nextConsensusLedgerIndex →
          (b.closeTime ≤ t.mConsensusValue.closeTime ∨
            b.closeTime > app.timeNow + app.MAX_TIME_SLIP_SECONDS) →
          h.validateValue app slotIndex nodeID value = .ok false))) := by
  constructor
  · intro hno
    unfold HerderImpl.validateValue
    split
    · rfl
    · rename_i b hb
      exact absurd hb (hno b)
  · intro b hb
    refine ⟨fun hn => ?_, fun t ht => ⟨fun hlt => ?_, fun hgt => ?_, fun heq hbad => ?_⟩⟩
    · simp only [HerderImpl.validateValue, hb, hn]
    · have e1 : t.nextConsensusLedgerIndex > slotIndex := hlt
      simp only [HerderImpl.validateValue, hb, ht, if_pos e1]
    · have e1 : ¬ t.nextConsensusLedgerIndex > slotIndex := by omega
      have e2 : t.nextConsensusLedgerIndex < slotIndex := hgt
      simp only [HerderImpl.validateValue, hb, ht, if_neg e1, if_pos e2]
    · have e1 : ¬ t.nextConsensusLedgerIndex > slotIndex := by omega
      have e2 : ¬ t.nextConsensusLedgerIndex < slotIndex := by omega
      simp only [HerderImpl.validateValue, hb, ht, if_neg e1, if_neg e2]
      by_cases hc : b.closeTime ≤ t.mConsensusValue.closeTime
      · rw [if_pos hc]
      · rw [if_neg hc]
        have hfut : b.closeTime > u64 (app.timeNow + app.MAX_TIME_SLIP_SECONDS) := by
          have hle : u64 (app.timeNow + app.MAX_TIME_SLIP_SECONDS) ≤
              app.timeNow + app.MAX_TIME_SLIP_SECONDS := Nat.mod_le _ _
          rcases hbad with hb1 | hb1
          · exact absurd hb1 hc
          · omega
        rw [if_pos hfut]

/-- C14, amended, at concrete inputs: the example Herder tracks slot 5 with close time 990; the
value with close time 1000 is accepted for slot 6 and, once externalized, recorded. -/
theorem C14_validated_closeTime_increases_witness :
    exampleHerder.valueExternalized 6 (.encoded ⟨11, 1000, 100⟩) =
      .ok exampleExternalizedHerder ∧
    exampleHerder.validateValue exampleApplication 6 2 (.encoded ⟨11, 1000, 100⟩) = .ok true ∧
    ∃ b, xdr_from_opaque (.encoded ⟨11, 1000, 100⟩) = .ok b ∧
      exampleExternalizedHerder.mTrackingSCP = some ⟨6, b⟩ ∧
      ∀ t, exampleHerder.mTrackingSCP = some t → 6 = t.nextConsensusLedgerIndex →
        exampleHerder.validateValue exampleApplication 6 2 (.encoded ⟨11, 1000, 100⟩) =
          .ok true →
        t.mConsensusValue.closeTime < b.closeTime :=
  ⟨rfl, rfl,
    C14_validated_closeTime_increases exampleApplication exampleHerder
      exampleExternalizedHerder 6 2 (.encoded ⟨11, 1000, 100⟩) rfl⟩

/-- C15 at concrete inputs, for the example Herder that tracks slot 5 with close time 990 (next
slot 6): an undecodable value is rejected, a value for slot 5 is accepted, a value for slot 7 is
rejected, and a value for slot 6 with close time 990 is rejected. -/
theorem C15_validateValue_decision_table_witness :
    exampleHerder.validateValue exampleApplication 6 2 (.undecodable [1, 2]) = .ok false ∧
    exampleHerder.validateValue exampleApplication 5 2 (.encoded ⟨11, 1000, 100⟩) = .ok true ∧
    exampleHerder.validateValue exampleApplication 7 2 (.encoded ⟨11, 1000, 100⟩) = .ok false ∧
    exampleHerder.validateValue exampleApplication 6 2 (.encoded ⟨11, 990, 100⟩) = .ok false :=
  ⟨(C15_validateValue_decision_table exampleApplication exampleHerder 6 2
      (.undecodable [1, 2])).1 (fun b hb => by cases hb),
    (((C15_validateValue_decision_table exampleApplication exampleHerder 5 2
      (.encoded ⟨11, 1000, 100⟩)).2 ⟨11, 1000, 100⟩ rfl).2 ⟨5, ⟨0, 990, 100⟩⟩ rfl).1
        (by decide),
    (((C15_validateValue_decision_table exampleApplication exampleHerder 7 2
      (.encoded ⟨11, 1000, 100⟩)).2 ⟨11, 1000, 100⟩ rfl).2 ⟨5, ⟨0, 990, 100⟩⟩ rfl).2.1
        (by decide),
    (((C15_validateValue_decision_table exampleApplication exampleHerder 6 2
      (.encoded ⟨11, 990, 100⟩)).2 ⟨11, 990, 100⟩ rfl).2 ⟨5, ⟨0, 990, 100⟩⟩ rfl).2.2
        (by decide) (Or.inl (by decide))⟩

/-! ## Envelopes and rebroadcast -/

/-- C16, as stated, fails: the Herder tracks consensus index 4294967294, so the next slot is
4294967295 and the upper bound of the bracket wraps to 999 in its `uint32_t`; an envelope for
slot 4294967295, inside the bracket, is dropped. -/
theorem C16_envelope_in_bracket_dropped_at_wrap :
    exampleApplication.MANUAL_CLOSE = false ∧
    exampleLateHerder.mTrackingSCP = some ⟨4294967294, ⟨0, 990, 100⟩⟩ ∧
    (4294967294 + 1 ≤ exampleLateEnvelope.slotIndex ∧
      exampleLateEnvelope.slotIndex ≤
        4294967294 + 1 + exampleApplication.LEDGER_VALIDITY_BRACKET) ∧
    exampleLateHerder.recvSCPEnvelope exampleApplication exampleLateEnvelope =
      exampleLateHerder ∧
    exampleLateHerder.storeSCPEnvelope exampleLateEnvelope ≠ exampleLateHerder :=
  ⟨rfl, rfl, by decide, by decide, by decide⟩

/-- What `recvSCPEnvelope` does, with the bounds of the bracket as the code holds them, in 32
bits: the envelope is handed to the store when MANUAL_CLOSE is off and the node is not tracking
or the slot lies between `next` and `next + LEDGER_VALIDITY_BRACKET`, each modulo `2 ^ 32`;
otherwise the Herder is unchanged. When the upper bound is below `2 ^ 32` the two bounds are
`next` and `next + LEDGER_VALIDITY_BRACKET` themselves. -/
theorem recvSCPEnvelope_32bit_bracket (app : Application) (h : HerderImpl) (envelope : SCPEnvelope) :
    ((app.MANUAL_CLOSE = false ∧
        (h.mTrackingSCP = none ∨
          ∃ t, h.mTrackingSCP = some t ∧
            u32 t.nextConsensusLedgerIndex ≤ envelope.slotIndex ∧
            envelope.slotIndex ≤
              u32 (t.nextConsensusLedgerIndex + app.LEDGER_VALIDITY_BRACKET))) →
      h.recvSCPEnvelope app envelope = h.storeSCPEnvelope envelope) ∧
    (¬ (app.MANUAL_CLOSE = false ∧
        (h.mTrackingSCP = none ∨
          ∃ t, h.mTrackingSCP = some t ∧
            u32 t.nextConsensusLedgerIndex ≤ envelope.slotIndex ∧
            envelope.slotIndex ≤
              u32 (t.nextConsensusLedgerIndex + app.LEDGER_VALIDITY_BRACKET))) →
      h.recvSCPEnvelope app envelope = h) ∧
    (∀ t, h.mTrackingSCP = some t →
      t.nextConsensusLedgerIndex + app.LEDGER_VALIDITY_BRACKET < 4294967296 →
      ((u32 t.nextConsensusLedgerIndex ≤ envelope.slotIndex ∧
          envelope.slotIndex ≤
            u32 (t.nextConsensusLedgerIndex + app.LEDGER_VALIDITY_BRACKET)) ↔
        (t.nextConsensusLedgerIndex ≤ envelope.slotIndex ∧
          envelope.slotIndex ≤ t.nextConsensusLedgerIndex + app.LEDGER_VALIDITY_BRACKET))) := by
  refine ⟨?_, ?_, ?_⟩
  · rintro ⟨hmc, htr⟩
    simp only [HerderImpl.recvSCPEnvelope, hmc, Bool.false_eq_true, if_false]
    rcases htr with hn | ⟨t, ht, hlo, hhi⟩
    · simp only [hn]
    · have hcond : ¬ (envelope.slotIndex >
          u32 (t.nextConsensusLedgerIndex + app.LEDGER_VALIDITY_BRACKET) ∨
          envelope.slotIndex < u32 t.nextConsensusLedgerIndex) := by omega
      simp only [ht, if_neg hcond]
  · intro hno
    simp only [HerderImpl.recvSCPEnvelope]
    cases hmc : app.MANUAL_CLOSE with
    | true => simp
    | false =>
      simp only [Bool.false_eq_true, if_false]
      cases htr : h.mTrackingSCP with
      | none => exact absurd ⟨hmc, Or.inl htr⟩ hno
      | some t =>
        have hcond : envelope.slotIndex >
            u32 (t.nextConsensusLedgerIndex + app.LEDGER_VALIDITY_BRACKET) ∨
            envelope.slotIndex < u32 t.nextConsensusLedgerIndex := by
          by_contra hc
          exact hno ⟨hmc, Or.inr ⟨t, htr, by omega, by omega⟩⟩
        simp only [if_pos hcond]
  · intro t _ hsmall
    have e1 : u32 t.nextConsensusLedgerIndex = t.nextConsensusLedgerIndex := by
      simp only [u32]; omega
    have e2 : u32 (t.nextConsensusLedgerIndex + app.LEDGER_VALIDITY_BRACKET) =
        t.nextConsensusLedgerIndex + app.LEDGER_VALIDITY_BRACKET := by
      simp only [u32]; omega
    rw [e1, e2]

/-- Handing an envelope to the store changes the Herder. -/
theorem storeSCPEnvelope_ne (h : HerderImpl) (envelope : SCPEnvelope) :
    h.storeSCPEnvelope envelope ≠ h := by
  intro heq
  have hlen := congrArg (fun x : HerderImpl => x.mPendingSCPEnvelopes.length) heq
  simp [HerderImpl.storeSCPEnvelope] at hlen

/-- C16, amended: when the upper bound `next + LEDGER_VALIDITY_BRACKET` of the bracket fits in
the 32 bits in which the code holds it, `recvSCPEnvelope` hands an envelope to the
pending-envelope store if and only if MANUAL_CLOSE is off and either the node is not tracking or
the slot of the envelope lies in `[next, next + LEDGER_VALIDITY_BRACKET]`; every other envelope
leaves the Herder, and so the store, unchanged. -/
theorem C16_envelope_stored_iff_in_bracket (app : Application) (h : HerderImpl)
    (envelope : SCPEnvelope)
    (hfit : ∀ t, h.mTrackingSCP = some t →
      t.nextConsensusLedgerIndex + app.LEDGER_VALIDITY_BRACKET < 4294967296) :
    (h.recvSCPEnvelope app envelope = h.storeSCPEnvelope envelope ↔
      (app.MANUAL_CLOSE = false ∧
        (h.mTrackingSCP = none ∨
          ∃ t, h.mTrackingSCP = some t ∧
            t.nextConsensusLedgerIndex ≤ envelope.slotIndex ∧
            envelope.slotIndex ≤ t.nextConsensusLedgerIndex + app.LEDGER_VALIDITY_BRACKET))) ∧
    (¬ (app.MANUAL_CLOSE = false ∧
        (h.mTrackingSCP = none ∨
          ∃ t, h.mTrackingSCP = some t ∧
            t.nextConsensusLedgerIndex ≤ envelope.slotIndex ∧
            envelope.slotIndex ≤ t.nextConsensusLedgerIndex + app.LEDGER_VALIDITY_BRACKET)) →
      h.recvSCPEnvelope app envelope = h) := by
  obtain ⟨hin, hout, hsame⟩ := recvSCPEnvelope_32bit_bracket app h envelope
  have hcond : (app.MANUAL_CLOSE = false ∧
        (h.mTrackingSCP = none ∨
          ∃ t, h.mTrackingSCP = some t ∧
            t.nextConsensusLedgerIndex ≤ envelope.slotIndex ∧
            envelope.slotIndex ≤ t.nextConsensusLedgerIndex + app.LEDGER_VALIDITY_BRACKET)) ↔
      (app.MANUAL_CLOSE = false ∧
        (h.mTrackingSCP = none ∨
          ∃ t, h.mTrackingSCP = some t ∧
            u32 t.nextConsensusLedgerIndex ≤ envelope.slotIndex ∧
            envelope.slotIndex ≤
              u32 (t.nextConsensusLedgerIndex + app.LEDGER_VALIDITY_BRACKET))) := by
    constructor
    · rintro ⟨hmc, hn | ⟨t, ht, hb⟩⟩
      · exact ⟨hmc, Or.inl hn⟩
      · exact ⟨hmc, Or.inr ⟨t, ht, (hsame t ht (hfit t ht)).mpr hb⟩⟩
    · rintro ⟨hmc, hn | ⟨t, ht, hb⟩⟩
      · exact ⟨hmc, Or.inl hn⟩
      · exact ⟨hmc, Or.inr ⟨t, ht, (hsame t ht (hfit t ht)).mp hb⟩⟩
  have hdrop : ¬ (app.MANUAL_CLOSE = false ∧
        (h.mTrackingSCP = none ∨
          ∃ t, h.mTrackingSCP = some t ∧
            t.nextConsensusLedgerIndex ≤ envelope.slotIndex ∧
            envelope.slotIndex ≤ t.nextConsensusLedgerIndex + app.LEDGER_VALIDITY_BRACKET)) →
      h.recvSCPEnvelope app envelope = h :=
    fun hno => hout (fun h32 => hno (hcond.mpr h32))
  refine ⟨⟨fun hstored => ?_, fun hc => hin (hcond.mp hc)⟩, hdrop⟩
  by_contra hno
  rw [hdrop hno] at hstored
  exact storeSCPEnvelope_ne h envelope hstored.symm

/-- C16, amended, at concrete inputs: the example Herder tracks slot 5, so the bracket is
[6, 1006]; an envelope for slot 6 is handed to the store and an envelope for slot 2000 is
dropped. -/
theorem C16_envelope_stored_iff_in_bracket_witness :
    (∀ t, exampleHerder.mTrackingSCP = some t →
      t.nextConsensusLedgerIndex + exampleApplication.LEDGER_VALIDITY_BRACKET < 4294967296) ∧
    exampleHerder.recvSCPEnvelope exampleApplication exampleEnvelope =
      exampleHerder.storeSCPEnvelope exampleEnvelope ∧
    exampleHerder.recvSCPEnvelope exampleApplication ⟨2000, 2, 0⟩ = exampleHerder :=
  ⟨fun t ht => by cases ht; decide,
    (C16_envelope_stored_iff_in_bracket exampleApplication exampleHerder exampleEnvelope
      (fun t ht => by cases ht; decide)).1.mpr
      ⟨rfl, Or.inr ⟨⟨5, ⟨0, 990, 100⟩⟩, rfl, by decide, by decide⟩⟩,
    (C16_envelope_stored_iff_in_bracket exampleApplication exampleHerder ⟨2000, 2, 0⟩
      (fun t ht => by cases ht; decide)).2
      (by
        rintro ⟨_, hn | ⟨t, ht, _, hhi⟩⟩
        · cases hn
        · cases ht
          revert hhi
          decide)⟩

/-- C17, as stated, fails: after the example Herder emitted an envelope while tracking and then
lost track of consensus, `rebroadcast` broadcasts the envelope once more and the rebroadcast
timer is armed again. -/
theorem C17_rebroadcast_continues_out_of_sync :
    (exampleHerder.emitEnvelope exampleApplication exampleEnvelope).herderOutOfSync =
      some exampleOutOfSyncHerder ∧
    exampleOutOfSyncHerder.mTrackingSCP = none ∧
    (exampleOutOfSyncHerder.rebroadcast exampleApplication).mOverlayBroadcasts =
      [(exampleEnvelope, true), (exampleEnvelope, true)] ∧
    (exampleOutOfSyncHerder.rebroadcastTimerExpired exampleApplication).mOverlayBroadcasts =
      [(exampleEnvelope, true), (exampleEnvelope, true)] ∧
    (exampleOutOfSyncHerder.rebroadcastTimerExpired exampleApplication).mRebroadcastTimer =
      some 2 :=
  ⟨by decide, rfl, by decide, by decide, by decide⟩

/-- C17, amended: `rebroadcast` does not consult the tracking state. Whenever it runs with an
SCP message as last sent message and MANUAL_CLOSE off it broadcasts that message again and arms
the rebroadcast timer for two seconds; without such a message, or with MANUAL_CLOSE on, it
changes nothing; and what it does is the same whatever the tracking state is, which it leaves
as it was. -/
theorem C17_rebroadcast_ignores_tracking (app : Application) (h : HerderImpl) :
    (∀ envelope, h.mLastSentMessage = some envelope → app.MANUAL_CLOSE = false →
      h.rebroadcast app =
        { h with
          mOverlayBroadcasts := h.mOverlayBroadcasts ++ [(envelope, true)]
          mRebroadcastTimer := some 2 }) ∧
    ((h.mLastSentMessage = none ∨ app.MANUAL_CLOSE = true) → h.rebroadcast app = h) ∧
    (h.rebroadcast app).mTrackingSCP = h.mTrackingSCP ∧
    (∀ t, ({ h with mTrackingSCP := t }).rebroadcast app =
      { h.rebroadcast app with mTrackingSCP := t }) := by
  refine ⟨?_, ?_, ?_, ?_⟩
  · intro envelope hm hmc
    simp only [HerderImpl.rebroadcast, HerderImpl.startRebroadcastTimer, hm, hmc]
    rfl
  · rintro (hm | hmc)
    · simp only [HerderImpl.rebroadcast, hm]
    · simp only [HerderImpl.rebroadcast, hmc]
      cases h.mLastSentMessage <;> rfl
  · simp only [HerderImpl.rebroadcast, HerderImpl.startRebroadcastTimer]
    cases hm : h.mLastSentMessage with
    | none => rfl
    | some e => cases app.MANUAL_CLOSE <;> simp [hm]
  · intro t
    obtain ⟨rt, tr, cv, lt, pe, lm, lsm, rbt, pse, ob, nom⟩ := h
    cases lsm <;> cases hmc : app.MANUAL_CLOSE <;>
      simp [HerderImpl.rebroadcast, HerderImpl.startRebroadcastTimer, hmc]

/-- C17, amended, at concrete inputs: the example Herder that lost track of consensus
broadcasts its last sent envelope again and arms the timer. -/
theorem C17_rebroadcast_ignores_tracking_witness :
    exampleOutOfSyncHerder.mTrackingSCP = none ∧
    exampleOutOfSyncHerder.rebroadcast exampleApplication =
      { exampleOutOfSyncHerder with
        mOverlayBroadcasts := exampleOutOfSyncHerder.mOverlayBroadcasts ++
          [(exampleEnvelope, true)]
        mRebroadcastTimer := some 2 } :=
  ⟨rfl, (C17_rebroadcast_ignores_tracking exampleApplication exampleOutOfSyncHerder).1
    exampleEnvelope rfl rfl⟩

/-! ## Catch-up range from genesis: the branches on the checkpoint -/

/-- The smallest ledger to apply from genesis with a count below `target - 1`: the 32-bit
expression of the code is `target - max(1, count) + 1`, between 2 and the target, and it is the
target exactly for a count of at most 1. -/
theorem smallestLedgerToApply_val (target count : Nat) (ht : target < 4294967296)
    (hn : count + 1 < target) :
    u32add (u32sub target (max 1 count)) 1 = target - max 1 count + 1 ∧
      2 ≤ target - max 1 count + 1 ∧ target - max 1 count + 1 ≤ target ∧
      (target - max 1 count + 1 = target ↔ count ≤ 1) := by
  have hm : max 1 count = 1 ∧ count ≤ 1 ∨ max 1 count = count ∧ 1 < count := by
    rcases Nat.lt_or_ge 1 count with h | h
    · exact Or.inr ⟨Nat.max_eq_right (Nat.le_of_lt h), h⟩
    · exact Or.inl ⟨Nat.max_eq_left h, h⟩
  generalize max 1 count = M at hm ⊢
  have hM : M ≤ target := by omega
  rw [u32sub_of_le _ _ hM ht, u32add_of_lt _ _ (by omega)]
  refine ⟨rfl, by omega, by omega, ?_⟩
  constructor <;> intro h <;> omega

/-- `computeCatchupledgers` from genesis with a count below `target - 1`, past its guards: the
three branches on the checkpoint containing the smallest ledger to apply. -/
theorem computeCatchupledgers_genesis_small_count (target count freq : Nat)
    (ht : target < 4294967296) (hn : count + 1 < target) :
    computeCatchupledgers 1 ⟨target, count⟩ ⟨freq⟩ =
      if u32 (HistoryManager.checkpointContainingLedger ⟨freq⟩ (target - max 1 count + 1)) =
          target - max 1 count + 1 then
        .ok ⟨u32add (target - max 1 count + 1) 1, u32sub target (target - max 1 count + 1)⟩
      else if u32 (HistoryManager.checkpointContainingLedger ⟨freq⟩
          (target - max 1 count + 1)) =
          u32 (HistoryManager.checkpointContainingLedger ⟨freq⟩ 1) then
        .ok ⟨2, target - 1⟩
      else
        .ok ⟨u32add (u32sub (u32 (HistoryManager.checkpointContainingLedger ⟨freq⟩
            (target - max 1 count + 1))) freq) 1,
          u32add (u32sub target (u32 (HistoryManager.checkpointContainingLedger ⟨freq⟩
            (target - max 1 count + 1)))) freq⟩ := by
  obtain ⟨hs, _, _, _⟩ := smallestLedgerToApply_val target count ht hn
  have e0 : ¬ (1 : Nat) = 0 := by decide
  have e1 : ¬ target ≤ 1 := by omega
  have e2 : ¬ target = CatchupConfiguration.CURRENT := by
    simp only [CatchupConfiguration.CURRENT]; omega
  have e3 : ¬ (1 : Nat) > 1 := by decide
  have hsub : u32sub target 1 = target - 1 := u32sub_of_le _ _ (by omega) ht
  have hadd : u32add 1 1 = 2 := rfl
  have e4 : ¬ count ≥ target - 1 := by omega
  simp only [computeCatchupledgers, if_neg e0, if_neg e1, if_neg e2, GENESIS_LEDGER_SEQ,
    if_neg e3, hsub, if_neg e4, hs, hadd, HistoryManager.getCheckpointFrequency]

/-- Stored in 32 bits, the checkpoint containing a 32-bit ledger is the first checkpoint only
if it is the first checkpoint before the conversion. -/
theorem u32_checkpoint_eq_first_iff (c c1 s freq k1 : Nat) (hlt : c < s + freq)
    (hs : s < 4294967296) (hf32 : freq < 4294967296) (hk1 : 0 < k1)
    (hck1 : c1 + 1 = k1 * freq) (hlt1 : c1 < 1 + freq) : u32 c = u32 c1 ↔ c = c1 := by
  have hk1f : freq ≤ k1 * freq := Nat.le_mul_of_pos_left freq hk1
  generalize k1 * freq = m1 at hck1 hk1f
  unfold u32
  omega

/-- The count of the last branch of `computeCatchupledgers` for any 32-bit target: the
subtraction `target - checkpoint` may wrap, and adding the frequency wraps it back. -/
theorem last_branch_count_32 (target c freq m : Nat) (hcm : c + 1 = m + freq) (hm : 1 ≤ m)
    (ht : target < 4294967296) (hlt : c < target + freq) :
    u32add (u32sub target (u32 c)) freq = target + freq - c := by
  unfold u32add u32sub u32
  omega

/-- From genesis, when the smallest ledger to apply is a checkpoint boundary, the range starts
at the ledger after it. -/
theorem computeCatchupledgers_on_boundary (target count freq : Nat)
    (ht : target < 4294967296)
    (hn : count + 1 < target)
    (hc : HistoryManager.checkpointContainingLedger ⟨freq⟩ (target - max 1 count + 1) =
      target - max 1 count + 1) :
    computeCatchupledgers 1 ⟨target, count⟩ ⟨freq⟩ =
      .ok ⟨u32add (target - max 1 count + 1) 1, target - (target - max 1 count + 1)⟩ := by
  obtain ⟨_, _, hst, _⟩ := smallestLedgerToApply_val target count ht hn
  have hu : u32 (target - max 1 count + 1) = target - max 1 count + 1 :=
    Nat.mod_eq_of_lt (Nat.lt_of_le_of_lt hst ht)
  rw [computeCatchupledgers_genesis_small_count target count freq ht hn, hc, if_pos hu,
    u32sub_of_le _ _ hst ht]

/-- From genesis, when the smallest ledger to apply lies in the first checkpoint without being
its boundary, the whole chain is replayed. -/
theorem computeCatchupledgers_in_first_checkpoint (target count freq : Nat)
    (ht : target < 4294967296) (hf : 0 < freq) (hf32 : freq < 4294967296)
    (hn : count + 1 < target)
    (hc : HistoryManager.checkpointContainingLedger ⟨freq⟩ (target - max 1 count + 1) ≠
      target - max 1 count + 1)
    (hc1 : HistoryManager.checkpointContainingLedger ⟨freq⟩ (target - max 1 count + 1) =
      HistoryManager.checkpointContainingLedger ⟨freq⟩ 1) :
    computeCatchupledgers 1 ⟨target, count⟩ ⟨freq⟩ = .ok ⟨2, target - 1⟩ := by
  obtain ⟨_, _, hst, _⟩ := smallestLedgerToApply_val target count ht hn
  obtain ⟨k, hk, hck, hle, hlt⟩ := checkpointContainingLedger_boundary freq
    (target - max 1 count + 1) hf
  have hne : ¬ u32 (HistoryManager.checkpointContainingLedger ⟨freq⟩
      (target - max 1 count + 1)) = target - max 1 count + 1 := fun h =>
    hc ((u32_checkpoint_eq_iff _ _ freq hle hlt hf32 (Nat.lt_of_le_of_lt hst ht)).mp h)
  rw [computeCatchupledgers_genesis_small_count target count freq ht hn, if_neg hne,
    if_pos (by rw [hc1])]

/-- From genesis, when the smallest ledger to apply lies in a later checkpoint without being
its boundary, the range starts at the ledger after the previous boundary, which is at least 2
and not above the smallest ledger to apply. -/
theorem computeCatchupledgers_previous_boundary (target count freq : Nat)
    (ht : target < 4294967296) (hf : 0 < freq) (hf32 : freq < 4294967296)
    (hn : count + 1 < target)
    (hc : HistoryManager.checkpointContainingLedger ⟨freq⟩ (target - max 1 count + 1) ≠
      target - max 1 count + 1)
    (hc1 : HistoryManager.checkpointContainingLedger ⟨freq⟩ (target - max 1 count + 1) ≠
      HistoryManager.checkpointContainingLedger ⟨freq⟩ 1) :
    computeCatchupledgers 1 ⟨target, count⟩ ⟨freq⟩ =
      .ok ⟨HistoryManager.checkpointContainingLedger ⟨freq⟩ (target - max 1 count + 1) + 1 -
          freq,
        target + freq -
          HistoryManager.checkpointContainingLedger ⟨freq⟩ (target - max 1 count + 1)⟩ ∧
    2 ≤ HistoryManager.checkpointContainingLedger ⟨freq⟩ (target - max 1 count + 1) + 1 -
      freq ∧
    HistoryManager.checkpointContainingLedger ⟨freq⟩ (target - max 1 count + 1) + 1 - freq ≤
      target - max 1 count + 1 ∧
    HistoryManager.checkpointContainingLedger ⟨freq⟩ (target - max 1 count + 1) <
      target + freq := by
  obtain ⟨_, hs2, hst, _⟩ := smallestLedgerToApply_val target count ht hn
  obtain ⟨k, hk, hck, hle, hlt⟩ := checkpointContainingLedger_boundary freq
    (target - max 1 count + 1) hf
  obtain ⟨k1, hk1, hck1, hle1, hlt1⟩ := checkpointContainingLedger_boundary freq 1 hf
  have hne : ¬ u32 (HistoryManager.checkpointContainingLedger ⟨freq⟩
      (target - max 1 count + 1)) = target - max 1 count + 1 := fun h =>
    hc ((u32_checkpoint_eq_iff _ _ freq hle hlt hf32 (Nat.lt_of_le_of_lt hst ht)).mp h)
  have hne1 : ¬ u32 (HistoryManager.checkpointContainingLedger ⟨freq⟩
      (target - max 1 count + 1)) =
      u32 (HistoryManager.checkpointContainingLedger ⟨freq⟩ 1) := fun h =>
    hc1 ((u32_checkpoint_eq_first_iff _ _ _ freq k1 hlt (Nat.lt_of_le_of_lt hst ht) hf32 hk1 hck1 hlt1).mp h)
  rw [computeCatchupledgers_genesis_small_count target count freq ht hn, if_neg hne,
    if_neg hne1]
  generalize HistoryManager.checkpointContainingLedger ⟨freq⟩ (target - max 1 count + 1) = c
    at hc hc1 hck hle hlt hne hne1 ⊢
  generalize HistoryManager.checkpointContainingLedger ⟨freq⟩ 1 = c1
    at hc1 hck1 hle1 hlt1 hne1
  generalize target - max 1 count + 1 = s at hs2 hst hle hlt hc hne
  obtain ⟨m, hcm, hm2⟩ := checkpoint_not_first freq c c1 k k1 hk hk1 hck hck1 hlt1 hle1
    (by omega) hne1
  rw [last_branch_first c freq m hcm (by omega) (by omega) hf32,
    last_branch_count_32 target c freq m hcm (by omega) ht (by omega)]
  have hm : c + 1 - freq = m := by omega
  rw [hm]
  exact ⟨rfl, hm2, by omega, by omega⟩

/-- One checkpoint frequency before a checkpoint boundary that is not the first one lies a
checkpoint boundary. -/
theorem previous_boundary_is_boundary (freq c k m : Nat) (hck : c + 1 = k * freq)
    (hcm : c + 1 = m + freq) (hm : 1 ≤ m) :
    HistoryManager.isCheckpointBoundary ⟨freq⟩ (c - freq) = true := by
  simp only [HistoryManager.isCheckpointBoundary, beq_iff_eq]
  have h1 : c - freq + 1 = m := by omega
  rw [h1]
  have hk : 1 ≤ k := by
    rcases Nat.eq_zero_or_pos k with h | h
    · rw [h, Nat.zero_mul] at hck; omega
    · exact h
  obtain ⟨j, rfl⟩ : ∃ j, k = j + 1 := ⟨k - 1, by omega⟩
  rw [Nat.succ_mul] at hck
  have : m = j * freq := by omega
  rw [this]
  simp

/-- C21, as stated, fails: from genesis with target 2, count 0 and checkpoint frequency 2, the
smallest ledger to apply is 2, its checkpoint 3 is neither 2 nor the first checkpoint 1, and the
range is (3 - 2 + 1, 2 - 3 + 2) = (2, 1) as claimed; but the previous boundary 3 - 2 = 1 is the
last closed ledger itself, no buckets are applied and asking for the bucket-apply ledger
throws. -/
theorem C21_previous_boundary_at_genesis_applies_no_buckets :
    0 + 1 < 2 ∧
    HistoryManager.checkpointContainingLedger ⟨2⟩ (2 - max 1 0 + 1) = 3 ∧
    (3 : Nat) ≠ 2 - max 1 0 + 1 ∧
    HistoryManager.checkpointContainingLedger ⟨2⟩ 1 = 1 ∧
    ((3 : Int) - 2 + 1 = 2 ∧ (2 : Int) - 3 + 2 = 1) ∧
    CatchupRange.ctor 1 ⟨2, 0⟩ ⟨2⟩ = .ok ⟨⟨2, 1⟩, false⟩ ∧
    CatchupRange.getBucketApplyLedger ⟨⟨2, 1⟩, false⟩ = .error .logic_error :=
  ⟨by decide, by decide, by decide, by decide, by decide, rfl, rfl⟩

/-- C21, amended: from genesis with `count < target - 1` and `target + 1` in 32 bits, let
`s = target - max(1, count) + 1` and `c = checkpointContainingLedger(s)`. If `c = s` the range
is `(s + 1, target - s)` and buckets are applied at `s`. Otherwise, if `c` is not the first
checkpoint, the range is `(c - freq + 1, target - c + freq)`, and buckets are applied at the
previous checkpoint boundary `c - freq` except when that boundary is ledger 1, which happens
only for frequency 2, target 2 and count 0: then no buckets are applied. -/
theorem C21_bucket_apply_at_boundary_or_previous (target count freq : Nat)
    (ht : target + 1 < 4294967296) (hf : 0 < freq) (hf32 : freq < 4294967296)
    (hn : count + 1 < target) :
    (HistoryManager.checkpointContainingLedger ⟨freq⟩ (target - max 1 count + 1) =
        target - max 1 count + 1 →
      CatchupRange.ctor 1 ⟨target, count⟩ ⟨freq⟩ =
        .ok ⟨⟨target - max 1 count + 1 + 1, target - (target - max 1 count + 1)⟩, true⟩ ∧
      CatchupRange.getBucketApplyLedger
        ⟨⟨target - max 1 count + 1 + 1, target - (target - max 1 count + 1)⟩, true⟩ =
          .ok (target - max 1 count + 1)) ∧
    (HistoryManager.checkpointContainingLedger ⟨freq⟩ (target - max 1 count + 1) ≠
        target - max 1 count + 1 →
      HistoryManager.checkpointContainingLedger ⟨freq⟩ (target - max 1 count + 1) ≠
        HistoryManager.checkpointContainingLedger ⟨freq⟩ 1 →
      ∃ first cnt applyBuckets,
        CatchupRange.ctor 1 ⟨target, count⟩ ⟨freq⟩ = .ok ⟨⟨first, cnt⟩, applyBuckets⟩ ∧
        first + freq =
          HistoryManager.checkpointContainingLedger ⟨freq⟩ (target - max 1 count + 1) + 1 ∧
        cnt + HistoryManager.checkpointContainingLedger ⟨freq⟩ (target - max 1 count + 1) =
          target + freq ∧
        (applyBuckets = false ↔ (freq = 2 ∧ target = 2 ∧ count = 0)) ∧
        (applyBuckets = true →
          CatchupRange.getBucketApplyLedger ⟨⟨first, cnt⟩, applyBuckets⟩ =
            .ok (HistoryManager.checkpointContainingLedger ⟨freq⟩
              (target - max 1 count + 1) - freq) ∧
          HistoryManager.isCheckpointBoundary ⟨freq⟩
            (HistoryManager.checkpointContainingLedger ⟨freq⟩
              (target - max 1 count + 1) - freq) = true)) := by
  have ht32 : target < 4294967296 := by omega
  obtain ⟨_, hs2, hst, hs1⟩ := smallestLedgerToApply_val target count ht32 hn
  constructor
  · intro hc
    have hcomp := computeCatchupledgers_on_boundary target count freq ht32 hn hc
    have hadd : u32add (target - max 1 count + 1) 1 = target - max 1 count + 1 + 1 :=
      u32add_of_lt _ _ (by omega)
    rw [hadd] at hcomp
    constructor
    · simp only [CatchupRange.ctor, hcomp]
      have hgt : target - max 1 count + 1 + 1 > u32add 1 1 := by
        show target - max 1 count + 1 + 1 > 2
        omega
      simp only [decide_eq_true hgt]
    · simp only [CatchupRange.getBucketApplyLedger, Bool.not_true, Bool.false_eq_true,
        if_false]
      rw [u32sub_of_le _ _ (by omega) (by omega)]
      rfl
  · intro hc hc1
    obtain ⟨hcomp, hm2, hms, hct⟩ :=
      computeCatchupledgers_previous_boundary target count freq ht32 hf hf32 hn hc hc1
    obtain ⟨k, hk, hck, hle, hlt⟩ := checkpointContainingLedger_boundary freq
      (target - max 1 count + 1) hf
    have hmax : max 1 count = 1 ∧ count ≤ 1 ∨ max 1 count = count ∧ 1 < count := by
      rcases Nat.lt_or_ge 1 count with h | h
      · exact Or.inr ⟨Nat.max_eq_right (Nat.le_of_lt h), h⟩
      · exact Or.inl ⟨Nat.max_eq_left h, h⟩
    have hfreq2 : freq = 2 → target = 2 → count = 0 →
        HistoryManager.checkpointContainingLedger ⟨freq⟩ (target - max 1 count + 1) = 3 := by
      intro h1 h2 h3
      subst h1 h2 h3
      decide
    generalize HistoryManager.checkpointContainingLedger ⟨freq⟩ (target - max 1 count + 1) = c
      at hc hcomp hm2 hms hct hck hle hlt hfreq2 ⊢
    clear hc1
    generalize max 1 count = M at hmax hs2 hst hs1 hms hle hlt hc
    refine ⟨c + 1 - freq, target + freq - c, decide (c + 1 - freq > u32add 1 1), ?_, by omega,
      by omega, ?_, ?_⟩
    · simp only [CatchupRange.ctor, hcomp]
    · have h2 : u32add 1 1 = 2 := rfl
      rw [h2, decide_eq_false_iff_not]
      constructor
      · intro hle2
        have hm : c + 1 - freq = 2 := by omega
        have hcf : c = freq + 1 := by omega
        have hkf : k * freq = freq + 2 := by omega
        obtain ⟨j, rfl⟩ : ∃ j, k = j + 1 := ⟨k - 1, by omega⟩
        rw [Nat.succ_mul] at hkf
        have hj : j * freq = 2 := by omega
        have hdvd : freq ∣ 2 := ⟨j, by rw [Nat.mul_comm]; exact hj.symm⟩
        have hle2f : freq ≤ 2 := Nat.le_of_dvd (by decide) hdvd
        have hf12 : freq = 1 ∨ freq = 2 := by omega
        rcases hf12 with h1 | h2f
        · exfalso; omega
        · refine ⟨h2f, ?_, ?_⟩ <;> omega
      · rintro ⟨h1, h2t, h3⟩
        have := hfreq2 h1 h2t h3
        omega
    · intro hab
      have hgt : c + 1 - freq > 2 := by
        have h2 : u32add 1 1 = 2 := rfl
        rw [h2] at hab
        exact of_decide_eq_true hab
      constructor
      · simp only [CatchupRange.getBucketApplyLedger, hab, Bool.not_true, Bool.false_eq_true,
          if_false]
        rw [u32sub_of_le _ _ (by omega) (by omega)]
        have : c + 1 - freq - 1 = c - freq := by omega
        rw [this]
      · exact previous_boundary_is_boundary freq c k (c + 1 - freq) hck (by omega) (by omega)

/-- C21, amended, at concrete inputs: target 127 with count 1 and frequency 64 lies on a
boundary, and buckets are applied at 127; target 1000 with count 10 has `s = 991` in the
checkpoint 1023, and the range starts after the previous boundary 959. -/
theorem C21_bucket_apply_at_boundary_or_previous_witness :
    (CatchupRange.ctor 1 ⟨127, 1⟩ ⟨64⟩ =
        .ok ⟨⟨127 - max 1 1 + 1 + 1, 127 - (127 - max 1 1 + 1)⟩, true⟩ ∧
      CatchupRange.getBucketApplyLedger
        ⟨⟨127 - max 1 1 + 1 + 1, 127 - (127 - max 1 1 + 1)⟩, true⟩ =
          .ok (127 - max 1 1 + 1)) ∧
    HistoryManager.checkpointContainingLedger ⟨64⟩ (1000 - max 1 10 + 1) = 1023 ∧
    ∃ first cnt applyBuckets,
      CatchupRange.ctor 1 ⟨1000, 10⟩ ⟨64⟩ = .ok ⟨⟨first, cnt⟩, applyBuckets⟩ ∧
      first + 64 = HistoryManager.checkpointContainingLedger ⟨64⟩ (1000 - max 1 10 + 1) + 1 ∧
      cnt + HistoryManager.checkpointContainingLedger ⟨64⟩ (1000 - max 1 10 + 1) =
        1000 + 64 ∧
      (applyBuckets = false ↔ (64 = 2 ∧ 1000 = 2 ∧ 10 = 0)) ∧
      (applyBuckets = true →
        CatchupRange.getBucketApplyLedger ⟨⟨first, cnt⟩, applyBuckets⟩ =
          .ok (HistoryManager.checkpointContainingLedger ⟨64⟩ (1000 - max 1 10 + 1) - 64) ∧
        HistoryManager.isCheckpointBoundary ⟨64⟩
          (HistoryManager.checkpointContainingLedger ⟨64⟩ (1000 - max 1 10 + 1) - 64) =
            true) :=
  ⟨(C21_bucket_apply_at_boundary_or_previous 127 1 64 (by decide) (by decide) (by decide)
      (by decide)).1 (by decide),
    by decide,
    (C21_bucket_apply_at_boundary_or_previous 1000 10 64 (by decide) (by decide) (by decide)
      (by decide)).2 (by decide) (by decide)⟩

/-- A ledger that is not a checkpoint boundary is not the checkpoint containing it. -/
theorem checkpoint_ne_of_not_boundary (freq s : Nat) (hf : 0 < freq)
    (hnb : HistoryManager.isCheckpointBoundary ⟨freq⟩ s = false) :
    HistoryManager.checkpointContainingLedger ⟨freq⟩ s ≠ s := by
  intro hc
  obtain ⟨k, _, hck, _, _⟩ := checkpointContainingLedger_boundary freq s hf
  rw [hc] at hck
  have : HistoryManager.isCheckpointBoundary ⟨freq⟩ s = true := by
    simp only [HistoryManager.isCheckpointBoundary, beq_iff_eq, hck]
    simp
  rw [this] at hnb
  cases hnb

/-- From genesis with a count of at least `target - 1` the whole chain is replayed and no
buckets are applied. -/
theorem ctor_full_replay_large_count (target count freq : Nat) (h1 : 1 < target)
    (ht : target < 4294967296) (hn : count ≥ target - 1) :
    CatchupRange.ctor 1 ⟨target, count⟩ ⟨freq⟩ = .ok ⟨⟨2, target - 1⟩, false⟩ := by
  have hfalse : decide ((2 : Nat) > u32add 1 1) = false := rfl
  have e0 : ¬ (1 : Nat) = 0 := by decide
  have e1 : ¬ target ≤ 1 := by omega
  have e2 : ¬ target = CatchupConfiguration.CURRENT := by
    simp only [CatchupConfiguration.CURRENT]; omega
  have e3 : ¬ (1 : Nat) > 1 := by decide
  have hsub : u32sub target 1 = target - 1 := u32sub_of_le _ _ (by omega) ht
  have hadd : u32add 1 1 = 2 := rfl
  have hcomp : computeCatchupledgers 1 ⟨target, count⟩ ⟨freq⟩ = .ok ⟨2, target - 1⟩ := by
    simp only [computeCatchupledgers, if_neg e0, if_neg e1, if_neg e2, GENESIS_LEDGER_SEQ,
      if_neg e3, hsub, if_pos hn, hadd]
  simp only [CatchupRange.ctor, hcomp, hfalse]

/-- C22: from genesis, for a 32-bit target above 1, the constructed range is the full replay
`(first = 2, count = target - 1)` with `mApplyBuckets = false` whenever `count >= target - 1`,
and also whenever `count < target - 1` but the smallest ledger to apply,
`target - max(1, count) + 1`, is not a checkpoint boundary and its checkpoint is the first
checkpoint (the one containing ledger 1). -/
theorem C22_full_replay_from_genesis (target count freq : Nat) (h1 : 1 < target)
    (ht : target < 4294967296) :
    (count ≥ target - 1 →
      CatchupRange.ctor 1 ⟨target, count⟩ ⟨freq⟩ = .ok ⟨⟨2, target - 1⟩, false⟩) ∧
    (count < target - 1 → 0 < freq → freq < 4294967296 →
      HistoryManager.isCheckpointBoundary ⟨freq⟩ (target - max 1 count + 1) = false →
      HistoryManager.checkpointContainingLedger ⟨freq⟩ (target - max 1 count + 1) =
        HistoryManager.checkpointContainingLedger ⟨freq⟩ 1 →
      CatchupRange.ctor 1 ⟨target, count⟩ ⟨freq⟩ = .ok ⟨⟨2, target - 1⟩, false⟩) := by
  refine ⟨ctor_full_replay_large_count target count freq h1 ht, ?_⟩
  intro hn hf hf32 hnb hc1
  have hfalse : decide ((2 : Nat) > u32add 1 1) = false := rfl
  have hc := checkpoint_ne_of_not_boundary freq _ hf hnb
  have hcomp := computeCatchupledgers_in_first_checkpoint target count freq ht hf hf32
    (by omega) hc hc1
  simp only [CatchupRange.ctor, hcomp, hfalse]

/-- C22 at concrete inputs: target 10 with count 100 is replayed in full, and so is target 50
with count 10 at frequency 64, whose smallest ledger to apply, 41, lies in the first checkpoint
(boundary 63). -/
theorem C22_full_replay_from_genesis_witness :
    CatchupRange.ctor 1 ⟨10, 100⟩ ⟨64⟩ = .ok ⟨⟨2, 10 - 1⟩, false⟩ ∧
    HistoryManager.checkpointContainingLedger ⟨64⟩ (50 - max 1 10 + 1) = 63 ∧
    CatchupRange.ctor 1 ⟨50, 10⟩ ⟨64⟩ = .ok ⟨⟨2, 50 - 1⟩, false⟩ :=
  ⟨(C22_full_replay_from_genesis 10 100 64 (by decide) (by decide)).1 (by decide),
    by decide,
    (C22_full_replay_from_genesis 50 10 64 (by decide) (by decide)).2 (by decide) (by decide)
      (by decide) (by decide) (by decide)⟩

/-- `getLast` of a range that starts after ledger `a` and counts `target - a` ledgers, all in
32-bit arithmetic, is the target. -/
theorem getLast_after (a target : Nat) (ha : a < 4294967296) (ht : target < 4294967296)
    (b : Bool) : CatchupRange.getLast ⟨⟨u32add a 1, u32sub target a⟩, b⟩ = target := by
  simp only [CatchupRange.getLast, u32add, u32sub]
  omega

/-- `getLast` of the range of the last branch of `computeCatchupledgers`: whatever the stored
checkpoint `x` is, also above the target, the wrap-around of `target - x` cancels modulo
`2 ^ 32`. -/
theorem getLast_previous (x target freq : Nat) (hx : x < 4294967296)
    (ht : target < 4294967296) (hf32 : freq < 4294967296) (b : Bool) :
    CatchupRange.getLast
      ⟨⟨u32add (u32sub x freq) 1, u32add (u32sub target x) freq⟩, b⟩ = target := by
  simp only [CatchupRange.getLast, u32add, u32sub]
  omega

/-- C29: for every last closed ledger of at least 1, every 32-bit target above it, every count
and every 32-bit checkpoint frequency, `computeCatchupledgers` returns a range and `getLast` of
that range is the target, in every branch, with the arithmetic of the code modulo `2 ^ 32`. -/
theorem C29_getLast_is_target (lastClosed target count freq : Nat) (h1 : 1 ≤ lastClosed)
    (h2 : lastClosed < target) (ht : target < 4294967296) (hf32 : freq < 4294967296) :
    ∃ l, computeCatchupledgers lastClosed ⟨target, count⟩ ⟨freq⟩ = .ok l ∧
      (∀ b, CatchupRange.getLast ⟨l, b⟩ = target) ∧
      ∃ r, CatchupRange.ctor lastClosed ⟨target, count⟩ ⟨freq⟩ = .ok r ∧
        r.getLast = target := by
  suffices hmain : ∃ l, computeCatchupledgers lastClosed ⟨target, count⟩ ⟨freq⟩ = .ok l ∧
      (∀ b, CatchupRange.getLast ⟨l, b⟩ = target) by
    obtain ⟨l, hl, hlast⟩ := hmain
    exact ⟨l, hl, hlast, ⟨l, decide (l.mFirst > u32add lastClosed 1)⟩,
      by simp only [CatchupRange.ctor, hl], hlast _⟩
  have e0 : ¬ lastClosed = 0 := by omega
  have e1 : ¬ target ≤ lastClosed := by omega
  have e2 : ¬ target = CatchupConfiguration.CURRENT := by
    simp only [CatchupConfiguration.CURRENT]; omega
  simp only [computeCatchupledgers, if_neg e0, if_neg e1, if_neg e2, GENESIS_LEDGER_SEQ,
    HistoryManager.getCheckpointFrequency]
  have hx : ∀ n, u32 n < 4294967296 := fun n => Nat.mod_lt _ (by decide)
  have hs : u32add (u32sub target (max 1 count)) 1 < 4294967296 := Nat.mod_lt _ (by decide)
  by_cases hL : lastClosed > 1
  · rw [if_pos hL]
    exact ⟨_, rfl, getLast_after lastClosed target (by omega) ht⟩
  · rw [if_neg hL]
    by_cases hn : count ≥ u32sub target 1
    · rw [if_pos hn]
      exact ⟨_, rfl, getLast_after 1 target (by decide) ht⟩
    · rw [if_neg hn]
      by_cases hc : u32 (HistoryManager.checkpointContainingLedger ⟨freq⟩
          (u32add (u32sub target (max 1 count)) 1)) = u32add (u32sub target (max 1 count)) 1
      · rw [if_pos hc]
        exact ⟨_, rfl, getLast_after _ target hs ht⟩
      · rw [if_neg hc]
        by_cases hc1 : u32 (HistoryManager.checkpointContainingLedger ⟨freq⟩
            (u32add (u32sub target (max 1 count)) 1)) =
            u32 (HistoryManager.checkpointContainingLedger ⟨freq⟩ 1)
        · rw [if_pos hc1]
          exact ⟨_, rfl, getLast_after 1 target (by decide) ht⟩
        · rw [if_neg hc1]
          exact ⟨_, rfl, getLast_previous _ target freq (hx _) ht hf32⟩

/-- C29 at concrete inputs: from genesis with target 1000, count 10 and frequency 64 the stored
checkpoint 1023 is above the target, `target - 1023` wraps to 4294967273, the range is (960, 41)
and its last ledger is 1000. -/
theorem C29_getLast_is_target_witness :
    computeCatchupledgers 1 ⟨1000, 10⟩ ⟨64⟩ = .ok ⟨960, 41⟩ ∧
    u32sub 1000 1023 = 4294967273 ∧
    ∃ l, computeCatchupledgers 1 ⟨1000, 10⟩ ⟨64⟩ = .ok l ∧
      (∀ b, CatchupRange.getLast ⟨l, b⟩ = 1000) ∧
      ∃ r, CatchupRange.ctor 1 ⟨1000, 10⟩ ⟨64⟩ = .ok r ∧ r.getLast = 1000 :=
  ⟨rfl, by decide,
    C29_getLast_is_target 1 1000 10 64 (by decide) (by decide) (by decide) (by decide)⟩

/-- For a count below `target - 1` the start of the requested window, as an integer, is the
smallest ledger to apply. -/
theorem window_start_small_count (target count : Nat) (hn : count + 1 < target) :
    (target : Int) - max 1 (count : Int) + 1 = ((target - max 1 count + 1 : Nat) : Int) := by
  rcases Nat.lt_or_ge 1 count with h | h
  · rw [Nat.max_eq_right (Nat.le_of_lt h), max_eq_right (by omega)]
    omega
  · rw [Nat.max_eq_left h, max_eq_left (by omega)]
    omega

/-- C30, as stated, fails: from genesis with target 2 and count 3 the window start
`s = target - max(1, count) + 1` is 0, as an integer and in the 32-bit arithmetic of the code;
the range is (2, 1), and the ledger before the first replayed one, 1, is not at most `s`. -/
theorem C30_window_start_below_genesis :
    computeCatchupledgers 1 ⟨2, 3⟩ ⟨64⟩ = .ok ⟨2, 1⟩ ∧
    (2 : Int) - max 1 3 + 1 = 0 ∧
    u32add (u32sub 2 (max 1 3)) 1 = 0 ∧
    ¬ ((2 : Int) - 1 ≤ (2 : Int) - max 1 3 + 1) :=
  ⟨rfl, by decide, by decide, by decide⟩

/-- C30, amended: from genesis, for every 32-bit target above 1, every count and every 32-bit
checkpoint frequency of at least 1, with `s = target - max(1, count) + 1` as an integer, the
ledger before the first replayed ledger is at most `max(1, s)`: at most `s` when the window
starts at or after genesis, and ledger 1 otherwise. Whenever `mApplyBuckets` is true the count
is below `target - 1` and the bucket-apply ledger is the greatest checkpoint boundary that is at
most `s`. -/
theorem C30_window_covered_from_genesis (target count freq : Nat) (r : CatchupRange) (h1 : 1 < target)
    (ht : target < 4294967296) (hf : 0 < freq) (hf32 : freq < 4294967296)
    (hr : CatchupRange.ctor 1 ⟨target, count⟩ ⟨freq⟩ = .ok r) :
    ((r.mLedgers.mFirst : Int) - 1 ≤ max 1 ((target : Int) - max 1 (count : Int) + 1)) ∧
    (r.mApplyBuckets = true →
      count + 1 < target ∧
      ∃ a, r.getBucketApplyLedger = .ok a ∧
        HistoryManager.isCheckpointBoundary ⟨freq⟩ a = true ∧
        a ≤ target - max 1 count + 1 ∧
        ∀ b, HistoryManager.isCheckpointBoundary ⟨freq⟩ b = true →
          b ≤ target - max 1 count + 1 → b ≤ a) := by
  have h2 : u32add 1 1 = 2 := rfl
  by_cases hn : count ≥ target - 1
  · have hres := ctor_full_replay_large_count target count freq h1 ht hn
    rw [hres] at hr
    cases hr
    exact ⟨le_max_of_le_left (by norm_num), fun h => by cases h⟩
  · have hn1 : count + 1 < target := by omega
    obtain ⟨_, hs2, hst, _⟩ := smallestLedgerToApply_val target count ht hn1
    rw [window_start_small_count target count hn1]
    obtain ⟨k, hk, hck, hle, hlt⟩ := checkpointContainingLedger_boundary freq
      (target - max 1 count + 1) hf
    by_cases hc : HistoryManager.checkpointContainingLedger ⟨freq⟩
        (target - max 1 count + 1) = target - max 1 count + 1
    · have hcomp := computeCatchupledgers_on_boundary target count freq ht hn1 hc
      simp only [CatchupRange.ctor, hcomp, h2, Except.ok.injEq] at hr
      subst hr
      dsimp only
      rw [hc] at hck
      generalize target - max 1 count + 1 = s at hs2 hst hck ⊢
      have hadd : u32add s 1 ≤ s + 1 := Nat.mod_le _ _
      refine ⟨le_max_of_le_right (by omega), ?_⟩
      intro hab
      have hgt : u32add s 1 > 2 := of_decide_eq_true hab
      have hlt32 : s + 1 < 4294967296 := by
        unfold u32add at hgt
        omega
      have hs1 : u32add s 1 = s + 1 := u32add_of_lt s 1 hlt32
      have hgt2 : s + 1 > 2 := by omega
      refine ⟨hn1, s, ?_, ?_, Nat.le_refl _, fun b _ hb => hb⟩
      · simp only [CatchupRange.getBucketApplyLedger, hs1, decide_eq_true hgt2, Bool.not_true,
          Bool.false_eq_true, if_false]
        rw [u32sub_of_le _ _ (by omega) hlt32, Nat.add_sub_cancel]
      · simp only [HistoryManager.isCheckpointBoundary, beq_iff_eq, hck]
        simp
    · by_cases hc1 : HistoryManager.checkpointContainingLedger ⟨freq⟩
          (target - max 1 count + 1) = HistoryManager.checkpointContainingLedger ⟨freq⟩ 1
      · have hcomp := computeCatchupledgers_in_first_checkpoint target count freq ht hf hf32
          hn1 hc hc1
        simp only [CatchupRange.ctor, hcomp, h2, Except.ok.injEq] at hr
        subst hr
        dsimp only
        generalize target - max 1 count + 1 = s at hs2 ⊢
        exact ⟨le_max_of_le_right (by omega), fun h => by cases h⟩
      · obtain ⟨hcomp, hm2, hms, hct⟩ :=
          computeCatchupledgers_previous_boundary target count freq ht hf hf32 hn1 hc hc1
        simp only [CatchupRange.ctor, hcomp, h2, Except.ok.injEq] at hr
        subst hr
        dsimp only
        clear hc1 hcomp
        generalize HistoryManager.checkpointContainingLedger ⟨freq⟩
          (target - max 1 count + 1) = c at hc hm2 hms hct hck hle hlt ⊢
        generalize target - max 1 count + 1 = s at hs2 hst hc hms hle hlt ⊢
        refine ⟨le_max_of_le_right (by omega), ?_⟩
        intro hab
        have hgt : c + 1 - freq > 2 := of_decide_eq_true hab
        have hbd := previous_boundary_is_boundary freq c k (c + 1 - freq) hck (by omega)
          (by omega)
        refine ⟨hn1, c - freq, ?_, hbd, by omega, ?_⟩
        · simp only [CatchupRange.getBucketApplyLedger, decide_eq_true hgt, Bool.not_true,
            Bool.false_eq_true, if_false]
          rw [u32sub_of_le _ _ (by omega) (by omega)]
          have : c + 1 - freq - 1 = c - freq := by omega
          rw [this]
        · intro b hb hbs
          by_contra hgtb
          simp only [HistoryManager.isCheckpointBoundary, beq_iff_eq] at hb
          have hmodc : (c + 1) % freq = 0 := by rw [hck]; simp
          have := boundary_unique freq b c hb hmodc (by omega) (by omega)
          omega

/-- C30, amended, at concrete inputs: from genesis with target 1000, count 10 and frequency 64
the window starts at 991, the range starts at 960 and buckets are applied at 959, the greatest
checkpoint boundary at or before 991. -/
theorem C30_window_covered_from_genesis_witness :
    CatchupRange.ctor 1 ⟨1000, 10⟩ ⟨64⟩ = .ok ⟨⟨960, 41⟩, true⟩ ∧
    CatchupRange.getBucketApplyLedger ⟨⟨960, 41⟩, true⟩ = .ok 959 ∧
    (((960 : Nat) : Int) - 1 ≤ max 1 (((1000 : Nat) : Int) - max 1 ((10 : Nat) : Int) + 1)) ∧
    ((⟨⟨960, 41⟩, true⟩ : CatchupRange).mApplyBuckets = true →
      10 + 1 < 1000 ∧
      ∃ a, CatchupRange.getBucketApplyLedger ⟨⟨960, 41⟩, true⟩ = .ok a ∧
        HistoryManager.isCheckpointBoundary ⟨64⟩ a = true ∧
        a ≤ 1000 - max 1 10 + 1 ∧
        ∀ b, HistoryManager.isCheckpointBoundary ⟨64⟩ b = true →
          b ≤ 1000 - max 1 10 + 1 → b ≤ a) :=
  ⟨rfl, rfl,
    C30_window_covered_from_genesis 1000 10 64 ⟨⟨960, 41⟩, true⟩ (by decide) (by decide)
      (by decide) (by decide) rfl⟩

/-! ## PathPayment2 -/

/-- C24: `doCheckValid` returns false if and only if `sendAmount <= 0`, or `destMinAmount < 0`,
or the send asset, the destination asset or some asset of the path is invalid, and the result
code is then PATH_PAYMENT_MALFORMED; otherwise it returns true and leaves the result as it
was; in particular a destination minimum of 0 with a positive send amount and valid assets is
accepted. -/
theorem C24_malformed_iff_bad_amount_or_asset (isAssetValid : Asset → Bool) (op : PathPayment2Op) (res : PathPaymentResult)
    (ledgerVersion : Nat) :
    ((PathPayment2OpFrame.doCheckValid isAssetValid op res ledgerVersion).1 = false ↔
      (op.sendAmount ≤ 0 ∨ op.destMinAmount < 0 ∨ isAssetValid op.sendAsset = false ∨
        isAssetValid op.destAsset = false ∨ ∃ a ∈ op.path, isAssetValid a = false)) ∧
    ((PathPayment2OpFrame.doCheckValid isAssetValid op res ledgerVersion).1 = false →
      (PathPayment2OpFrame.doCheckValid isAssetValid op res ledgerVersion).2 =
        { res with code := .PATH_PAYMENT_MALFORMED }) ∧
    ((PathPayment2OpFrame.doCheckValid isAssetValid op res ledgerVersion).1 = true →
      (PathPayment2OpFrame.doCheckValid isAssetValid op res ledgerVersion).2 = res) ∧
    (0 < op.sendAmount → op.destMinAmount = 0 → isAssetValid op.sendAsset = true →
      isAssetValid op.destAsset = true → (∀ a ∈ op.path, isAssetValid a = true) →
      PathPayment2OpFrame.doCheckValid isAssetValid op res ledgerVersion = (true, res)) := by
  have hall : (op.path.all isAssetValid = true) ↔ ∀ a ∈ op.path, isAssetValid a = true :=
    List.all_eq_true
  unfold PathPayment2OpFrame.doCheckValid
  refine ⟨?_, ?_, ?_, ?_⟩
  · split_ifs with h1 h2 h3
    · constructor
      · intro _
        rcases h1 with h | h
        · exact Or.inl h
        · exact Or.inr (Or.inl h)
      · intro _; rfl
    · constructor
      · intro _
        simp only [Bool.or_eq_true, Bool.not_eq_true'] at h2
        rcases h2 with h | h
        · exact Or.inr (Or.inr (Or.inl h))
        · exact Or.inr (Or.inr (Or.inr (Or.inl h)))
      · intro _; rfl
    · constructor
      · intro _
        simp only [Bool.not_eq_true'] at h3
        refine Or.inr (Or.inr (Or.inr (Or.inr ?_)))
        by_contra hno
        have : op.path.all isAssetValid = true := hall.mpr (fun a ha => by
          cases hv : isAssetValid a
          · exact absurd ⟨a, ha, hv⟩ hno
          · rfl)
        rw [this] at h3
        cases h3
      · intro _; rfl
    · constructor
      · intro h; cases h
      · intro h
        exfalso
        simp only [Bool.or_eq_true, Bool.not_eq_true', not_or, Bool.not_eq_false] at h2 h3
        rcases h with h | h | h | h | ⟨a, ha, hv⟩
        · exact h1 (Or.inl h)
        · exact h1 (Or.inr h)
        · rw [h2.1] at h; cases h
        · rw [h2.2] at h; cases h
        · have := hall.mp h3 a ha
          rw [this] at hv; cases hv
  · split_ifs <;> intro h <;> first | rfl | cases h
  · split_ifs <;> intro h <;> first | rfl | cases h
  · intro hs hd hv1 hv2 hp
    have h1 : ¬ (op.sendAmount ≤ 0 ∨ op.destMinAmount < 0) := by omega
    have h3 : op.path.all isAssetValid = true := hall.mpr hp
    simp only [if_neg h1, hv1, hv2, h3, Bool.not_true, Bool.or_self, Bool.false_eq_true,
      if_false]

/-- C24 at concrete inputs, with every asset but asset 0 valid: the test payments with a
destination minimum of -1, with a send amount of -1 and with an invalid asset in the path are
malformed; a destination minimum of 0 is accepted. -/
theorem C24_malformed_iff_bad_amount_or_asset_witness :
    (PathPayment2OpFrame.doCheckValid (fun a => decide (a ≠ exampleCur 0))
      ⟨exampleCur 1, 10, 7, exampleCur 1, -1, []⟩ examplePathPaymentApplied.result 11).1 =
        false ∧
    (PathPayment2OpFrame.doCheckValid (fun a => decide (a ≠ exampleCur 0))
      ⟨exampleCur 1, -1, 7, exampleCur 1, 10, []⟩ examplePathPaymentApplied.result 11).2 =
        { examplePathPaymentApplied.result with code := .PATH_PAYMENT_MALFORMED } ∧
    (PathPayment2OpFrame.doCheckValid (fun a => decide (a ≠ exampleCur 0))
      ⟨exampleCur 1, 10, 7, exampleCur 1, 10, [exampleCur 0]⟩
        examplePathPaymentApplied.result 11).1 = false ∧
    PathPayment2OpFrame.doCheckValid (fun a => decide (a ≠ exampleCur 0))
      ⟨exampleCur 1, 10, 7, exampleCur 1, 0, []⟩ examplePathPaymentApplied.result 11 =
        (true, examplePathPaymentApplied.result) :=
  ⟨(C24_malformed_iff_bad_amount_or_asset (fun a => decide (a ≠ exampleCur 0))
      ⟨exampleCur 1, 10, 7, exampleCur 1, -1, []⟩ examplePathPaymentApplied.result 11).1.mpr
      (Or.inr (Or.inl (by decide))),
    (C24_malformed_iff_bad_amount_or_asset (fun a => decide (a ≠ exampleCur 0))
      ⟨exampleCur 1, -1, 7, exampleCur 1, 10, []⟩ examplePathPaymentApplied.result 11).2.1
      ((C24_malformed_iff_bad_amount_or_asset (fun a => decide (a ≠ exampleCur 0))
        ⟨exampleCur 1, -1, 7, exampleCur 1, 10, []⟩ examplePathPaymentApplied.result 11).1.mpr
        (Or.inl (by decide))),
    (C24_malformed_iff_bad_amount_or_asset (fun a => decide (a ≠ exampleCur 0))
      ⟨exampleCur 1, 10, 7, exampleCur 1, 10, [exampleCur 0]⟩
        examplePathPaymentApplied.result 11).1.mpr
      (Or.inr (Or.inr (Or.inr (Or.inr ⟨exampleCur 0, by decide, by decide⟩)))),
    (C24_malformed_iff_bad_amount_or_asset (fun a => decide (a ≠ exampleCur 0))
      ⟨exampleCur 1, 10, 7, exampleCur 1, 0, []⟩ examplePathPaymentApplied.result 11).2.2.2
      (by decide) rfl (by decide) (by decide) (by decide)⟩

/-- The invariant of the path loop: when the loop completes, the offers of the result are the
trails of its exchanges, the last exchange first, followed by the offers the result held
before. -/
theorem walkPath_offers {σ : Type} (ops : LedgerOps σ) (sourceID : AccountID)
    (path : List Asset) : ∀ (st st1 : WalkState σ),
    PathPayment2OpFrame.walkPath ops sourceID path st = .ok (st1, true) →
    st1.result.offers =
      (PathPayment2OpFrame.hopTrails ops sourceID path st.ltx st.curA st.curAAmount
        st.result.offers.length).reverse.flatten ++ st.result.offers := by
  induction path with
  | nil =>
    intro st st1 h
    simp only [PathPayment2OpFrame.walkPath, Except.ok.injEq, Prod.mk.injEq, and_true] at h
    subst h
    simp [PathPayment2OpFrame.hopTrails]
  | cons curB rest ih =>
    intro st st1 h
    unfold PathPayment2OpFrame.walkPath at h
    unfold PathPayment2OpFrame.hopTrails
    by_cases heq : st.curA = curB
    · rw [if_pos heq] at h
      rw [if_pos heq]
      exact ih st st1 h
    · rw [if_neg heq] at h
      rw [if_neg heq]
      by_cases hiss : (!curB.isNative && !ops.accountExists st.ltx (getIssuer curB)) = true
      · rw [if_pos hiss] at h
        simp only [Except.ok.injEq, Prod.mk.injEq, Bool.false_eq_true, and_false] at h
      · rw [if_neg hiss] at h
        rw [if_neg hiss]
        dsimp only at h ⊢
        cases hr : (ops.convertWithOffers st.ltx sourceID st.curA st.curAAmount curB
            (ops.MAX_OFFERS_TO_CROSS - (st.result.offers.length : Int))).result with
        | eOK =>
          simp only [hr] at h
          by_cases hass : st.curAAmount <
              (ops.convertWithOffers st.ltx sourceID st.curA st.curAAmount curB
                (ops.MAX_OFFERS_TO_CROSS - (st.result.offers.length : Int))).actualCurASent
          · rw [if_pos hass] at h
            cases h
          · rw [if_neg hass] at h
            rw [if_pos ⟨rfl, hass⟩]
            have := ih _ st1 h
            rw [this]
            simp only [List.length_append, List.reverse_cons, List.flatten_append,
              List.flatten_cons, List.flatten_nil, List.append_nil, List.append_assoc]
            rw [Nat.add_comm]
        | ePartial =>
          simp only [hr, Except.ok.injEq, Prod.mk.injEq, Bool.false_eq_true, and_false] at h
        | eFilterStop =>
          simp only [hr, Except.ok.injEq, Prod.mk.injEq, Bool.false_eq_true, and_false] at h
        | eCrossedTooMany =>
          simp only [hr, Except.ok.injEq, Prod.mk.injEq, Bool.false_eq_true, and_false] at h

/-- The last step of `doApply` leaves the offers of the result as they are. -/
theorem creditDestination_offers {σ : Type} (ops : LedgerOps σ) (op : PathPayment2Op)
    (st : WalkState σ) :
    (PathPayment2OpFrame.creditDestination ops op st).result.offers = st.result.offers := by
  unfold PathPayment2OpFrame.creditDestination
  split
  · rfl
  · dsimp only
    split <;> rfl

/-- C25: for every successful `doApply`, the offers of the result are the offer trails of the
exchanges of the path loop, grouped by exchange in reverse order: the trail of the last
exchange first and the trail of the first exchange last, each trail in the order in which
`convertWithOffers` produced it. -/
theorem C25_offers_grouped_in_reverse_hop_order {σ : Type} (ops : LedgerOps σ) (op : PathPayment2Op) (sourceID : AccountID)
    (ltx : σ) (out : ApplyOutcome σ)
    (h : PathPayment2OpFrame.doApply ops op sourceID ltx = .ok out)
    (happ : out.applied = true) :
    ∃ ltx1, PathPayment2OpFrame.debitSource ops op sourceID ltx = .ok (.inr ltx1) ∧
      out.result.offers =
        (PathPayment2OpFrame.hopTrails ops sourceID (PathPayment2OpFrame.fullPath op).tail
          ltx1 op.sendAsset op.sendAmount 0).reverse.flatten := by
  unfold PathPayment2OpFrame.doApply at h
  dsimp only at h
  split at h
  · cases h
  · simp only [Except.ok.injEq] at h
    subst h
    cases happ
  · rename_i ltx1 hdebit
    refine ⟨ltx1, hdebit, ?_⟩
    split at h
    · simp only [Except.ok.injEq] at h
      subst h
      cases happ
    · split at h
      · cases h
      · simp only [Except.ok.injEq] at h
        subst h
        cases happ
      · rename_i st hwalk
        have hoff := walkPath_offers ops sourceID _ _ st hwalk
        simp only [List.length_nil, List.append_nil] at hoff
        simp only [Except.ok.injEq] at h
        subst h
        rw [← hoff]
        exact creditDestination_offers ops op st

/-- C25 on the payments of the tests: along the assets 1, 2, 3, 4 the exchanges cross the
offers 1, 2 and 3 in this order and the result lists them as 3, 2, 1; along the loop
1, 2, 3, 4, 1, 2, 3, 4 the result lists the offers 3, 2, 1, 4, 3, 2, 1. -/
theorem C25_offers_grouped_in_reverse_hop_order_witness :
    PathPayment2OpFrame.doApply exampleLedgerOps examplePathPayment 5 () =
      .ok examplePathPaymentApplied ∧
    examplePathPaymentApplied.applied = true ∧
    PathPayment2OpFrame.hopTrails exampleLedgerOps 5
        (PathPayment2OpFrame.fullPath examplePathPayment).tail () (exampleCur 1) 80 0 =
      [[⟨12, 1, exampleCur 2, 40, exampleCur 1, 80⟩],
        [⟨23, 2, exampleCur 3, 20, exampleCur 2, 40⟩],
        [⟨34, 3, exampleCur 4, 10, exampleCur 3, 20⟩]] ∧
    (PathPayment2OpFrame.doApply exampleLedgerOps exampleLoopPathPayment 5 ()).map
        (fun out => (out.applied, out.result.offers.map (fun o => o.offerID))) =
      .ok (true, [3, 2, 1, 4, 3, 2, 1]) ∧
    ∃ ltx1, PathPayment2OpFrame.debitSource exampleLedgerOps examplePathPayment 5 () =
        .ok (.inr ltx1) ∧
      examplePathPaymentApplied.result.offers =
        (PathPayment2OpFrame.hopTrails exampleLedgerOps 5
          (PathPayment2OpFrame.fullPath examplePathPayment).tail ltx1
          examplePathPayment.sendAsset examplePathPayment.sendAmount 0).reverse.flatten :=
  ⟨rfl, rfl, rfl, rfl,
    C25_offers_grouped_in_reverse_hop_order exampleLedgerOps examplePathPayment 5 ()
      examplePathPaymentApplied rfl rfl⟩

/-! ## Completion events of a catch-up run -/

/-- C23 (fails on the failure path): a run that succeeds emits `APPLIED_TRANSACTIONS`,
`FINISHED` and then the catch-up finished notification, which is its last event; a run that
fails emits the notification first and `FAILED` after it. For the work whose archive tip (100) is
older than the last closed ledger (127) the poll returns `WORK_FAILURE`, and the events of the
failure handler are the notification followed by `FAILED`, so the notification is not the last
event of the run. -/
theorem C23_FAILED_is_reported_after_the_notification :
    (∀ w : CatchupWork, w.onSuccess.mEvents = w.mEvents ++
      [.progress .APPLIED_TRANSACTIONS w.mLastApplied.ledgerSeq,
        .progress .FINISHED w.mLastApplied.ledgerSeq, .historyCaughtup]) ∧
    (∀ w : CatchupWork, w.onFailureRaise.mEvents =
      w.mEvents ++ [.historyCaughtup, .progress .FAILED 0]) ∧
    exampleRemoteOlderWork.doWork exampleCatchupEnv =
      .ok (exampleRemoteOlderWork, State.WORK_FAILURE) ∧
    exampleRemoteOlderWork.onFailureRaise.mEvents =
      [.historyCaughtup, .progress .FAILED 0] ∧
    exampleRemoteOlderWork.onFailureRaise.mEvents.getLast? = some (.progress .FAILED 0) ∧
    exampleRemoteOlderWork.onFailureRaise.mEvents.getLast? ≠ some .historyCaughtup :=
  ⟨fun _ => rfl, fun _ => rfl, rfl, rfl, rfl, by decide⟩

/-! ## Triggering the next ledger -/

/-- `recvTransaction` changes nothing but the pool of received transactions. -/
theorem recvTransaction_frame (app : Application) (h : HerderImpl) (tx : TransactionFrame) :
    (h.recvTransaction app tx).2 =
      { h with mReceivedTransactions := (h.recvTransaction app tx).2.mReceivedTransactions } := by
  unfold HerderImpl.recvTransaction
  split
  · rfl
  · split_ifs <;> rfl

/-- The loop of `recvTransactions` changes nothing but the pool of received transactions. -/
theorem recvTransactionsLoop_frame (app : Application) (txs : List TransactionFrame) :
    ∀ acc : Bool × HerderImpl,
      (recvTransactionsLoop app txs acc).2 =
        { acc.2 with
          mReceivedTransactions := (recvTransactionsLoop app txs acc).2.mReceivedTransactions } := by
  induction txs with
  | nil => intro acc; rfl
  | cons tx rest ih =>
    intro acc
    simp only [recvTransactionsLoop]
    rw [ih]
    dsimp only
    rw [recvTransaction_frame]

/-- C28: `triggerNextLedger` returns the Herder as it was, with no nomination, when the node is
not tracking or the ledger manager is not synced. When the node is tracking and synced, a
trigger for a ledger other than the last closed ledger sequence plus one (the 32-bit sum the code
computes) leaves the nominations, `mLastTrigger` and `mCurrentValue` as they were; a trigger for
exactly that ledger appends one nomination, for that slot and with the new `mCurrentValue`, sets
`mLastTrigger` to the current time and `mCurrentValue` to the encoded candidate with the desired
base fee. The 32-bit sum is the plain sum whenever that fits in 32 bits. -/
theorem C28_trigger_nominates_iff_next_ledger (app : Application) (h : HerderImpl)
    (ledgerSeqToTrigger : Nat) :
    ((h.mTrackingSCP = none ∨ app.isSynced = false) →
      h.triggerNextLedger app ledgerSeqToTrigger = h) ∧
    (h.mTrackingSCP ≠ none → app.isSynced = true →
      (ledgerSeqToTrigger ≠ u32add app.lastClosedLedgerSeq 1 →
        (h.triggerNextLedger app ledgerSeqToTrigger).mNominations = h.mNominations ∧
        (h.triggerNextLedger app ledgerSeqToTrigger).mLastTrigger = h.mLastTrigger ∧
        (h.triggerNextLedger app ledgerSeqToTrigger).mCurrentValue = h.mCurrentValue) ∧
      (ledgerSeqToTrigger = u32add app.lastClosedLedgerSeq 1 →
        (h.triggerNextLedger app ledgerSeqToTrigger).mNominations =
          h.mNominations ++ [(ledgerSeqToTrigger,
            (h.triggerNextLedger app ledgerSeqToTrigger).mCurrentValue)] ∧
        (h.triggerNextLedger app ledgerSeqToTrigger).mLastTrigger = app.timeNow ∧
        ∃ b : StellarValue,
          (h.triggerNextLedger app ledgerSeqToTrigger).mCurrentValue = xdr_to_opaque b ∧
          b.baseFee = app.DESIRED_BASE_FEE)) ∧
    (app.lastClosedLedgerSeq + 1 < 4294967296 →
      u32add app.lastClosedLedgerSeq 1 = app.lastClosedLedgerSeq + 1) := by
  refine ⟨?_, ?_, fun hlt => Nat.mod_eq_of_lt hlt⟩
  · intro hor
    have hc : (h.mTrackingSCP.isNone || !app.isSynced) = true := by
      rcases hor with hn | hs
      · simp [hn]
      · simp [hs]
    simp only [HerderImpl.triggerNextLedger, hc, if_true]
  · intro htr hsync
    have hc : ¬ (h.mTrackingSCP.isNone || !app.isSynced) = true := by
      cases ht : h.mTrackingSCP with
      | none => exact absurd ht htr
      | some t => simp [hsync]
    constructor
    · intro hne
      simp only [HerderImpl.triggerNextLedger, if_neg hc, ne_eq, hne, not_false_eq_true, if_true,
        HerderImpl.recvTxSet, HerderImpl.recvTransactions]
      rw [recvTransactionsLoop_frame]
      exact ⟨rfl, rfl, rfl⟩
    · intro heq
      simp only [HerderImpl.triggerNextLedger, if_neg hc, ne_eq, heq, not_true_eq_false,
        if_false, HerderImpl.recvTxSet, HerderImpl.recvTransactions]
      rw [recvTransactionsLoop_frame]
      exact ⟨rfl, trivial, _, rfl, rfl⟩

/-- C28 at the example Herder (tracking, synced, last closed ledger 5): a trigger for ledger 7
starts no nomination and keeps `mLastTrigger` at 995; a trigger for ledger 6 nominates for
slot 6 and sets `mLastTrigger` to the clock, 1000; with the ledger manager out of sync the
trigger for ledger 6 changes nothing. -/
theorem C28_trigger_nominates_iff_next_ledger_witness :
    ((exampleHerder.triggerNextLedger exampleApplication 7).mNominations =
        exampleHerder.mNominations ∧
      (exampleHerder.triggerNextLedger exampleApplication 7).mLastTrigger =
        exampleHerder.mLastTrigger ∧
      (exampleHerder.triggerNextLedger exampleApplication 7).mCurrentValue =
        exampleHerder.mCurrentValue) ∧
    ((exampleHerder.triggerNextLedger exampleApplication 6).mNominations =
        exampleHerder.mNominations ++ [(6,
          (exampleHerder.triggerNextLedger exampleApplication 6).mCurrentValue)] ∧
      (exampleHerder.triggerNextLedger exampleApplication 6).mLastTrigger =
        exampleApplication.timeNow ∧
      ∃ b : StellarValue,
        (exampleHerder.triggerNextLedger exampleApplication 6).mCurrentValue = xdr_to_opaque b ∧
        b.baseFee = exampleApplication.DESIRED_BASE_FEE) ∧
    exampleHerder.triggerNextLedger { exampleApplication with isSynced := false } 6 =
      exampleHerder ∧
    (exampleHerder.triggerNextLedger exampleApplication 6).mNominations =
      [(6, Value.encoded ⟨1000, 1000, 100⟩)] ∧
    (exampleHerder.triggerNextLedger exampleApplication 7).mNominations = [] :=
  ⟨((C28_trigger_nominates_iff_next_ledger exampleApplication exampleHerder 7).2.1
      (by decide) rfl).1 (by decide),
    ((C28_trigger_nominates_iff_next_ledger exampleApplication exampleHerder 6).2.1
      (by decide) rfl).2 (by decide),
    (C28_trigger_nominates_iff_next_ledger { exampleApplication with isSynced := false }
      exampleHerder 6).1 (Or.inr rfl),
    by decide, by decide⟩

/-! ## The ballot-counter budget -/

/-- The budget of one more round adds the timeout of that round. -/
theorem ballotCounterBudget_succ (app : Application) (c : Nat) :
    ballotCounterBudget app (c + 1) =
      ballotCounterBudget app c + min app.MAX_SCP_TIMEOUT_SECONDS (2 ^ c) := by
  simp only [ballotCounterBudget, List.range_succ, List.map_append, List.map_cons, List.map_nil,
    List.sum_append, List.sum_cons, List.sum_nil, Nat.add_zero]

/-- The budget grows with the counter. -/
theorem ballotCounterBudget_mono (app : Application) (c : Nat) :
    ∀ d, ballotCounterBudget app c ≤ ballotCounterBudget app (c + d) := by
  intro d
  induction d with
  | zero => exact Nat.le_refl _
  | succ d ih =>
    rw [← Nat.add_assoc, ballotCounterBudget_succ]
    exact Nat.le_trans ih (Nat.le_add_right _ _)

/-- One 64-bit value below the width is itself. -/
theorem u64_of_lt (n : Nat) (h : n < 18446744073709551616) : u64 n = n :=
  Nat.mod_eq_of_lt h

/-- A round below 63 adds `min(MAX_SCP_TIMEOUT_SECONDS, 2^i)` to the sum, when that fits in 64
bits. -/
theorem sumTimeouts_step_below_63 (maxTimeout sumTimeouts i : Nat) (hi : i < 63)
    (hfit : sumTimeouts + maxTimeout < 18446744073709551616) :
    u64OfInt ((sumTimeouts : Int) + min (maxTimeout : Int) (powToLongLong i)) =
      sumTimeouts + min maxTimeout (2 ^ i) := by
  have hp : powToLongLong i = ((2 ^ i : Nat) : Int) := by
    simp only [powToLongLong, if_pos hi]
    push_cast
    rfl
  have hm : min maxTimeout (2 ^ i) ≤ maxTimeout := Nat.min_le_left _ _
  have hcast : min (maxTimeout : Int) ((2 ^ i : Nat) : Int) =
      ((min maxTimeout (2 ^ i) : Nat) : Int) := (Nat.cast_min _ _).symm
  rw [hp, hcast]
  generalize min maxTimeout (2 ^ i) = m at hm ⊢
  unfold u64OfInt
  omega

/-- From round 63 on the term is `INT64_MIN`, which adds `2^63` to the unsigned sum. -/
theorem sumTimeouts_step_from_63 (maxTimeout sumTimeouts i : Nat) (hi : 63 ≤ i)
    (hfit : sumTimeouts < 9223372036854775808) :
    u64OfInt ((sumTimeouts : Int) + min (maxTimeout : Int) (powToLongLong i)) =
      sumTimeouts + 9223372036854775808 := by
  have hp : powToLongLong i = -9223372036854775808 := by
    simp only [powToLongLong, if_neg (Nat.not_lt.mpr hi)]
  have hmin : min (maxTimeout : Int) (-9223372036854775808) = -9223372036854775808 :=
    min_eq_right (by omega)
  rw [hp, hmin]
  unfold u64OfInt
  omega


/-- The loop of `validateBallot` over rounds below 63, started at round `i` with the budget of
`i` rounds, ends with a sum that fits in 64 bits and exceeds the bound exactly when the full
budget does. -/
theorem sumTimeoutsLoop_decision (app : Application) (lastTrigger : Nat)
    (hno : app.timeNow + app.MAX_TIME_SLIP_SECONDS + app.MAX_SCP_TIMEOUT_SECONDS <
      18446744073709551616) :
    ∀ (remaining i : Nat), i + remaining ≤ 63 →
      lastTrigger + ballotCounterBudget app i < 18446744073709551616 →
      lastTrigger + sumTimeoutsLoop app lastTrigger remaining i (ballotCounterBudget app i) <
          18446744073709551616 ∧
        (app.timeNow + app.MAX_TIME_SLIP_SECONDS <
            lastTrigger + sumTimeoutsLoop app lastTrigger remaining i (ballotCounterBudget app i) ↔
          app.timeNow + app.MAX_TIME_SLIP_SECONDS <
            lastTrigger + ballotCounterBudget app (i + remaining)) := by
  intro remaining
  induction remaining with
  | zero =>
    intro i _ hfit
    exact ⟨hfit, Iff.rfl⟩
  | succ remaining ih =>
    intro i hi hfit
    have hb : u64 (app.timeNow + app.MAX_TIME_SLIP_SECONDS) =
        app.timeNow + app.MAX_TIME_SLIP_SECONDS := u64_of_lt _ (by omega)
    have hs : u64 (lastTrigger + ballotCounterBudget app i) =
        lastTrigger + ballotCounterBudget app i := u64_of_lt _ hfit
    simp only [sumTimeoutsLoop, hb, hs, ge_iff_le]
    by_cases hc : lastTrigger + ballotCounterBudget app i ≤
        app.timeNow + app.MAX_TIME_SLIP_SECONDS
    · rw [if_pos hc]
      have hmin : min app.MAX_SCP_TIMEOUT_SECONDS (2 ^ i) ≤ app.MAX_SCP_TIMEOUT_SECONDS :=
        Nat.min_le_left _ _
      have hnext : u64OfInt ((ballotCounterBudget app i : Int) +
          min (app.MAX_SCP_TIMEOUT_SECONDS : Int) (powToLongLong i)) =
          ballotCounterBudget app (i + 1) := by
        rw [ballotCounterBudget_succ]
        exact sumTimeouts_step_below_63 _ _ i (by omega) (by omega)
      rw [hnext]
      have hfit1 : lastTrigger + ballotCounterBudget app (i + 1) < 18446744073709551616 := by
        rw [ballotCounterBudget_succ]
        omega
      have h1 := ih (i + 1) (by omega) hfit1
      have hidx : i + 1 + remaining = i + (remaining + 1) := by omega
      rw [hidx] at h1
      exact h1
    · rw [if_neg hc]
      refine ⟨hfit, ?_⟩
      have hm := ballotCounterBudget_mono app i (remaining + 1)
      constructor
      · intro _
        omega
      · intro _
        omega

/-- Once the sum exceeds the bound the loop of `validateBallot` adds nothing more. -/
theorem sumTimeoutsLoop_stops (app : Application) (lastTrigger remaining i sumTimeouts : Nat)
    (hb : app.timeNow + app.MAX_TIME_SLIP_SECONDS < 18446744073709551616)
    (hfit : lastTrigger + sumTimeouts < 18446744073709551616)
    (hex : app.timeNow + app.MAX_TIME_SLIP_SECONDS < lastTrigger + sumTimeouts) :
    sumTimeoutsLoop app lastTrigger remaining i sumTimeouts = sumTimeouts := by
  cases remaining with
  | zero => rfl
  | succ r =>
    have hc : ¬ u64 (app.timeNow + app.MAX_TIME_SLIP_SECONDS) ≥
        u64 (lastTrigger + sumTimeouts) := by
      rw [u64_of_lt _ hb, u64_of_lt _ hfit]
      omega
    simp only [sumTimeoutsLoop, if_neg hc]

/-- A loop of `validateBallot` that is to run past round 63 ends with a sum above the bound:
either it stops before round 63 because the budget so far exceeds the bound, or round 63 adds
`2^63`. -/
theorem sumTimeoutsLoop_past_63 (app : Application) (lastTrigger : Nat)
    (hno : app.timeNow + app.MAX_TIME_SLIP_SECONDS + app.MAX_SCP_TIMEOUT_SECONDS <
      9223372036854775808) :
    ∀ (remaining i : Nat), i ≤ 63 → 64 ≤ i + remaining →
      lastTrigger + ballotCounterBudget app i < 18446744073709551616 →
      lastTrigger + sumTimeoutsLoop app lastTrigger remaining i (ballotCounterBudget app i) <
          18446744073709551616 ∧
        app.timeNow + app.MAX_TIME_SLIP_SECONDS <
          lastTrigger + sumTimeoutsLoop app lastTrigger remaining i
            (ballotCounterBudget app i) := by
  intro remaining
  induction remaining with
  | zero =>
    intro i h1 h2 _
    omega
  | succ remaining ih =>
    intro i hi hrem hfit
    have hb : u64 (app.timeNow + app.MAX_TIME_SLIP_SECONDS) =
        app.timeNow + app.MAX_TIME_SLIP_SECONDS := u64_of_lt _ (by omega)
    have hs : u64 (lastTrigger + ballotCounterBudget app i) =
        lastTrigger + ballotCounterBudget app i := u64_of_lt _ hfit
    simp only [sumTimeoutsLoop, hb, hs, ge_iff_le]
    by_cases hc : lastTrigger + ballotCounterBudget app i ≤
        app.timeNow + app.MAX_TIME_SLIP_SECONDS
    · rw [if_pos hc]
      by_cases h63 : i < 63
      · have hmin : min app.MAX_SCP_TIMEOUT_SECONDS (2 ^ i) ≤ app.MAX_SCP_TIMEOUT_SECONDS :=
          Nat.min_le_left _ _
        have hnext : u64OfInt ((ballotCounterBudget app i : Int) +
            min (app.MAX_SCP_TIMEOUT_SECONDS : Int) (powToLongLong i)) =
            ballotCounterBudget app (i + 1) := by
          rw [ballotCounterBudget_succ]
          exact sumTimeouts_step_below_63 _ _ i h63 (by omega)
        rw [hnext]
        have hfit1 : lastTrigger + ballotCounterBudget app (i + 1) < 18446744073709551616 := by
          rw [ballotCounterBudget_succ]
          omega
        exact ih (i + 1) (by omega) (by omega) hfit1
      · have hnext : u64OfInt ((ballotCounterBudget app i : Int) +
            min (app.MAX_SCP_TIMEOUT_SECONDS : Int) (powToLongLong i)) =
            ballotCounterBudget app i + 9223372036854775808 :=
          sumTimeouts_step_from_63 _ _ i (by omega) (by omega)
        rw [hnext]
        have hstop := sumTimeoutsLoop_stops app lastTrigger remaining (i + 1)
          (ballotCounterBudget app i + 9223372036854775808) (by omega) (by omega) (by omega)
        rw [hstop]
        omega
    · rw [if_neg hc]
      exact ⟨hfit, by omega⟩


/-- A decodable ballot that passes the close-time and slot checks is decided by the counter
check and the checks after it. -/
theorem validateBallot_from_counter_check (app : Application) (h : HerderImpl)
    (slotIndex nodeID : Nat) (ballot : SCPBallot) (b : StellarValue)
    (hdecode : xdr_from_opaque ballot.value = .ok b)
    (hct : b.closeTime ≤ u64 (app.timeNow + app.MAX_TIME_SLIP_SECONDS))
    (htrack : ∀ t, h.mTrackingSCP = some t → t.nextConsensusLedgerIndex = slotIndex) :
    h.validateBallot app slotIndex nodeID ballot =
      if u64 (app.timeNow + app.MAX_TIME_SLIP_SECONDS) <
          u64 (h.mLastTrigger + sumTimeoutsLoop app h.mLastTrigger ballot.counter 0 0) then
        .ok false
      else if 2 * b.baseFee < app.DESIRED_BASE_FEE then .ok false
      else if b.baseFee > u32 (app.DESIRED_BASE_FEE * 2) then .ok false
      else if app.secretKeyIsZero && nodeID == app.localNodeID then .ok false
      else .ok true := by
  have hct1 : ¬ b.closeTime > u64 (app.timeNow + app.MAX_TIME_SLIP_SECONDS) := Nat.not_lt.mpr hct
  unfold HerderImpl.validateBallot
  rw [hdecode]
  dsimp only
  rw [if_neg hct1]
  cases ht : h.mTrackingSCP with
  | none => simp
  | some t => simp [htrack t ht]

/-- The comparison after the loop for counters up to 63: it holds exactly when the full budget
exceeds the bound. -/
theorem counter_check_up_to_63 (app : Application) (lastTrigger counter : Nat)
    (hno : app.timeNow + app.MAX_TIME_SLIP_SECONDS + app.MAX_SCP_TIMEOUT_SECONDS <
      18446744073709551616)
    (hlt : lastTrigger < 18446744073709551616) (hc : counter ≤ 63) :
    u64 (app.timeNow + app.MAX_TIME_SLIP_SECONDS) <
        u64 (lastTrigger + sumTimeoutsLoop app lastTrigger counter 0 0) ↔
      lastTrigger + ballotCounterBudget app counter >
        app.timeNow + app.MAX_TIME_SLIP_SECONDS := by
  have hz : ballotCounterBudget app 0 = 0 := rfl
  have hloop := sumTimeoutsLoop_decision app lastTrigger hno counter 0 (by omega)
    (by rw [hz]; exact hlt)
  rw [hz, Nat.zero_add] at hloop
  obtain ⟨hfit, hiff⟩ := hloop
  rw [u64_of_lt _ (by omega), u64_of_lt _ hfit]
  exact hiff

/-- The comparison after the loop for counters from 64 on: it always holds. -/
theorem counter_check_from_64 (app : Application) (lastTrigger counter : Nat)
    (hno : app.timeNow + app.MAX_TIME_SLIP_SECONDS + app.MAX_SCP_TIMEOUT_SECONDS <
      9223372036854775808)
    (hlt : lastTrigger < 18446744073709551616) (hc : 64 ≤ counter) :
    u64 (app.timeNow + app.MAX_TIME_SLIP_SECONDS) <
      u64 (lastTrigger + sumTimeoutsLoop app lastTrigger counter 0 0) := by
  have hz : ballotCounterBudget app 0 = 0 := rfl
  have hloop := sumTimeoutsLoop_past_63 app lastTrigger hno counter 0 (by omega) (by omega)
    (by rw [hz]; exact hlt)
  rw [hz] at hloop
  obtain ⟨hfit, hex⟩ := hloop
  rw [u64_of_lt _ (by omega), u64_of_lt _ hfit]
  exact hex

/-- C26 (fails from counter 64 on): as long as the clock plus the slip plus one maximal timeout
fits in 64 bits, for a counter of at most 63 the comparison that `validateBallot` makes after
its early-exit loop holds exactly when `lastTrigger + B(counter) > timeNow +
MAX_TIME_SLIP_SECONDS`, with `B` the full sum `ballotCounterBudget`. For a counter of 64 or
more (clock below `2^63`) the comparison always holds and a decodable ballot that passes the
close-time and slot checks is rejected, whatever the budget: in round 63 the term
`(long long)pow(2.0, 63)` is out of range, the minimum picks it and `2^63` is added to the sum.
With the last trigger at 995 and the clock at 20000 (slip 60, maximal timeout 240) the budget of
counter 64 is 13695 and `995 + 13695` does not exceed 20060, yet the ballot with counter 64 is
rejected, while the one with counter 63 (budget 13455) is accepted. -/
theorem C26_counter_from_64_rejected_within_budget :
    (∀ (app : Application) (lastTrigger counter : Nat),
      app.timeNow + app.MAX_TIME_SLIP_SECONDS + app.MAX_SCP_TIMEOUT_SECONDS <
        18446744073709551616 →
      lastTrigger < 18446744073709551616 → counter ≤ 63 →
      (u64 (app.timeNow + app.MAX_TIME_SLIP_SECONDS) <
          u64 (lastTrigger + sumTimeoutsLoop app lastTrigger counter 0 0) ↔
        lastTrigger + ballotCounterBudget app counter >
          app.timeNow + app.MAX_TIME_SLIP_SECONDS)) ∧
    (∀ (app : Application) (h : HerderImpl) (slotIndex nodeID : Nat) (ballot : SCPBallot)
        (b : StellarValue),
      app.timeNow + app.MAX_TIME_SLIP_SECONDS + app.MAX_SCP_TIMEOUT_SECONDS <
        9223372036854775808 →
      h.mLastTrigger < 18446744073709551616 → 64 ≤ ballot.counter →
      xdr_from_opaque ballot.value = .ok b →
      b.closeTime ≤ u64 (app.timeNow + app.MAX_TIME_SLIP_SECONDS) →
      (∀ t, h.mTrackingSCP = some t → t.nextConsensusLedgerIndex = slotIndex) →
      u64 (app.timeNow + app.MAX_TIME_SLIP_SECONDS) <
          u64 (h.mLastTrigger + sumTimeoutsLoop app h.mLastTrigger ballot.counter 0 0) ∧
        h.validateBallot app slotIndex nodeID ballot = .ok false) ∧
    ballotCounterBudget exampleLateApplication 64 = 13695 ∧
    ballotCounterBudget exampleLateApplication 63 = 13455 ∧
    ¬ (exampleHerder.mLastTrigger + ballotCounterBudget exampleLateApplication 64 >
      exampleLateApplication.timeNow + exampleLateApplication.MAX_TIME_SLIP_SECONDS) ∧
    exampleHerder.validateBallot exampleLateApplication 6 2 ⟨64, .encoded ⟨11, 1000, 100⟩⟩ =
      .ok false ∧
    exampleHerder.validateBallot exampleLateApplication 6 2 ⟨63, .encoded ⟨11, 1000, 100⟩⟩ =
      .ok true := by
  have hgen : ∀ (app : Application) (h : HerderImpl) (slotIndex nodeID : Nat)
      (ballot : SCPBallot) (b : StellarValue),
      app.timeNow + app.MAX_TIME_SLIP_SECONDS + app.MAX_SCP_TIMEOUT_SECONDS <
        9223372036854775808 →
      h.mLastTrigger < 18446744073709551616 → 64 ≤ ballot.counter →
      xdr_from_opaque ballot.value = .ok b →
      b.closeTime ≤ u64 (app.timeNow + app.MAX_TIME_SLIP_SECONDS) →
      (∀ t, h.mTrackingSCP = some t → t.nextConsensusLedgerIndex = slotIndex) →
      u64 (app.timeNow + app.MAX_TIME_SLIP_SECONDS) <
          u64 (h.mLastTrigger + sumTimeoutsLoop app h.mLastTrigger ballot.counter 0 0) ∧
        h.validateBallot app slotIndex nodeID ballot = .ok false := by
    intro app h slotIndex nodeID ballot b hno hlt hc hdecode hct htrack
    have hcheck := counter_check_from_64 app h.mLastTrigger ballot.counter hno hlt hc
    refine ⟨hcheck, ?_⟩
    rw [validateBallot_from_counter_check app h slotIndex nodeID ballot b hdecode hct htrack,
      if_pos hcheck]
  have h63 : ¬ (u64 (exampleLateApplication.timeNow +
        exampleLateApplication.MAX_TIME_SLIP_SECONDS) <
      u64 (exampleHerder.mLastTrigger +
        sumTimeoutsLoop exampleLateApplication exampleHerder.mLastTrigger 63 0 0)) := by
    rw [counter_check_up_to_63 exampleLateApplication exampleHerder.mLastTrigger 63
      (by decide) (by decide) (by decide)]
    decide
  refine ⟨fun app lastTrigger counter hno hlt hc =>
      counter_check_up_to_63 app lastTrigger counter hno hlt hc,
    hgen, by decide, by decide, by decide, ?_, ?_⟩
  · exact (hgen exampleLateApplication exampleHerder 6 2 ⟨64, .encoded ⟨11, 1000, 100⟩⟩
      ⟨11, 1000, 100⟩ (by decide) (by decide) (by decide) rfl (by decide)
      (fun t ht => by cases ht; rfl)).2
  · rw [validateBallot_from_counter_check exampleLateApplication exampleHerder 6 2
      ⟨63, .encoded ⟨11, 1000, 100⟩⟩ ⟨11, 1000, 100⟩ rfl (by decide)
      (fun t ht => by cases ht; rfl), if_neg h63]
    rfl

/-! ## Phase ordering of the catch-up pipeline -/

/-- Step 4 of `doWork` creates the catch-up sequence only when the header sequence reports
success, and never drops the header sequence. -/
theorem doWorkApply_phase_order (env : CatchupEnv) (w w1 : CatchupWork) (r : CatchupRange)
    (st : State) (hp : w.doWorkApply env r = .ok (w1, st)) :
    (w.mCatchupSeq = none → w1.mCatchupSeq ≠ none →
      w.mDownloadVerifyLedgersSeq = some State.WORK_SUCCESS) ∧
    (w.mDownloadVerifyLedgersSeq = none → w1.mDownloadVerifyLedgersSeq ≠ none →
      w1.mCatchupSeq = none) := by
  unfold CatchupWork.doWorkApply at hp
  cases hseq : w.mCatchupSeq with
  | some cs =>
    simp only [hseq] at hp
    refine ⟨(fun h => by cases h), ?_⟩
    repeat' (split at hp)
    all_goals
      first
      | (cases hp; done)
      | (simp only [Except.ok.injEq, Prod.mk.injEq] at hp
         obtain ⟨rfl, _⟩ := hp
         intro h1 h2
         exact absurd h1 h2)
  | none =>
    simp only [hseq] at hp
    cases hds : w.mDownloadVerifyLedgersSeq with
    | some ds =>
      simp only [hds] at hp
      refine ⟨?_, (fun h => by cases h)⟩
      by_cases hsucc : ds = State.WORK_SUCCESS
      · intro _ _
        rw [hsucc]
      · rw [if_neg hsucc] at hp
        simp only [Except.ok.injEq, Prod.mk.injEq] at hp
        obtain ⟨rfl, _⟩ := hp
        intro _ h2
        exact absurd hseq h2
    | none =>
      simp only [hds, CatchupWork.downloadVerifyLedgerChain] at hp
      split at hp
      · cases hp
      · rename_i w2 hw2
        simp only [Except.ok.injEq, Prod.mk.injEq] at hp
        obtain ⟨rfl, _⟩ := hp
        split at hw2
        · cases hw2
        · simp only [Except.ok.injEq] at hw2
          subst hw2
          exact ⟨fun _ h2 => absurd hseq h2, fun _ _ => hseq⟩

/-- In every catch-up sequence among the children after step 4 the bucket work, when present,
comes before the transaction work, if that held before. -/
theorem doWorkApply_seq_order (env : CatchupEnv) (w w1 : CatchupWork) (r : CatchupRange)
    (st : State) (hp : w.doWorkApply env r = .ok (w1, st))
    (hinv : ∀ seq, ChildWork.catchupSeq seq ∈ w.mChildren →
      seq ∈ [[], [CatchupSeqMember.bucketVerifyApplySeq],
        [CatchupSeqMember.transactionsVerifyApplySeq],
        [CatchupSeqMember.bucketVerifyApplySeq, CatchupSeqMember.transactionsVerifyApplySeq]]) :
    ∀ seq, ChildWork.catchupSeq seq ∈ w1.mChildren →
      seq ∈ [[], [CatchupSeqMember.bucketVerifyApplySeq],
        [CatchupSeqMember.transactionsVerifyApplySeq],
        [CatchupSeqMember.bucketVerifyApplySeq, CatchupSeqMember.transactionsVerifyApplySeq]] := by
  unfold CatchupWork.doWorkApply at hp
  cases hseq : w.mCatchupSeq with
  | some cs =>
    simp only [hseq] at hp
    repeat' (split at hp)
    all_goals
      first
      | (cases hp; done)
      | (simp only [Except.ok.injEq, Prod.mk.injEq] at hp
         obtain ⟨rfl, _⟩ := hp
         exact hinv)
  | none =>
    simp only [hseq] at hp
    cases hds : w.mDownloadVerifyLedgersSeq with
    | some ds =>
      simp only [hds] at hp
      by_cases hsucc : ds = State.WORK_SUCCESS
      · rw [if_pos hsucc] at hp
        split at hp
        · cases hp
        · simp only [Except.ok.injEq, Prod.mk.injEq] at hp
          obtain ⟨rfl, _⟩ := hp
          intro seq hmem
          cases hb : r.mApplyBuckets <;> cases hl : r.applyLedgers <;>
            simp [hb, hl] at hmem <;>
            rcases hmem with hmem | hmem <;>
            first
            | exact hinv seq hmem
            | (subst hmem; simp)
      · rw [if_neg hsucc] at hp
        simp only [Except.ok.injEq, Prod.mk.injEq] at hp
        obtain ⟨rfl, _⟩ := hp
        exact hinv
    | none =>
      simp only [hds, CatchupWork.downloadVerifyLedgerChain] at hp
      split at hp
      · cases hp
      · rename_i w2 hw2
        simp only [Except.ok.injEq, Prod.mk.injEq] at hp
        obtain ⟨rfl, _⟩ := hp
        split at hw2
        · cases hw2
        · simp only [Except.ok.injEq] at hw2
          subst hw2
          intro seq hmem
          simp at hmem
          exact hinv seq hmem


/-- Step 3 of `doWork`: the catch-up sequence is created only when the header sequence reports
success, and the header sequence only when the bucket-state fetch, if one is needed, reports
success. -/
theorem doWorkBuckets_phase_order (env : CatchupEnv) (w w1 : CatchupWork) (r : CatchupRange)
    (st : State) (hp : w.doWorkBuckets env r = .ok (w1, st)) :
    (w.mCatchupSeq = none → w1.mCatchupSeq ≠ none →
      w.mDownloadVerifyLedgersSeq = some State.WORK_SUCCESS) ∧
    (w.mDownloadVerifyLedgersSeq = none → w1.mDownloadVerifyLedgersSeq ≠ none →
      (r.mApplyBuckets = true → ∃ applyBucketsAt,
        r.getBucketApplyLedger = .ok applyBucketsAt ∧
        (applyBucketsAt ≠ w.mRemoteState.currentLedger →
          w.mGetBucketStateWork = some State.WORK_SUCCESS))) := by
  unfold CatchupWork.doWorkBuckets at hp
  by_cases hb : r.mApplyBuckets = true
  · rw [if_pos hb] at hp
    cases hat : r.getBucketApplyLedger with
    | error e => rw [hat] at hp; cases hp
    | ok applyBucketsAt =>
      rw [hat] at hp
      dsimp only at hp
      by_cases hal : w.alreadyHaveBucketsHistoryArchiveState applyBucketsAt = true
      · simp only [hal, Bool.not_true, Bool.false_eq_true, if_false] at hp
        have h := doWorkApply_phase_order env _ w1 r st hp
        refine ⟨h.1, fun _ _ _ => ⟨applyBucketsAt, rfl, fun hne => ?_⟩⟩
        unfold CatchupWork.alreadyHaveBucketsHistoryArchiveState at hal
        exact absurd (of_decide_eq_true hal) hne
      · simp only [hal, Bool.not_false, if_true] at hp
        cases hg : w.mGetBucketStateWork with
        | none =>
          simp only [hg] at hp
          cases hp
          exact ⟨fun h1 h2 => absurd h1 h2, fun h1 h2 => absurd h1 h2⟩
        | some s =>
          simp only [hg] at hp
          cases s with
          | WORK_SUCCESS =>
            have h := doWorkApply_phase_order env w w1 r st hp
            exact ⟨h.1, fun _ _ _ => ⟨applyBucketsAt, rfl, fun _ => rfl⟩⟩
          | WORK_RUNNING =>
            cases hp
            exact ⟨fun h1 h2 => absurd h1 h2, fun h1 h2 => absurd h1 h2⟩
          | WORK_WAITING =>
            cases hp
            exact ⟨fun h1 h2 => absurd h1 h2, fun h1 h2 => absurd h1 h2⟩
          | WORK_FAILURE =>
            cases hp
            exact ⟨fun h1 h2 => absurd h1 h2, fun h1 h2 => absurd h1 h2⟩
  · rw [if_neg hb] at hp
    have h := doWorkApply_phase_order env w w1 r st hp
    exact ⟨h.1, fun _ _ hb1 => absurd hb1 hb⟩

/-- Step 3 of `doWork` keeps the order inside the catch-up sequences among the children. -/
theorem doWorkBuckets_seq_order (env : CatchupEnv) (w w1 : CatchupWork) (r : CatchupRange)
    (st : State) (hp : w.doWorkBuckets env r = .ok (w1, st))
    (hinv : ∀ seq, ChildWork.catchupSeq seq ∈ w.mChildren →
      seq ∈ [[], [CatchupSeqMember.bucketVerifyApplySeq],
        [CatchupSeqMember.transactionsVerifyApplySeq],
        [CatchupSeqMember.bucketVerifyApplySeq, CatchupSeqMember.transactionsVerifyApplySeq]]) :
    ∀ seq, ChildWork.catchupSeq seq ∈ w1.mChildren →
      seq ∈ [[], [CatchupSeqMember.bucketVerifyApplySeq],
        [CatchupSeqMember.transactionsVerifyApplySeq],
        [CatchupSeqMember.bucketVerifyApplySeq, CatchupSeqMember.transactionsVerifyApplySeq]] := by
  unfold CatchupWork.doWorkBuckets at hp
  by_cases hb : r.mApplyBuckets = true
  · rw [if_pos hb] at hp
    cases hat : r.getBucketApplyLedger with
    | error e => rw [hat] at hp; cases hp
    | ok applyBucketsAt =>
      rw [hat] at hp
      dsimp only at hp
      by_cases hal : w.alreadyHaveBucketsHistoryArchiveState applyBucketsAt = true
      · simp only [hal, Bool.not_true, Bool.false_eq_true, if_false] at hp
        exact doWorkApply_seq_order env _ w1 r st hp hinv
      · simp only [hal, Bool.not_false, if_true] at hp
        cases hg : w.mGetBucketStateWork with
        | none =>
          simp only [hg] at hp
          cases hp
          intro seq hmem
          simp at hmem
          exact hinv seq hmem
        | some s =>
          simp only [hg] at hp
          cases s with
          | WORK_SUCCESS => exact doWorkApply_seq_order env w w1 r st hp hinv
          | WORK_RUNNING => cases hp; exact hinv
          | WORK_WAITING => cases hp; exact hinv
          | WORK_FAILURE => cases hp; exact hinv
  · rw [if_neg hb] at hp
    exact doWorkApply_seq_order env w w1 r st hp hinv


/-- One poll: the catch-up sequence is created only when the header sequence reports success,
and the header sequence only when the archive-state fetch and, if one is needed, the
bucket-state fetch report success. -/
theorem doWork_phase_order (env : CatchupEnv) (w w1 : CatchupWork) (st : State)
    (hp : w.doWork env = .ok (w1, st)) :
    (w.mCatchupSeq = none → w1.mCatchupSeq ≠ none →
      w.mDownloadVerifyLedgersSeq = some State.WORK_SUCCESS ∧
      w.mGetHistoryArchiveStateWork = some State.WORK_SUCCESS) ∧
    (w.mDownloadVerifyLedgersSeq = none → w1.mDownloadVerifyLedgersSeq ≠ none →
      w.mGetHistoryArchiveStateWork = some State.WORK_SUCCESS ∧
      ∃ r, CatchupRange.ctor w.mLastClosedLedgerHashPair
          (w.mCatchupConfiguration.resolve w.mRemoteState.currentLedger)
          env.historyManager = .ok r ∧
        (r.mApplyBuckets = true → ∃ applyBucketsAt,
          r.getBucketApplyLedger = .ok applyBucketsAt ∧
          (applyBucketsAt ≠ w.mRemoteState.currentLedger →
            w.mGetBucketStateWork = some State.WORK_SUCCESS))) := by
  unfold CatchupWork.doWork at hp
  cases hg : w.mGetHistoryArchiveStateWork with
  | none =>
    simp only [hg] at hp
    cases hp
    exact ⟨fun h1 h2 => absurd h1 h2, fun h1 h2 => absurd h1 h2⟩
  | some s =>
    simp only [hg] at hp
    by_cases hs : s = State.WORK_SUCCESS
    · subst hs
      simp only [ne_eq, not_true_eq_false, if_false] at hp
      split at hp
      · cases hp
      · cases hp
        exact ⟨fun h1 h2 => absurd h1 h2, fun h1 h2 => absurd h1 h2⟩
      · cases hc : CatchupRange.ctor w.mLastClosedLedgerHashPair
            (w.mCatchupConfiguration.resolve w.mRemoteState.currentLedger)
            env.historyManager with
        | error e => rw [hc] at hp; cases hp
        | ok r =>
          rw [hc] at hp
          have h := doWorkBuckets_phase_order env w w1 r st hp
          exact ⟨fun h1 h2 => ⟨h.1 h1 h2, rfl⟩, fun h1 h2 => ⟨rfl, r, rfl, h.2 h1 h2⟩⟩
    · rw [if_pos hs] at hp
      cases hp
      exact ⟨fun h1 h2 => absurd h1 h2, fun h1 h2 => absurd h1 h2⟩

/-- One poll keeps the order inside the catch-up sequences among the children. -/
theorem doWork_seq_order (env : CatchupEnv) (w w1 : CatchupWork) (st : State)
    (hp : w.doWork env = .ok (w1, st))
    (hinv : ∀ seq, ChildWork.catchupSeq seq ∈ w.mChildren →
      seq ∈ [[], [CatchupSeqMember.bucketVerifyApplySeq],
        [CatchupSeqMember.transactionsVerifyApplySeq],
        [CatchupSeqMember.bucketVerifyApplySeq, CatchupSeqMember.transactionsVerifyApplySeq]]) :
    ∀ seq, ChildWork.catchupSeq seq ∈ w1.mChildren →
      seq ∈ [[], [CatchupSeqMember.bucketVerifyApplySeq],
        [CatchupSeqMember.transactionsVerifyApplySeq],
        [CatchupSeqMember.bucketVerifyApplySeq, CatchupSeqMember.transactionsVerifyApplySeq]] := by
  unfold CatchupWork.doWork at hp
  cases hg : w.mGetHistoryArchiveStateWork with
  | none =>
    simp only [hg] at hp
    cases hp
    intro seq hmem
    simp at hmem
    exact hinv seq hmem
  | some s =>
    simp only [hg] at hp
    by_cases hs : s = State.WORK_SUCCESS
    · subst hs
      simp only [ne_eq, not_true_eq_false, if_false] at hp
      split at hp
      · cases hp
      · cases hp
        exact hinv
      · split at hp
        · cases hp
        · exact doWorkBuckets_seq_order env w w1 _ st hp hinv
    · rw [if_pos hs] at hp
      cases hp
      exact hinv

/-- In every state of a run, in every catch-up sequence among the children the bucket work,
when present, comes before the transaction work. -/
theorem reachable_seq_order (w : CatchupWork) (hr : CatchupWork.Reachable w) :
    ∀ seq, ChildWork.catchupSeq seq ∈ w.mChildren →
      seq ∈ [[], [CatchupSeqMember.bucketVerifyApplySeq],
        [CatchupSeqMember.transactionsVerifyApplySeq],
        [CatchupSeqMember.bucketVerifyApplySeq, CatchupSeqMember.transactionsVerifyApplySeq]] := by
  induction hr with
  | started configuration lcl =>
    intro seq hmem
    simp [CatchupWork.initial] at hmem
  | polled env w w1 st _ hp ih => exact doWork_seq_order env w w1 st hp ih
  | children w w1 _ hs ih =>
    obtain ⟨_, _, _, _, _, _, _, _, _, _, _, h12, _⟩ := hs
    rw [h12]
    exact ih

/-- The example run up to the success of the bucket-state fetch is a run of the pipeline. -/
theorem exampleRunBucketStateFetched_reachable :
    CatchupWork.Reachable exampleRunBucketStateFetched := by
  have h0 := CatchupWork.Reachable.started ⟨1000, 10⟩ ⟨1, 0⟩
  have h1 : CatchupWork.Reachable exampleRunArchiveRequested :=
    CatchupWork.Reachable.polled exampleRunEnv _ _ State.WORK_RUNNING h0 rfl
  have h2 : CatchupWork.Reachable exampleRunArchiveFetched :=
    CatchupWork.Reachable.children _ _ h1
      ⟨rfl, rfl, rfl, rfl, rfl, rfl, rfl, rfl, rfl, rfl, rfl, rfl, rfl⟩
  have h3 : CatchupWork.Reachable exampleRunBucketStateRequested :=
    CatchupWork.Reachable.polled exampleRunEnv _ _ State.WORK_RUNNING h2 rfl
  exact CatchupWork.Reachable.children _ _ h3
    ⟨rfl, rfl, rfl, rfl, rfl, rfl, rfl, rfl, rfl, rfl, rfl, rfl, rfl⟩

/-- C27: for every poll of a run, (a) the poll creates the header download/verify sequence only
if, at that poll, the archive-state fetch reports WORK_SUCCESS and, when buckets are to be
applied at a ledger other than the fetched tip, the bucket-state fetch reports WORK_SUCCESS;
(b) the poll creates the catch-up sequence only if, at that poll, the header sequence (and the
archive-state fetch) reports WORK_SUCCESS; (c) every catch-up sequence among the children after
the poll was created with a vector in which the bucket work, when present, stands before the
transaction work. -/
theorem C27_phases_created_after_predecessor_success (env : CatchupEnv) (w w1 : CatchupWork)
    (st : State) (hr : CatchupWork.Reachable w) (hp : w.doWork env = .ok (w1, st)) :
    (w.mDownloadVerifyLedgersSeq = none → w1.mDownloadVerifyLedgersSeq ≠ none →
      w.mGetHistoryArchiveStateWork = some State.WORK_SUCCESS ∧
      ∃ r, CatchupRange.ctor w.mLastClosedLedgerHashPair
          (w.mCatchupConfiguration.resolve w.mRemoteState.currentLedger)
          env.historyManager = .ok r ∧
        (r.mApplyBuckets = true → ∃ applyBucketsAt,
          r.getBucketApplyLedger = .ok applyBucketsAt ∧
          (applyBucketsAt ≠ w.mRemoteState.currentLedger →
            w.mGetBucketStateWork = some State.WORK_SUCCESS))) ∧
    (w.mCatchupSeq = none → w1.mCatchupSeq ≠ none →
      w.mDownloadVerifyLedgersSeq = some State.WORK_SUCCESS ∧
      w.mGetHistoryArchiveStateWork = some State.WORK_SUCCESS) ∧
    (∀ seq, ChildWork.catchupSeq seq ∈ w1.mChildren →
      seq ∈ [[], [CatchupSeqMember.bucketVerifyApplySeq],
        [CatchupSeqMember.transactionsVerifyApplySeq],
        [CatchupSeqMember.bucketVerifyApplySeq,
          CatchupSeqMember.transactionsVerifyApplySeq]]) :=
  ⟨(doWork_phase_order env w w1 st hp).2, (doWork_phase_order env w w1 st hp).1,
    doWork_seq_order env w w1 st hp (reachable_seq_order w hr)⟩

/-- C27 on the example run: the third poll creates the header sequence, with the archive-state
fetch and the bucket-state fetch (bucket-apply ledger 959, fetched tip 1023) in WORK_SUCCESS;
the fourth poll creates the catch-up sequence, with the header sequence in WORK_SUCCESS, from
the vector holding the bucket work and then the transaction work. -/
theorem C27_phases_created_after_predecessor_success_witness :
    exampleRunBucketStateFetched.doWork exampleRunEnv =
      .ok (exampleRunHeadersRequested, State.WORK_RUNNING) ∧
    (exampleRunBucketStateFetched.mGetHistoryArchiveStateWork = some State.WORK_SUCCESS ∧
      ∃ r, CatchupRange.ctor exampleRunBucketStateFetched.mLastClosedLedgerHashPair
          (exampleRunBucketStateFetched.mCatchupConfiguration.resolve
            exampleRunBucketStateFetched.mRemoteState.currentLedger)
          exampleRunEnv.historyManager = .ok r ∧
        (r.mApplyBuckets = true → ∃ applyBucketsAt,
          r.getBucketApplyLedger = .ok applyBucketsAt ∧
          (applyBucketsAt ≠ exampleRunBucketStateFetched.mRemoteState.currentLedger →
            exampleRunBucketStateFetched.mGetBucketStateWork = some State.WORK_SUCCESS))) ∧
    exampleRunHeadersVerified.doWork exampleRunEnv =
      .ok (exampleRunBucketsRequested, State.WORK_RUNNING) ∧
    (exampleRunHeadersVerified.mDownloadVerifyLedgersSeq = some State.WORK_SUCCESS ∧
      exampleRunHeadersVerified.mGetHistoryArchiveStateWork = some State.WORK_SUCCESS) ∧
    ChildWork.catchupSeq
        [CatchupSeqMember.bucketVerifyApplySeq, CatchupSeqMember.transactionsVerifyApplySeq] ∈
      exampleRunBucketsRequested.mChildren ∧
    (∀ seq, ChildWork.catchupSeq seq ∈ exampleRunBucketsRequested.mChildren →
      seq ∈ [[], [CatchupSeqMember.bucketVerifyApplySeq],
        [CatchupSeqMember.transactionsVerifyApplySeq],
        [CatchupSeqMember.bucketVerifyApplySeq,
          CatchupSeqMember.transactionsVerifyApplySeq]]) :=
  ⟨rfl,
    (C27_phases_created_after_predecessor_success exampleRunEnv exampleRunBucketStateFetched
      exampleRunHeadersRequested State.WORK_RUNNING exampleRunBucketStateFetched_reachable
      rfl).1 rfl (by decide),
    rfl,
    (C27_phases_created_after_predecessor_success exampleRunEnv exampleRunHeadersVerified
      exampleRunBucketsRequested State.WORK_RUNNING exampleRunHeadersVerified_reachable
      rfl).2.1 rfl (by decide),
    by decide,
    (C27_phases_created_after_predecessor_success exampleRunEnv exampleRunHeadersVerified
      exampleRunBucketsRequested State.WORK_RUNNING exampleRunHeadersVerified_reachable
      rfl).2.2⟩

/-! ## Pool ageing with distinct hashes -/

/-- A transaction of a tier is in the flattened pool. -/
theorem tier_subset_flatten : ∀ (pool : List (List TransactionFrame)) (k : Nat)
    (tx : TransactionFrame), tx ∈ tier pool k → tx ∈ pool.flatten := by
  intro pool
  induction pool with
  | nil => intro k tx h; simp [tier] at h
  | cons l ls ih =>
    intro k tx h
    cases k with
    | zero =>
      simp only [tier, List.getD_cons_zero] at h
      simp [h]
    | succ k =>
      simp only [tier, List.getD_cons_succ] at h
      have := ih k tx h
      simp [this]

/-- In a pool with distinct hashes a transaction is in at most one tier. -/
theorem tier_unique_of_PoolUnique : ∀ (pool : List (List TransactionFrame)),
    PoolUnique pool → ∀ (i j : Nat) (tx : TransactionFrame),
      tx ∈ tier pool i → tx ∈ tier pool j → i = j := by
  intro pool
  induction pool with
  | nil => intro _ i j tx h; simp [tier] at h
  | cons l ls ih =>
    intro hu i j tx hi hj
    simp only [PoolUnique, List.flatten_cons, List.map_append] at hu
    have hls : PoolUnique ls := (List.nodup_append.mp hu).2.1
    have hdis := (List.nodup_append.mp hu).2.2
    have hcross : ∀ k, tx ∈ l → tx ∈ tier ls k → False := by
      intro k h1 h2
      exact hdis (List.mem_map_of_mem _ h1)
        (List.mem_map_of_mem _ (tier_subset_flatten ls k tx h2))
    cases i with
    | zero =>
      cases j with
      | zero => rfl
      | succ j =>
        simp only [tier, List.getD_cons_zero, List.getD_cons_succ] at hi hj
        exact absurd (hcross j hi hj) id
    | succ i =>
      cases j with
      | zero =>
        simp only [tier, List.getD_cons_zero, List.getD_cons_succ] at hi hj
        exact absurd (hcross i hj hi) id
      | succ j =>
        simp only [tier, List.getD_cons_succ] at hi hj
        rw [ih hls i j tx hi hj]

/-- `recvTransaction` keeps the number of tiers. -/
theorem length_recvTransaction (app : Application) (h : HerderImpl) (tx : TransactionFrame) :
    (h.recvTransaction app tx).2.mReceivedTransactions.length =
      h.mReceivedTransactions.length := by
  unfold HerderImpl.recvTransaction
  split
  · rfl
  · split_ifs
    · rfl
    · rfl
    · simp [pushToTierZero]

/-- The loop of `recvTransactions` keeps the number of tiers. -/
theorem length_recvTransactionsLoop (app : Application) (txs : List TransactionFrame) :
    ∀ acc : Bool × HerderImpl,
      (recvTransactionsLoop app txs acc).2.mReceivedTransactions.length =
        acc.2.mReceivedTransactions.length := by
  induction txs with
  | nil => intro acc; rfl
  | cons tx rest ih =>
    intro acc
    simp only [recvTransactionsLoop]
    rw [ih, length_recvTransaction]

/-- `triggerNextLedger` keeps the number of tiers. -/
theorem length_triggerNextLedger (app : Application) (h : HerderImpl)
    (ledgerSeqToTrigger : Nat) :
    (h.triggerNextLedger app ledgerSeqToTrigger).mReceivedTransactions.length =
      h.mReceivedTransactions.length := by
  simp only [HerderImpl.triggerNextLedger]
  split_ifs
  · rfl
  all_goals
    (simp only [HerderImpl.recvTxSet, HerderImpl.recvTransactions]
     rw [length_recvTransactionsLoop]
     exact length_foldl_removeReceivedTx _ _)

/-- In every reachable state the pool has the four tiers of the constructor. -/
theorem four_tiers_of_reachable (h : HerderImpl) (hr : HerderImpl.PoolReachable h) :
    h.mReceivedTransactions.length = 4 := by
  induction hr with
  | constructed h hpool =>
    rw [hpool]
    rfl
  | recvTransaction app h tx _ ih => rw [length_recvTransaction, ih]
  | valueExternalized h h1 slotIndex value _ hv ih =>
    obtain ⟨b, ext, _, _, hpool⟩ := valueExternalized_pool h h1 slotIndex value hv
    obtain ⟨new, hnew, hl, _⟩ := externalizePool_tiers h.mReceivedTransactions ext (by omega)
    rw [hnew] at hpool
    injection hpool with hpool
    rw [← hpool, hl, ih]
  | triggerNextLedger app h seq _ ih => rw [length_triggerNextLedger, ih]
  | other h h1 _ hsame ih => rw [hsame]; exact ih

/-- C10: for every pool with distinct hashes and at least two tiers (every reachable pool is
one, with four tiers) and every externalized set, the removal and ageing of
`valueExternalized` succeed and leave tier 0 empty, and each transaction that was in a tier `i`
below the last tier and whose full hash is not that of a transaction of the externalized set
is in tier `i + 1` and in no other tier. -/
theorem C10_aged_into_next_tier_only (pool : List (List TransactionFrame)) (ext : TxSetFrame)
    (hu : PoolUnique pool) (hlen : 2 ≤ pool.length) :
    ∃ new, externalizePool pool ext = .ok new ∧ tier new 0 = [] ∧
      ∀ (tx : TransactionFrame) (i : Nat), i + 1 < pool.length → tx ∈ tier pool i →
        (∀ e ∈ ext.mTransactions, e.fullHash ≠ tx.fullHash) →
        tx ∈ tier new (i + 1) ∧ ∀ j, j ≠ i + 1 → tx ∉ tier new j := by
  obtain ⟨new, hnew, _, htiers⟩ := externalizePool_tiers pool ext hlen
  refine ⟨new, hnew, ?_, ?_⟩
  · rw [htiers]; simp
  · intro tx i hi htx hnot
    obtain ⟨new1, hnew1, _, hin, hout⟩ :=
      externalizePool_moves_one_tier_up pool ext tx i hi htx hnot
    have hsame : new1 = new := by
      rw [hnew] at hnew1
      injection hnew1 with hnew1
      exact hnew1.symm
    subst hsame
    refine ⟨hin, hout ?_⟩
    intro j hj hmem
    exact hj (tier_unique_of_PoolUnique pool hu j i tx hmem htx)

/-- C10 on a reachable pool: after `exampleTxA` and `exampleTxB` were submitted to a fresh
Herder, whose pool has distinct hashes and four tiers, the set `[exampleTxB]` externalizes:
tier 0 is emptied and `exampleTxA` is in tier 1 and in no other tier. -/
theorem C10_aged_into_next_tier_only_witness :
    exampleThreeSubmissions.mReceivedTransactions = [[exampleTxA, exampleTxB], [], [], []] ∧
    externalizePool exampleThreeSubmissions.mReceivedTransactions ⟨5, [exampleTxB]⟩ =
      .ok [[], [exampleTxA], [], []] ∧
    ∃ new, externalizePool exampleThreeSubmissions.mReceivedTransactions ⟨5, [exampleTxB]⟩ =
        .ok new ∧ tier new 0 = [] ∧
      ∀ (tx : TransactionFrame) (i : Nat),
        i + 1 < exampleThreeSubmissions.mReceivedTransactions.length →
        tx ∈ tier exampleThreeSubmissions.mReceivedTransactions i →
        (∀ e ∈ (⟨5, [exampleTxB]⟩ : TxSetFrame).mTransactions, e.fullHash ≠ tx.fullHash) →
        tx ∈ tier new (i + 1) ∧ ∀ j, j ≠ i + 1 → tx ∉ tier new j :=
  ⟨by decide, rfl,
    C10_aged_into_next_tier_only exampleThreeSubmissions.mReceivedTransactions
      ⟨5, [exampleTxB]⟩
      (PoolUnique_of_reachable _
        (HerderImpl.PoolReachable.recvTransaction exampleApplication _ exampleTxA
          (HerderImpl.PoolReachable.recvTransaction exampleApplication _ exampleTxB
            (HerderImpl.PoolReachable.recvTransaction exampleApplication _ exampleTxA
              (HerderImpl.PoolReachable.constructed exampleHerder rfl)))))
      (by decide)⟩

end stellar
